import Mathlib

/-!
# EDGAR index traversal and tagged-payload extraction (package `sec`)

A shallow embedding of the Go package `sec`:

* `edgar_index_entry.go`: `EDGARIndexEntry`, `ParseEDGARIndexEntry`, `String`, `URL`;
* `edgar_index.go`: `ParseEDGARIndex`, `Client.GetEDGARIndexEntries`;
* `tag_from_sec_document.go`: `tagFromSECDocumentReader.Read`, `ExtractTagFromSECDocument`;
* `form4.go`: `ParseForm4FromSECDocument`, `Client.GetForm4Filings`.

Conventions of the embedding.

* A Go `string` holding text is a Lean `String`; the library functions used by the
  package (`strings.Split`, `strings.Join`, `strings.TrimSpace`, `strconv.Atoi`,
  `strconv.Itoa`, `time.Parse` and `Time.Format` for the layout `2006-01-02`) are
  written out on the list of characters.
* A Go `error` is a value of `Error`; `nil` is `none`.
* A `bufio.Scanner` is the list of lines it will yield until `Scan` returns false,
  the value `Err()` reports then, the number of lines that are yielded after the
  error has been recorded, and the token it holds after `bufio.ErrTooLong`;
  `NewScanner` builds it from the text a reader delivers, with the limit of
  `bufio.MaxScanTokenSize` bytes on a line.
* A callback `func(x) error` with side effects is a function `σ → α → σ × Option Error`
  on an explicit callback state `σ`; `logged` records the arguments it is invoked on.
* `time.Now()` and the HTTP client are parameters.
-/

namespace Sec

/-! ## Errors -/

/-- The error values the package produces or passes on. -/
inductive Error where
  /-- The sentinel `io.EOF`. -/
  | EOF
  /-- The value of `errors.New("sec.ParseEDGARIndexEntry: wrong number of columns for EDGAR index entry")`. -/
  | wrongColumns
  /-- A `*strconv.NumError` of `strconv.Atoi`; `num` is the text that failed to convert. -/
  | numError (num : String)
  /-- A `*time.ParseError` of `time.Parse`; `value` is the text that failed to parse. -/
  | parseError (value : String)
  /-- A `httpext.StatusError{URL, StatusCode}`. -/
  | statusError (url : String) (code : Nat)
  /-- The value of `fmt.Errorf("sec.ExtractTagFromSECDocument: missing tag \"%s\"", tag)`. -/
  | missingTag (tag : String)
  /-- The sentinel `bufio.ErrTooLong`. -/
  | tooLong
  /-- Any other error of a collaborator (transport, gzip, reader, callback). -/
  | other (msg : String)
  deriving DecidableEq, Repr

deriving instance DecidableEq for Except

/-! ## Strings -/

/-- The pieces of `s` between the occurrences of `sep` (`strings.Split` on characters):
there is always at least one piece, and `n` separators give `n + 1` pieces. -/
def splitChars (sep : Char) : List Char → List (List Char)
  | [] => [[]]
  | c :: cs =>
    if c = sep then [] :: splitChars sep cs
    else
      match splitChars sep cs with
      | [] => [[c]]
      | w :: ws => (c :: w) :: ws

/-- The pieces joined with `sep` between them (`strings.Join` on characters). -/
def joinChars (sep : Char) : List (List Char) → List Char
  | [] => []
  | [w] => w
  | w :: v :: ws => w ++ sep :: joinChars sep (v :: ws)

/-- Go `strings.Split(s, "|")` for a one-character separator. -/
def strings.Split (s : String) (sep : Char) : List String :=
  (splitChars sep s.data).map String.mk

/-- Go `strings.Join(elems, "|")` for a one-character separator. -/
def strings.Join (elems : List String) (sep : Char) : String :=
  String.mk (joinChars sep (elems.map String.data))

/-- Go `unicode.IsSpace`: the Latin-1 spaces and the code points with the Unicode
property White_Space. -/
def isSpace (c : Char) : Bool :=
  let n := c.toNat
  n = 0x09 || n = 0x0A || n = 0x0B || n = 0x0C || n = 0x0D || n = 0x20 ||
  n = 0x85 || n = 0xA0 || n = 0x1680 || (0x2000 ≤ n && n ≤ 0x200A) ||
  n = 0x2028 || n = 0x2029 || n = 0x202F || n = 0x205F || n = 0x3000

/-- Go `strings.TrimSpace`: all leading and trailing white space removed. -/
def strings.TrimSpace (s : String) : String :=
  String.mk ((s.data.dropWhile isSpace).reverse.dropWhile isSpace).reverse

/-! ## Decimal numbers -/

/-- The value of a decimal digit character, `none` for any other character. -/
def digitVal (c : Char) : Option Nat :=
  if 48 ≤ c.toNat ∧ c.toNat ≤ 57 then some (c.toNat - 48) else none

/-- The loop `n = n*10 + int(ch - '0')` over the characters, failing on a non-digit. -/
def parseDigits : List Char → Nat → Option Nat
  | [], n => some n
  | c :: cs, n =>
    match digitVal c with
    | none => none
    | some d => parseDigits cs (n * 10 + d)

/-- Go `strconv.Atoi` on a 64-bit platform: an optional sign, then at least one
decimal digit and nothing else, the value within the range of `int`. -/
def strconv.Atoi (s : String) : Except Error Int :=
  let body :=
    match s.data with
    | '-' :: r => r
    | '+' :: r => r
    | r => r
  if body = [] then .error (.numError s)
  else
    match parseDigits body 0 with
    | none => .error (.numError s)
    | some n =>
      let v : Int := if s.data.head? = some '-' then -(n : Int) else (n : Int)
      if -9223372036854775808 ≤ v ∧ v ≤ 9223372036854775807 then .ok v
      else .error (.numError s)

/-- The decimal digits of `n`, most significant first; `fuel` bounds their number. -/
def natDigits : Nat → Nat → List Char
  | 0, _ => []
  | fuel + 1, n =>
    if n < 10 then [Nat.digitChar n]
    else natDigits fuel (n / 10) ++ [Nat.digitChar (n % 10)]

/-- The decimal representation of a natural number. -/
def formatNat (n : Nat) : List Char := natDigits (n + 1) n

/-- Go `strconv.Itoa`: the shortest decimal form, with `-` for a negative number. -/
def strconv.Itoa (x : Int) : String :=
  String.mk ((if x < 0 then ['-'] else []) ++ formatNat x.natAbs)

/-- The helper `appendInt(b, x, width)` of package `time`: the decimal form of `x`,
0-padded on the left to `width` digits, after `-` for a negative number. -/
def appendInt (x : Int) (width : Nat) : List Char :=
  let ds := formatNat x.natAbs
  (if x < 0 then ['-'] else []) ++ List.replicate (width - ds.length) '0' ++ ds

/-! ## Calendar time -/

/-- Go `isLeap`. -/
def isLeap (year : Int) : Bool :=
  year % 4 = 0 && (year % 100 != 0 || year % 400 = 0)

/-- The table `daysBefore` of package `time`: `daysBefore m` is the number of days
of a non-leap year before the month after month `m` (so `daysBefore 0 = 0`). -/
def daysBefore (m : Nat) : Nat :=
  [0, 31, 59, 90, 120, 151, 181, 212, 243, 273, 304, 334, 365].getD m 365

/-- Go `daysIn(m, year)`. -/
def daysIn (m : Nat) (year : Int) : Nat :=
  if m = 2 ∧ isLeap year then 29 else daysBefore m - daysBefore (m - 1)

/-- The number of nanoseconds of a day. -/
def nanosPerDay : Nat := 86400000000000

/-- A `time.Time`: an instant, presented as the calendar date and clock reading in
its location together with that location's offset from UTC at the instant. `Year()`
and `Month()` are the fields `year` and `month`. -/
structure Time where
  /-- The result of `Year()`. -/
  year : Int
  /-- The result of `Month()`, January being 1. -/
  month : Nat
  /-- The result of `Day()`. -/
  day : Nat
  /-- The nanoseconds elapsed since midnight in the location. -/
  nanos : Nat
  /-- The seconds east of UTC of the location. -/
  offset : Int
  month_ok : 1 ≤ month ∧ month ≤ 12
  day_ok : 1 ≤ day ∧ day ≤ daysIn month year
  nanos_ok : nanos < nanosPerDay
  deriving DecidableEq

/-- The days from January 1 of year 1 to January 1 of `year` (Go `daysSinceEpoch`,
counted from year 1). -/
def daysSinceEpoch (year : Int) : Int :=
  365 * (year - 1) + (year - 1) / 4 - (year - 1) / 100 + (year - 1) / 400

/-- The instant of `t` in nanoseconds since January 1, year 1, 00:00:00 UTC (the
zero `time.Time`). -/
def Time.instant (t : Time) : Int :=
  ((daysSinceEpoch t.year + daysBefore (t.month - 1)
      + (if isLeap t.year ∧ 3 ≤ t.month then 1 else 0) + (t.day - 1 : Nat)) * 86400
    - t.offset) * 1000000000 + t.nanos

/-- Go `t.Before(u)`. -/
def Time.Before (t u : Time) : Bool := decide (t.instant < u.instant)

/-- Go `t.After(u)`. -/
def Time.After (t u : Time) : Bool := decide (t.instant > u.instant)

/-- Go `t.IsZero()`: `t` is the instant January 1, year 1, 00:00:00 UTC. -/
def Time.IsZero (t : Time) : Bool := decide (t.instant = 0)

/-- Go `time.Date(year, month, day, 0, 0, 0, 0, time.UTC)` for a month and a day in
range (no normalisation is needed then). -/
def time.Date (year : Int) (month day : Nat) (hm : 1 ≤ month ∧ month ≤ 12)
    (hd : 1 ≤ day ∧ day ≤ daysIn month year) : Time :=
  ⟨year, month, day, 0, 0, hm, hd, by decide⟩

/-- Go `isDigit(s, i)` of package `time`. -/
def isDigit (s : List Char) (i : Nat) : Bool :=
  match s.get? i with
  | none => false
  | some c => (digitVal c).isSome

/-- Go `getnum(s, fixed)` of package `time` with `fixed = true`: exactly two digits. -/
def getnum (s : List Char) : Option (Nat × List Char) :=
  match s with
  | a :: b :: rest =>
    match digitVal a, digitVal b with
    | some x, some y => some (x * 10 + y, rest)
    | _, _ => none
  | _ => none

/-- Go `time.Parse("2006-01-02", value)`: four digits of year, `-`, two digits of
month in 1..12, `-`, two digits of day, no further text, and the day within the
month; the result is midnight UTC of that date. -/
def time.Parse (value : String) : Except Error Time :=
  let v := value.data
  -- stdLongYear
  if v.length < 4 ∨ !isDigit v 0 then .error (.parseError value)
  else
    match parseDigits (v.take 4) 0 with
    | none => .error (.parseError value)
    | some year =>
      -- the literal "-"
      match v.drop 4 with
      | '-' :: v1 =>
        -- stdZeroMonth
        match getnum v1 with
        | none => .error (.parseError value)
        | some (month, v2) =>
          if hm : 1 ≤ month ∧ month ≤ 12 then
            -- the literal "-"
            match v2 with
            | '-' :: v3 =>
              -- stdZeroDay
              match getnum v3 with
              | none => .error (.parseError value)
              | some (day, v4) =>
                -- extra text
                if v4 ≠ [] then .error (.parseError value)
                -- day out of range
                else if hd : 1 ≤ day ∧ day ≤ daysIn month (year : Int) then
                  .ok (time.Date year month day hm hd)
                else .error (.parseError value)
            | _ => .error (.parseError value)
          else .error (.parseError value)
      | _ => .error (.parseError value)

/-- Go `t.Format("2006-01-02")`. -/
def Time.Format (t : Time) : String :=
  String.mk (appendInt t.year 4 ++ '-' :: appendInt t.month 2 ++ '-' :: appendInt t.day 2)

/-! ## Index entries -/

/-- An `EDGARIndexEntry`: one entry of an EDGAR index. -/
structure EDGARIndexEntry where
  CIK : Int
  CompanyName : String
  FormType : String
  DateFiled : Time
  Filename : String
  deriving DecidableEq

/-- Go `ParseEDGARIndexEntry(s)`. -/
def ParseEDGARIndexEntry (s : String) : Except Error EDGARIndexEntry :=
  match strings.Split s '|' with
  | [c0, c1, c2, c3, c4] =>
    match strconv.Atoi c0 with
    | .error err => .error err
    | .ok cik =>
      match time.Parse c3 with
      | .error err => .error err
      | .ok dateFiled => .ok ⟨cik, c1, c2, dateFiled, c4⟩
  | _ => .error .wrongColumns

/-- Go `EDGARIndexEntry.URL()`. -/
def EDGARIndexEntry.URL (e : EDGARIndexEntry) : String :=
  "https://www.sec.gov/Archives/" ++ e.Filename

/-- Go `EDGARIndexEntry.String()`. -/
def EDGARIndexEntry.String (e : EDGARIndexEntry) : String :=
  strings.Join [strconv.Itoa e.CIK, e.CompanyName, e.FormType, e.DateFiled.Format, e.Filename] '|'

/-! ## Scanning an index -/

/-- The bytes of a string (its UTF-8 encoding), as `scanner.Bytes()` returns them. -/
def bytes (s : String) : List UInt8 :=
  s.data.flatMap String.utf8EncodeChar

/-- A `bufio.Scanner` with the split function `bufio.ScanLines`, between two calls of
`Scan`.

* `lines`: the lines the next calls of `Scan` yield, up to the call that returns false.
* `err`: the value of `Err()` once `Scan` has returned false: `none` at a clean end of
  the input, the error of the reader when reading failed, `bufio.ErrTooLong` when a
  line did not fit in the buffer.
* `pending`: the error is on record, and `Err()` reports it, as soon as fewer than
  `pending` lines are left to be yielded. The scanner records the error of the reader
  when it receives it, which can be while lines it has already read are still to be
  yielded.
* `held`: after `bufio.ErrTooLong`, the bytes the buffer holds, which one further call
  of `Scan` yields as a token. -/
structure Scanner where
  lines : List String
  err : Option Error
  pending : Nat
  held : Option String
  deriving DecidableEq

/-- The token one further call of `Scan` yields after `Scan` has returned false: the
held bytes after `bufio.ErrTooLong`, nothing otherwise. -/
def Scanner.afterEnd (sc : Scanner) : List String :=
  if sc.err = some .tooLong then sc.held.toList else []

/-- Go `(*Scanner).Scan()`: the token when the call returns true, `none` when it
returns false, and the scanner after the call. When the call returns false the error
is on record. -/
def Scanner.Scan (sc : Scanner) : Option String × Scanner :=
  match sc.lines with
  | line :: rest => (some line, ⟨rest, sc.err, sc.pending, sc.held⟩)
  | [] => (none, ⟨sc.afterEnd, sc.err, sc.afterEnd.length + 1, none⟩)

/-- Go `(*Scanner).Err()`, after a call of `Scan`: the error, once it is on record. -/
def Scanner.Err (sc : Scanner) : Option Error :=
  if sc.lines.length < sc.pending then sc.err else none

/-- The constant `bufio.MaxScanTokenSize`, the size the buffer of a scanner grows to:
`64 * 1024`. -/
def MaxScanTokenSize : Nat := 64 * 1024

/-- The function `dropCR` of `bufio`: `bufio.ScanLines` drops one carriage return
at the end of a line. -/
def dropCR (line : String) : String :=
  match line.data.getLast? with
  | some '\r' => String.mk line.data.dropLast
  | _ => line

/-- The longest prefix of a text that takes `n` bytes at most. -/
def takeBytes : Nat → List Char → List Char
  | _, [] => []
  | n, c :: cs =>
    if (String.utf8EncodeChar c).length ≤ n then
      c :: takeBytes (n - (String.utf8EncodeChar c).length) cs
    else []

/-- The text an `io.Reader` delivers to a scanner.

* `lines`: the text cut at the line feeds, each line without its line feed (a
  carriage return before the line feed is part of the line).
* `err`: what the reader returns after the text: `none` for `io.EOF`, or its error.
* `pending`: how many of the last lines the scanner has read but not yet yielded
  when it receives that error (0 when the error comes with no line outstanding). -/
structure Reader where
  lines : List String
  err : Option Error
  pending : Nat
  deriving DecidableEq

/-- The lines `Scan` yields of the lines of a text, and the line the scan stops at
with `bufio.ErrTooLong`, if any: a line goes into the buffer together with its line
feed, so a line of `MaxScanTokenSize` bytes or more does not fit. (A last line of
exactly `MaxScanTokenSize` bytes that no line feed follows is still yielded when the
reader returns `io.EOF` together with the last bytes of it; the reader is taken to
return `io.EOF` by a call of its own.) -/
def scanText : List String → List String × Option String
  | [] => ([], none)
  | line :: rest =>
    if MaxScanTokenSize ≤ (bytes line).length then ([], some line)
    else (dropCR line :: (scanText rest).1, (scanText rest).2)

/-- Go `bufio.NewScanner(r)` for a reader that delivers the text `rd`. When a line
does not fit, the buffer holds the first `MaxScanTokenSize` bytes of it (of a
character that straddles the limit it holds the first bytes only, which this text
leaves out), and `bufio.ErrTooLong` is not on record before `Scan` returns false. -/
def NewScanner (rd : Reader) : Scanner :=
  match scanText rd.lines with
  | (ls, some line) =>
    ⟨ls, some .tooLong, 0, some (dropCR (String.mk (takeBytes MaxScanTokenSize line.data)))⟩
  | (ls, none) => ⟨ls, rd.err, rd.pending, none⟩

/-- The lines the loop `for i := 0; scanner.Scan() && i < 11; i++ {}`, started with
counter `i`, leaves of the lines a scanner yields. `Scan` is called before the counter
is tested, so the call that ends the loop has consumed a line too. -/
def skipLines (i : Nat) : List String → List String
  | [] => []
  | _ :: rest => if i < 11 then skipLines (i + 1) rest else rest

/-- The loop `for i := 0; scanner.Scan() && i < 11; i++ {}` started with counter `i`:
the scanner when the loop ends. The first argument bounds the number of calls of
`Scan`; the loop makes 12 calls at most. -/
def skipLoop : Nat → Nat → Scanner → Scanner
  | 0, _, sc => sc
  | n + 1, i, sc =>
    match sc.Scan with
    | (none, sc1) => sc1
    | (some _, sc1) => if i < 11 then skipLoop n (i + 1) sc1 else sc1

/-- The loop `for scanner.Scan() { ... }` of `ParseEDGARIndex` followed by
`return scanner.Err()`, on the lines the scanner yields until `Scan` returns false and
the value `scanErr` of `Err()` then. -/
def parseEntries {σ : Type} (f : σ → EDGARIndexEntry → σ × Option Error)
    (scanErr : Option Error) : List String → σ → σ × Option Error
  | [], s => (s, scanErr)
  | l :: rest, s =>
    match ParseEDGARIndexEntry l with
    | .error err => (s, some err)
    | .ok e =>
      match f s e with
      | (s1, some err) => (s1, some err)
      | (s1, none) => parseEntries f scanErr rest s1

/-- Go `ParseEDGARIndex(r, f)` on the scanner `bufio.NewScanner(r)`, started with the
callback in state `s`: the state the callback is left in and the error returned. -/
def ParseEDGARIndex {σ : Type} (r : Scanner) (f : σ → EDGARIndexEntry → σ × Option Error)
    (s : σ) : σ × Option Error :=
  parseEntries f (skipLoop 12 0 r).err (skipLoop 12 0 r).lines s

/-- The callback `f` instrumented with the list of the arguments it has been invoked
on, oldest first. -/
def logged {σ α : Type} (f : σ → α → σ × Option Error) :
    σ × List α → α → (σ × List α) × Option Error :=
  fun w x => (((f w.1 x).1, w.2 ++ [x]), (f w.1 x).2)

/-! ## Traversing the archive -/

/-- A `*gzip.Reader` over a response body. -/
structure GzipReader where
  /-- The scanner `bufio.NewScanner(zr)` over the decompressed content. -/
  scanner : Scanner
  /-- The result of `zr.Close()`. -/
  closeErr : Option Error
  deriving DecidableEq

/-- The body of a response. -/
structure Body where
  /-- The result of `gzip.NewReader(resp.Body)`; it is `io.EOF` for a body of zero
  bytes. -/
  gzip : Except Error GzipReader
  /-- The scanner `bufio.NewScanner(resp.Body)` over the body read as text. -/
  text : Scanner
  /-- The result of `resp.Body.Close()`. -/
  closeErr : Option Error
  deriving DecidableEq

/-- An `*http.Response`. -/
structure Response where
  StatusCode : Nat
  Body : Body
  deriving DecidableEq

/-- A `Client`: what `c.client.Get(url)` returns for each URL. The traversal asks
for every URL at most once. `IsErrorStatus` is `httpext.IsErrorStatus`, a function
of a package outside this repository. -/
structure Client where
  Get : String → Except Error Response
  IsErrorStatus : Nat → Bool

/-- What the traversal does to the outside world. -/
inductive Event where
  /-- The call `c.client.Get(url)` for the index of a year and a quarter. -/
  | get (year quarter : Int)
  /-- The call `zr.Close()` for that index. -/
  | closeGzip (year quarter : Int)
  /-- The call `resp.Body.Close()` for that index. -/
  | closeBody (year quarter : Int)
  deriving DecidableEq, Repr

/-- The state of a traversal: the state of the callback, the entries it has been
invoked on and the events so far, oldest first. -/
structure Run (σ : Type) where
  state : σ
  calls : List EDGARIndexEntry
  events : List Event

/-- The run with one more event. -/
def Run.emit {σ : Type} (w : Run σ) (ev : Event) : Run σ :=
  { w with events := w.events ++ [ev] }

/-- The URL `fmt.Sprintf("https://www.sec.gov/Archives/edgar/full-index/%d/QTR%d/master.gz",
year, quarter)`. -/
def indexURL (year quarter : Int) : String :=
  "https://www.sec.gov/Archives/edgar/full-index/" ++ strconv.Itoa year ++ "/QTR"
    ++ strconv.Itoa quarter ++ "/master.gz"

/-- The closure `func(e EDGARIndexEntry) error` that `GetEDGARIndexEntries` passes to
`ParseEDGARIndex`. -/
def rangeFilter {σ : Type} (start end_ : Time) (f : σ → EDGARIndexEntry → σ × Option Error) :
    σ → EDGARIndexEntry → σ × Option Error :=
  fun s e => if !e.DateFiled.Before start && !e.DateFiled.After end_ then f s e else (s, none)

/-- The body of the loop over the quarters. The second component is `none` when the
body runs to its end (the loop goes on) and `some r` when it executes `return r`. -/
def fetchPartition {σ : Type} (c : Client) (start end_ : Time)
    (f : σ → EDGARIndexEntry → σ × Option Error) (year quarter : Int) (w : Run σ) :
    Run σ × Option (Option Error) :=
  let url := indexURL year quarter
  let w0 := w.emit (.get year quarter)
  match c.Get url with
  | .error err => (w0, some (some err))
  | .ok resp =>
    if c.IsErrorStatus resp.StatusCode then
      (w0.emit (.closeBody year quarter), some (some (.statusError url resp.StatusCode)))
    else
      match resp.Body.gzip with
      | .error err =>
        (w0.emit (.closeBody year quarter), some (if err = .EOF then none else some err))
      | .ok zr =>
        let p := ParseEDGARIndex zr.scanner (rangeFilter start end_ (logged f)) (w0.state, w0.calls)
        let w1 : Run σ := ⟨p.1.1, p.1.2, w0.events⟩
        match p.2 with
        | some err =>
          ((w1.emit (.closeGzip year quarter)).emit (.closeBody year quarter), some (some err))
        | none =>
          match zr.closeErr with
          | some err =>
            ((w1.emit (.closeGzip year quarter)).emit (.closeBody year quarter), some (some err))
          | none =>
            match resp.Body.closeErr with
            | some err =>
              ((w1.emit (.closeGzip year quarter)).emit (.closeBody year quarter),
                some (some err))
            | none =>
              ((w1.emit (.closeGzip year quarter)).emit (.closeBody year quarter), none)

/-- A `for` loop whose variable takes the values of the list in order and whose body
may execute `return`. -/
def loopOver {σ α : Type} (body : α → Run σ → Run σ × Option (Option Error)) :
    List α → Run σ → Run σ × Option (Option Error)
  | [], w => (w, none)
  | x :: xs, w =>
    match body x w with
    | (w1, some r) => (w1, some r)
    | (w1, none) => loopOver body xs w1

/-- The values of the variable of `for v := hi; v >= lo; v--`. -/
def countDown (hi lo : Int) : List Int :=
  (List.range (hi + 1 - lo).toNat).map (fun (i : Nat) => hi - (i : Int))

/-- The `switch` on a month that sets the quarter: 1 for the months 1, 2, 3, then 2,
3 and 4; a month outside 1..12 leaves the initial value `init`. -/
def monthQuarter (month : Nat) (init : Int) : Int :=
  if month = 1 ∨ month = 2 ∨ month = 3 then 1
  else if month = 4 ∨ month = 5 ∨ month = 6 then 2
  else if month = 7 ∨ month = 8 ∨ month = 9 then 3
  else if month = 10 ∨ month = 11 ∨ month = 12 then 4
  else init

/-- The value of `endQuarter` in the iteration for `year`. -/
def endQuarter (end_ : Time) (year : Int) : Int :=
  if year = end_.year then monthQuarter end_.month 4 else 4

/-- The value of `startQuarter` in the iteration for `year`. -/
def startQuarter (start : Time) (year : Int) : Int :=
  if year = start.year then monthQuarter start.month 1 else 1

/-- The end of the range in force: `end`, or the current time when `end` is zero. -/
def effectiveEnd (now end_ : Time) : Time :=
  if end_.IsZero then now else end_

/-- The result of a traversal: the state the callback is left in, the entries it was
invoked on, the events, and the error returned. -/
structure Outcome (σ : Type) where
  state : σ
  calls : List EDGARIndexEntry
  events : List Event
  err : Option Error

/-- Go `(*Client).GetEDGARIndexEntries(start, end, f)` for a client `c`, with `now`
the value of `time.Now()` and `s` the initial state of the callback. -/
def GetEDGARIndexEntries {σ : Type} (c : Client) (now start end_ : Time)
    (f : σ → EDGARIndexEntry → σ × Option Error) (s : σ) : Outcome σ :=
  let end1 := effectiveEnd now end_
  let r := loopOver
    (fun year w =>
      loopOver (fun quarter w1 => fetchPartition c start end1 f year quarter w1)
        (countDown (endQuarter end1 year) (startQuarter start year)) w)
    (countDown end1.year start.year) ⟨s, [], []⟩
  ⟨r.1.state, r.1.calls, r.1.events, r.2.getD none⟩

/-- The index partitions a traversal asked for, in order. -/
def fetched : List Event → List (Int × Int)
  | [] => []
  | .get y q :: evs => (y, q) :: fetched evs
  | _ :: evs => fetched evs

/-! ## Extracting a tag -/

/-- The line that opens a tag. -/
def openTag (tag : String) : String := "<" ++ tag ++ ">"

/-- The line that closes a tag. -/
def closeTag (tag : String) : String := "</" ++ tag ++ ">"

/-- A `tagFromSECDocumentReader`; `scanner` is `none` for the nil scanner. -/
structure tagFromSECDocumentReader where
  scanner : Option Scanner
  tag : String
  deriving DecidableEq

/-- What a call `Read(p)` gives back: the bytes `copy` has written to the front of
`p`, and the results `n` and `err`. -/
structure ReadResult where
  data : List UInt8
  n : Nat
  err : Option Error
  deriving DecidableEq

/-- Go `(*tagFromSECDocumentReader).Read(p)` for a buffer `p` of length `lenP`: the
reader after the call, and the result. `copy(p, b)` writes the first
`min(len(p), len(b))` bytes of `b`. -/
def tagFromSECDocumentReader.Read (r : tagFromSECDocumentReader) (lenP : Nat) :
    tagFromSECDocumentReader × ReadResult :=
  match r.scanner with
  | none => (r, ⟨[], 0, some .EOF⟩)
  | some sc =>
    match sc.Scan with
    | (none, sc1) =>
      match sc1.Err with
      | some err => (⟨some sc1, r.tag⟩, ⟨[], 0, some err⟩)
      | none => (⟨some sc1, r.tag⟩, ⟨[], 0, some .EOF⟩)
    | (some line, sc1) =>
      if strings.TrimSpace line = closeTag r.tag then
        (⟨none, r.tag⟩, ⟨[], 0, some .EOF⟩)
      else
        (⟨some sc1, r.tag⟩, ⟨(bytes line).take lenP, (bytes line).length, none⟩)

/-- The loop `for scanner.Scan() { ... }` of `ExtractTagFromSECDocument`: the value of
`found` and the lines left in the scanner when the loop ends. -/
def skipToTag (tag : String) : List String → Bool × List String
  | [] => (false, [])
  | line :: rest =>
    if strings.TrimSpace line = openTag tag then (true, rest) else skipToTag tag rest

/-- Go `ExtractTagFromSECDocument(r, tag)` on the scanner `bufio.NewScanner(r)`. The
test of `scanner.Err()` comes before the test of `found`: when the loop ends by
`break`, an error the scanner has recorded by then is returned although the tag has
been found. -/
def ExtractTagFromSECDocument (r : Scanner) (tag : String) :
    Except Error tagFromSECDocumentReader :=
  match skipToTag tag r.lines with
  | (true, rest) =>
    match Scanner.Err ⟨rest, r.err, r.pending, r.held⟩ with
    | some err => .error err
    | none => .ok ⟨some ⟨rest, r.err, r.pending, r.held⟩, tag⟩
  | (false, _) =>
    match (Scanner.Scan ⟨[], r.err, r.pending, r.held⟩).2.Err with
    | some err => .error err
    | none => .error (.missingTag tag)

/-- The results of `k` successive calls of `Read`, each with a buffer of length
`lenP`. -/
def readN (r : tagFromSECDocumentReader) (lenP : Nat) : Nat → List ReadResult
  | 0 => []
  | k + 1 => (r.Read lenP).2 :: readN (r.Read lenP).1 lenP k

/-- The result of a `Read` that signals the end of the stream. -/
def endOfStream : ReadResult := ⟨[], 0, some .EOF⟩

/-- The envelope of the example: a tag `XML` with two payload lines. -/
def sampleEnvelope : List String :=
  ["<SEC-DOCUMENT>0001357521-18-000008.txt : 20181015", "<TYPE>4", "<XML>",
   "PAYLOAD-LINE-1", "PAYLOAD-LINE-2", "</XML>", "</TEXT>", "</SEC-DOCUMENT>"]

/-! ## Form 4 filings -/

/-- What `form4.go` uses and the files at hand do not define: the constants `FormType4`
and `FormType4A`, and the decoding `xml.NewDecoder(r).Decode(&form)` of `ParseForm4`,
as a function of the reader it consumes. `Form4` is the type of the decoded filing. -/
structure Form4Decoder (Form4 : Type) where
  FormType4 : String
  FormType4A : String
  ParseForm4 : tagFromSECDocumentReader → Except Error Form4

/-- Go `ParseForm4FromSECDocument(r)`. -/
def ParseForm4FromSECDocument {Form4 : Type} (dec : Form4Decoder Form4) (r : Scanner) :
    Except Error Form4 :=
  match ExtractTagFromSECDocument r "XML" with
  | .error err => .error err
  | .ok rd => dec.ParseForm4 rd

/-- What the traversal of the filings does to the documents. -/
inductive DocEvent where
  /-- The call `c.client.Get(url)` for a document. -/
  | get (url : String)
  /-- The call `resp.Body.Close()` for that document. -/
  | closeBody (url : String)
  deriving DecidableEq, Repr

/-- The state of a traversal of the filings: the state of the callback, the filings it
has been invoked on and the document events so far, oldest first. -/
structure FilingRun (σ Form4 : Type) where
  state : σ
  filings : List Form4
  docs : List DocEvent

/-- The closure `func(e EDGARIndexEntry) error` that `GetForm4Filings` passes to
`GetEDGARIndexEntries`. -/
def form4Callback {σ Form4 : Type} (c : Client) (dec : Form4Decoder Form4)
    (f : σ → Form4 → σ × Option Error) :
    FilingRun σ Form4 → EDGARIndexEntry → FilingRun σ Form4 × Option Error :=
  fun w e =>
    if e.FormType ≠ dec.FormType4 ∧ e.FormType ≠ dec.FormType4A then (w, none)
    else
      let url := e.URL
      let w0 : FilingRun σ Form4 := { w with docs := w.docs ++ [.get url] }
      match c.Get url with
      | .error _ => (w0, none)
      | .ok resp =>
        if c.IsErrorStatus resp.StatusCode then
          ({ w0 with docs := w0.docs ++ [.closeBody url] },
            some (.statusError url resp.StatusCode))
        else
          match ParseForm4FromSECDocument dec resp.Body.text with
          | .error err => ({ w0 with docs := w0.docs ++ [.closeBody url] }, some err)
          | .ok form =>
            match f w0.state form with
            | (s1, some err) =>
              (⟨s1, w0.filings ++ [form], w0.docs ++ [.closeBody url]⟩, some err)
            | (s1, none) =>
              (⟨s1, w0.filings ++ [form], w0.docs ++ [.closeBody url]⟩, resp.Body.closeErr)

/-- Go `(*Client).GetForm4Filings(start, end, f)` for a client `c`, with `now` the
value of `time.Now()` and `s` the initial state of the callback. -/
def GetForm4Filings {σ Form4 : Type} (c : Client) (dec : Form4Decoder Form4)
    (now start end_ : Time) (f : σ → Form4 → σ × Option Error) (s : σ) :
    Outcome (FilingRun σ Form4) :=
  GetEDGARIndexEntries c now start end_ (form4Callback c dec f) ⟨s, [], []⟩

/-! ## Notions used to state the properties of the entry parser -/

/-- The characters of a numeral after its sign, if it has one. -/
def unsignedPart (c : String) : List Char :=
  match c.data with
  | '-' :: r => r
  | '+' :: r => r
  | r => r

/-- The string is a decimal integer: an optional sign `+` or `-` followed by one or
more decimal digits. -/
def isDecimal (c : String) : Bool :=
  !(unsignedPart c).isEmpty && (unsignedPart c).all fun ch => (digitVal ch).isSome

/-- The integer a decimal integer denotes: the number with its digits in base 10,
negated after the sign `-`. -/
def decimalValue (c : String) : Int :=
  let n : Nat := Nat.ofDigits 10 ((unsignedPart c).reverse.map fun ch => ch.toNat - 48)
  if c.data.head? = some '-' then -(n : Int) else (n : Int)

/-- The string is the form `YYYY-MM-DD` of a calendar date of the years 0 to 9999: four
digits of year, two of month and two of day, 0-padded, the month in 1..12 and the day
within the month. -/
def IsDateText (v : String) : Prop :=
  ∃ (y m d : Nat) (hm : 1 ≤ m ∧ m ≤ 12) (hd : 1 ≤ d ∧ d ≤ daysIn m (y : Int)),
    y ≤ 9999 ∧ v = (time.Date (y : Int) m d hm hd).Format

/-! ## Notions used to state the properties of the traversal -/

/-- The quarter of the month of a time, `ceil(month / 3)`. -/
def quarterOf (t : Time) : Int := ((t.month : Int) + 2) / 3

/-- The lexicographic order on (year, quarter) pairs. -/
def keyLE (a b : Int × Int) : Prop := a.1 < b.1 ∨ (a.1 = b.1 ∧ a.2 ≤ b.2)

instance (a b : Int × Int) : Decidable (keyLE a b) := by
  unfold keyLE; infer_instance

/-- The strict lexicographic order on (year, quarter) pairs. -/
def keyLT (a b : Int × Int) : Prop := a.1 < b.1 ∨ (a.1 = b.1 ∧ a.2 < b.2)

instance (a b : Int × Int) : Decidable (keyLT a b) := by
  unfold keyLT; infer_instance

/-- The values the pair (year, quarter) takes in the two nested loops of
`GetEDGARIndexEntries`, in the order of the iterations. -/
def partitions (start end1 : Time) : List (Int × Int) :=
  (countDown end1.year start.year).flatMap fun year =>
    (countDown (endQuarter end1 year) (startQuarter start year)).map fun quarter =>
      (year, quarter)

/-- The lines of the index of a year and a quarter when the client serves it in
full: the request succeeds with a status that is no error status, the body is a gzip
stream that decompresses without error, and both streams close without error. -/
def servedLines (c : Client) (year quarter : Int) : Option (List String) :=
  match c.Get (indexURL year quarter) with
  | .error _ => none
  | .ok resp =>
    if c.IsErrorStatus resp.StatusCode then none
    else
      match resp.Body.gzip with
      | .error _ => none
      | .ok zr =>
        if zr.scanner.err = none ∧ zr.closeErr = none ∧ resp.Body.closeErr = none then
          some zr.scanner.lines
        else none

/-- The entries of a list of record lines, when every line is a well-formed record. -/
def parseAll : List String → Option (List EDGARIndexEntry)
  | [] => some []
  | l :: ls =>
    match ParseEDGARIndexEntry l, parseAll ls with
    | .ok e, some es => some (e :: es)
    | _, _ => none

/-- The record lines of an index file: the lines after the 11-line preamble every
partition file starts with. -/
def recordLines (ls : List String) : List String := ls.drop 11

/-- The records `ParseEDGARIndex` parses of the index of a year and a quarter, in the
order of the file, when the client serves the index in full and every line after the
twelve lines the skip loop consumes is a well-formed record. -/
def indexEntries (c : Client) (year quarter : Int) : Option (List EDGARIndexEntry) :=
  (servedLines c year quarter).bind fun ls => parseAll (skipLines 0 ls)

/-- The filed date of the entry lies in `[start, end_]`, both bounds included. -/
def inRange (start end_ : Time) (e : EDGARIndexEntry) : Bool :=
  decide (start.instant ≤ e.DateFiled.instant ∧ e.DateFiled.instant ≤ end_.instant)

/-- The state a callback is left in after it has been invoked on the entries in
order. -/
def runCallback {σ : Type} (f : σ → EDGARIndexEntry → σ × Option Error)
    (es : List EDGARIndexEntry) (s : σ) : σ :=
  es.foldl (fun s1 e => (f s1 e).1) s

/-- The traversal of a list of partitions: the loop body run for each in order. -/
def traverse {σ : Type} (c : Client) (start end1 : Time)
    (f : σ → EDGARIndexEntry → σ × Option Error) (ps : List (Int × Int)) (w : Run σ) :
    Run σ × Option (Option Error) :=
  loopOver (fun p w1 => fetchPartition c start end1 f p.1 p.2 w1) ps w

/-- The events of a partition that is fetched, scanned and closed. -/
def partitionEvents (p : Int × Int) : List Event :=
  [.get p.1 p.2, .closeGzip p.1 p.2, .closeBody p.1 p.2]

/-- The records of a partition that lie in the range, in the order of the file (none
when the partition is not served in full or has a malformed line). -/
def inRangeEntries (c : Client) (start end1 : Time) (p : Int × Int) : List EDGARIndexEntry :=
  ((indexEntries c p.1 p.2).getD []).filter (inRange start end1)

/-- The callback returns no error on any of the entries when it is invoked on them in
order, starting in state `s`. -/
def succeeds {σ : Type} (f : σ → EDGARIndexEntry → σ × Option Error) :
    List EDGARIndexEntry → σ → Bool
  | [], _ => true
  | e :: es, s => (f s e).2.isNone && succeeds f es (f s e).1

/-! ## Notions used to state the release of the response bodies -/

/-- One step of the reading of the events of a traversal by `bodiesReleased`. The
state is the partition whose response body is open, if any; the result is `none`
when the event breaks the discipline: a request while a body is open, or the closing
of a body that is not the open one. A request opens a body when it succeeds. -/
def bodyStep (c : Client) : Option (Int × Int) → Event → Option (Option (Int × Int))
  | none, .get y q => some (if (c.Get (indexURL y q)).toBool then some (y, q) else none)
  | some _, .get _ _ => none
  | some p, .closeBody y q => if p = (y, q) then some none else none
  | none, .closeBody _ _ => none
  | st, .closeGzip _ _ => some st

/-- Starting with the body `st` open (or none), the events keep the discipline of
`bodyStep` and leave no body open at the end. -/
def bodiesReleased (c : Client) : Option (Int × Int) → List Event → Bool
  | st, [] => st.isNone
  | st, ev :: evs =>
    match bodyStep c st ev with
    | none => false
    | some st1 => bodiesReleased c st1 evs

/-! ## Sample data -/

/-- The lines of `sampleEDGARIndex` of the tests. -/
def sampleEDGARIndex : List String :=
  ["",
   "Description:           Master Index of EDGAR Dissemination Feed",
   "Last Data Received:    October 20, 2018",
   "Comments:              webmaster@sec.gov",
   "Anonymous FTP:         ftp://ftp.sec.gov/edgar/",
   "Cloud HTTP:            https://www.sec.gov/Archives/",
   "",
   " ",
   " ",
   " ",
   "CIK|Company Name|Form Type|Date Filed|Filename",
   "--------------------------------------------------------------------------------",
   "1000045|NICHOLAS FINANCIAL INC|4|2018-10-15|edgar/data/1000045/0001357521-18-000008.txt",
   "1000184|SAP SE|6-K|2018-10-19|edgar/data/1000184/0001104659-18-062851.txt"]

/-- A response with status 200 whose body is the gzip stream of the given lines. -/
def gzipResponse (ls : List String) : Except Error Response :=
  .ok ⟨200, ⟨.ok ⟨⟨ls, none, 0, none⟩, none⟩, ⟨[], none, 0, none⟩, none⟩⟩

/-- A response with status 200 whose body has zero bytes. -/
def emptyResponse : Except Error Response :=
  .ok ⟨200, ⟨.error .EOF, ⟨[], none, 0, none⟩, none⟩⟩

/-- The client of the tests: every request is answered with the sample index. -/
def sampleClient : Client :=
  ⟨fun _ => gzipResponse sampleEDGARIndex, fun code => decide (400 ≤ code)⟩

/-- An index with four records, filed on 2018-10-14, 2018-10-15, 2018-10-19 and
2018-10-20, after the twelve leading lines of the sample index. -/
def boundaryIndex : List String :=
  sampleEDGARIndex.take 12 ++
    ["1|A|4|2018-10-14|a.txt", "2|B|4|2018-10-15|b.txt", "3|C|4|2018-10-19|c.txt",
     "4|D|4|2018-10-20|d.txt"]

/-- An index whose third record line has four fields (a pipe is missing). -/
def brokenIndex : List String :=
  sampleEDGARIndex ++ ["1000045|NICHOLAS FINANCIAL INC|4|2018-10-15", "5|E|4|2018-10-16|e.txt"]

/-- An index with one record, filed on 2018-08-01, after the twelve leading lines of
the sample index. -/
def summerIndex : List String :=
  sampleEDGARIndex.take 12 ++ ["7|G|4|2018-08-01|g.txt"]

/-- A client whose index for the fourth quarter of 2018 has a body of zero bytes and
whose other indexes are `summerIndex`. -/
def emptyBodyClient : Client :=
  ⟨fun url => if url = indexURL 2018 4 then emptyResponse else gzipResponse summerIndex,
    fun code => decide (400 ≤ code)⟩

/-- A client whose index for the fourth quarter of 2018 is a gzip stream of zero
decompressed bytes and whose other indexes are `summerIndex`. -/
def emptyContentClient : Client :=
  ⟨fun url => if url = indexURL 2018 4 then gzipResponse [] else gzipResponse summerIndex,
    fun code => decide (400 ≤ code)⟩

/-- A client whose every request fails in transport. -/
def failingClient : Client :=
  ⟨fun _ => .error (.other "connection refused"), fun code => decide (400 ≤ code)⟩

/-- A client that answers every request with `boundaryIndex`. -/
def boundaryClient : Client :=
  ⟨fun _ => gzipResponse boundaryIndex, fun code => decide (400 ≤ code)⟩

/-- Midnight UTC of a date of 2018. -/
def utc2018 (month day : Nat) (hm : 1 ≤ month ∧ month ≤ 12 := by decide)
    (hd : 1 ≤ day ∧ day ≤ daysIn month 2018 := by decide) : Time :=
  time.Date 2018 month day hm hd

/-- A callback that does nothing and never fails. -/
def noop : Unit → EDGARIndexEntry → Unit × Option Error := fun _ _ => ((), none)

/-- The sample index without its leading blank line: the eleven lines of the header
of an index file followed by the two records. -/
def elevenLineIndex : List String := sampleEDGARIndex.drop 1

/-- The sample index followed by an empty line and one more record. -/
def blankLineIndex : List String :=
  sampleEDGARIndex ++ ["", "5|E|4|2018-10-16|e.txt"]

/-- A client whose every request is answered with status 404. -/
def notFoundClient : Client :=
  ⟨fun _ => .ok ⟨404, ⟨.error .EOF, ⟨[], none, 0, none⟩, none⟩⟩, fun code => decide (400 ≤ code)⟩

/-- An envelope whose tag `XML` is opened and never closed. -/
def unterminatedEnvelope : List String :=
  ["<SEC-DOCUMENT>", "<XML>", "PAYLOAD-LINE-1", "PAYLOAD-LINE-2"]

/-- A callback that fails with the error `stop` on the entries of the given owner id
and on no other. -/
def failOn (cik : Int) : Unit → EDGARIndexEntry → Unit × Option Error :=
  fun _ e => ((), if e.CIK = cik then some (.other "stop") else none)

/-- The second record of the sample index. -/
def sampleSecondEntry : EDGARIndexEntry :=
  ⟨1000184, "SAP SE", "6-K", utc2018 10 19, "edgar/data/1000184/0001104659-18-062851.txt"⟩

/-- An index with two form 4 records after the twelve leading lines of the sample
index. -/
def form4Index : List String :=
  sampleEDGARIndex.take 12 ++
    ["1000045|NICHOLAS FINANCIAL INC|4|2018-10-15|edgar/data/1000045/a.txt",
     "1000046|OTHER INC|4|2018-10-16|edgar/data/1000046/b.txt"]

/-- A client that serves `form4Index` as every index, fails in transport on the
document of the first record and serves the example envelope as the document of the
second. -/
def form4Client : Client :=
  ⟨fun url =>
      if url = "https://www.sec.gov/Archives/edgar/data/1000045/a.txt" then
        .error (.other "connection reset")
      else if url = "https://www.sec.gov/Archives/edgar/data/1000046/b.txt" then
        .ok ⟨200, ⟨.error .EOF, ⟨sampleEnvelope, none, 0, none⟩, none⟩⟩
      else gzipResponse form4Index,
    fun code => decide (400 ≤ code)⟩

/-- A decoder for which a filing is the list of the lines of the extracted payload. -/
def lineDecoder : Form4Decoder (List String) :=
  ⟨"4", "4/A", fun rd =>
    .ok (((rd.scanner.map Scanner.lines).getD []).takeWhile
      fun l => strings.TrimSpace l ≠ closeTag rd.tag)⟩

/-- A callback on filings that does nothing and never fails. -/
def noopFiling : Unit → List String → Unit × Option Error := fun _ _ => ((), none)

/-- The zero `time.Time`: January 1, year 1, 00:00:00 UTC. -/
def zeroTime : Time := time.Date 1 1 1 (by decide) (by decide)

/-- A reader of the extracted stream that stands before the first payload line of the
example envelope. -/
def payloadReader : tagFromSECDocumentReader :=
  ⟨some ⟨["PAYLOAD-LINE-1", "PAYLOAD-LINE-2", "</XML>", "</TEXT>", "</SEC-DOCUMENT>"], none, 0, none⟩,
    "XML"⟩

/-- The client of the test of `GetForm4Filings`: the document of the first record of
the sample index is the example envelope, and every other request is answered with the
sample index. -/
def filingsTestClient : Client :=
  ⟨fun url =>
      if url = "https://www.sec.gov/Archives/edgar/data/1000045/0001357521-18-000008.txt" then
        .ok ⟨200, ⟨.error .EOF, ⟨sampleEnvelope, none, 0, none⟩, none⟩⟩
      else gzipResponse sampleEDGARIndex,
    fun code => decide (400 ≤ code)⟩

/-- A client that answers every request with the eleven lines of the header of an
index file followed by the two records of the sample. -/
def elevenLineClient : Client :=
  ⟨fun _ => gzipResponse elevenLineIndex, fun code => decide (400 ≤ code)⟩

/-- An index whose first record line has four fields (a pipe is missing): the eleven
lines of the header of an index file, the malformed line, and a well-formed record. -/
def brokenFirstRecordIndex : List String :=
  elevenLineIndex.take 11 ++
    ["1000045|NICHOLAS FINANCIAL INC|4|2018-10-15",
     "1000184|SAP SE|6-K|2018-10-19|edgar/data/1000184/0001104659-18-062851.txt"]

/-- A line of `bufio.MaxScanTokenSize` bytes. -/
def longLine : String := String.mk (List.replicate MaxScanTokenSize 'A')

/-- A well-formed record line of more than `bufio.MaxScanTokenSize` bytes: its company
name is `longLine`. -/
def longRecord : String :=
  strings.Join ["1000045", longLine, "4", "2018-10-15",
    "edgar/data/1000045/0001357521-18-000008.txt"] '|'

/-! ## Theorems -/

/-! ### The scanner -/

/-- After a call of `Scan` that returned false, `Err()` is the field `err`. -/
theorem Scanner.Err_after_end (sc : Scanner) (h : sc.lines = []) :
    (sc.Scan).2.Err = sc.err := by
  simp [Scanner.Scan, Scanner.Err, h]

theorem skipLines_eq_drop (ls : List String) (i : Nat) (hi : i ≤ 11) :
    skipLines i ls = ls.drop (12 - i) := by
  induction ls generalizing i with
  | nil => simp [skipLines]
  | cons l ls ih =>
    simp only [skipLines]
    by_cases h : i < 11
    · simp only [h, if_true]
      rw [ih (i + 1) (by omega)]
      have : 12 - i = (12 - (i + 1)) + 1 := by omega
      rw [this, List.drop_succ_cons]
    · have : i = 11 := by omega
      subst this
      simp

theorem skipLoop_err (n i : Nat) (sc : Scanner) : (skipLoop n i sc).err = sc.err := by
  induction n generalizing i sc with
  | zero => rfl
  | succ n ih =>
    obtain ⟨lines, err, pending, held⟩ := sc
    cases lines with
    | nil => simp [skipLoop, Scanner.Scan]
    | cons l rest =>
      simp only [skipLoop, Scanner.Scan]
      split_ifs
      · rw [ih]
      · rfl

/-- The skip loop ends within 12 calls of `Scan`: a larger bound gives the same
scanner. -/
theorem skipLoop_fuel (n i : Nat) (sc : Scanner) (hi : i ≤ 11) (hn : 12 - i ≤ n) :
    skipLoop n i sc = skipLoop (12 - i) i sc := by
  induction n generalizing i sc with
  | zero => omega
  | succ n ih =>
    obtain ⟨m, hm⟩ : ∃ m, 12 - i = m + 1 := ⟨11 - i, by omega⟩
    rw [hm]
    simp only [skipLoop]
    rcases sc.Scan with ⟨_ | line, sc1⟩
    · rfl
    · simp only
      by_cases h : i < 11
      · simp only [h, if_true]
        rw [ih (i + 1) sc1 (by omega) (by omega)]
        have : 12 - (i + 1) = m := by omega
        rw [this]
      · simp only [h, if_false]

/-- The scanner the skip loop leaves: past the lines `skipLines` drops, or, when `Scan`
has returned false, before the token that may still come. -/
theorem skipLoop_lines (n i : Nat) (sc : Scanner) (hi : i ≤ 11) (hn : 12 - i ≤ n) :
    (skipLoop n i sc).lines =
      if sc.lines.length < 12 - i then sc.afterEnd else skipLines i sc.lines := by
  induction n generalizing i sc with
  | zero => omega
  | succ n ih =>
    obtain ⟨lines, err, pending, held⟩ := sc
    cases lines with
    | nil =>
      have : 0 < 12 - i := by omega
      simp [skipLoop, Scanner.Scan, this]
    | cons l rest =>
      simp only [skipLoop, Scanner.Scan, skipLines, List.length_cons]
      by_cases h : i < 11
      · simp only [h, if_true]
        rw [ih (i + 1) _ (by omega) (by omega)]
        have hiff : rest.length < 12 - (i + 1) ↔ rest.length + 1 < 12 - i := by omega
        simp only [hiff, Scanner.afterEnd]
      · have : i = 11 := by omega
        subst this
        simp

theorem ParseEDGARIndex_of_err {σ : Type} (r : Scanner)
    (f : σ → EDGARIndexEntry → σ × Option Error) (s : σ) (h : r.err ≠ some .tooLong) :
    ParseEDGARIndex r f s = parseEntries f r.err (skipLines 0 r.lines) s := by
  have hl : (skipLoop 12 0 r).lines = skipLines 0 r.lines := by
    rw [skipLoop_lines 12 0 r (by omega) (by omega)]
    split_ifs with hlen
    · rw [skipLines_eq_drop _ 0 (by omega), List.drop_eq_nil_of_le (by omega)]
      simp [Scanner.afterEnd, h]
    · rfl
  simp only [ParseEDGARIndex, skipLoop_err, hl]

theorem ParseEDGARIndex_of_lines {σ : Type} (r : Scanner)
    (f : σ → EDGARIndexEntry → σ × Option Error) (s : σ) (h : skipLines 0 r.lines ≠ []) :
    ParseEDGARIndex r f s = parseEntries f r.err (skipLines 0 r.lines) s := by
  have hl : (skipLoop 12 0 r).lines = skipLines 0 r.lines := by
    rw [skipLoop_lines 12 0 r (by omega) (by omega)]
    split_ifs with hlen
    · rw [skipLines_eq_drop _ 0 (by omega), List.drop_eq_nil_of_le (by omega)] at h
      exact absurd rfl h
    · rfl
  simp only [ParseEDGARIndex, skipLoop_err, hl]

/-! ### The scanner of a text -/

theorem bytes_length_ge (s : String) : s.data.length ≤ (bytes s).length := by
  unfold bytes
  induction s.data with
  | nil => simp
  | cons c cs ih =>
    have hc : 0 < (String.utf8EncodeChar c).length := by
      rw [String.length_utf8EncodeChar]
      exact Char.utf8Size_pos c
    simp only [List.flatMap_cons, List.length_cons, List.length_append]
    omega

theorem scanText_append (short rest : List String)
    (h : ∀ l ∈ short, (bytes l).length < MaxScanTokenSize) :
    scanText (short ++ rest) = (short.map dropCR ++ (scanText rest).1, (scanText rest).2) := by
  induction short with
  | nil => simp
  | cons l ls ih =>
    have hl : ¬ MaxScanTokenSize ≤ (bytes l).length := by
      have := h l (List.mem_cons_self _ _)
      omega
    have ih1 := ih (fun x hx => h x (List.mem_cons_of_mem _ hx))
    simp only [List.cons_append, scanText, hl, if_false, List.map_cons, List.append_eq, ih1]

theorem scanText_short (ls : List String)
    (h : ∀ l ∈ ls, (bytes l).length < MaxScanTokenSize) :
    scanText ls = (ls.map dropCR, none) := by
  have := scanText_append ls [] h
  simpa [scanText] using this

theorem scanText_none (ls : List String) (h : (scanText ls).2 = none) :
    ∀ l ∈ ls, (bytes l).length < MaxScanTokenSize := by
  induction ls with
  | nil => simp
  | cons l ls ih =>
    by_cases hl : MaxScanTokenSize ≤ (bytes l).length
    · simp [scanText, hl] at h
    · simp only [scanText, hl, if_false] at h
      intro x hx
      rcases List.mem_cons.mp hx with rfl | hx
      · omega
      · exact ih h x hx

theorem NewScanner_short (ls : List String) (err : Option Error) (pending : Nat)
    (h : ∀ l ∈ ls, (bytes l).length < MaxScanTokenSize) :
    NewScanner ⟨ls, err, pending⟩ = ⟨ls.map dropCR, err, pending, none⟩ := by
  simp only [NewScanner, scanText_short ls h]

theorem NewScanner_append (short rest : List String) (err : Option Error) (pending : Nat)
    (h : ∀ l ∈ short, (bytes l).length < MaxScanTokenSize) :
    NewScanner ⟨short ++ rest, err, pending⟩ =
      ⟨short.map dropCR ++ (NewScanner ⟨rest, err, pending⟩).lines,
        (NewScanner ⟨rest, err, pending⟩).err, (NewScanner ⟨rest, err, pending⟩).pending,
        (NewScanner ⟨rest, err, pending⟩).held⟩ := by
  simp only [NewScanner, scanText_append short rest h]
  rcases scanText rest with ⟨ls, _ | line⟩ <;> rfl

theorem NewScanner_long (l : String) (rest : List String) (err : Option Error)
    (pending : Nat) (h : MaxScanTokenSize ≤ (bytes l).length) :
    NewScanner ⟨l :: rest, err, pending⟩ =
      ⟨[], some .tooLong, 0, some (dropCR (String.mk (takeBytes MaxScanTokenSize l.data)))⟩ := by
  simp only [NewScanner, scanText, h, if_true]

/-- A scan either reaches the end of the text, and has then yielded every line, or
stops with `bufio.ErrTooLong`, which is not on record before `Scan` returns false. -/
theorem NewScanner_cases (rd : Reader) :
    ((∀ l ∈ rd.lines, (bytes l).length < MaxScanTokenSize)
        ∧ NewScanner rd = ⟨rd.lines.map dropCR, rd.err, rd.pending, none⟩)
      ∨ ((∃ l ∈ rd.lines, MaxScanTokenSize ≤ (bytes l).length)
        ∧ (NewScanner rd).err = some .tooLong ∧ (NewScanner rd).pending = 0) := by
  obtain ⟨ls, err, pending⟩ := rd
  rcases hs : (scanText ls).2 with _ | line
  · left
    exact ⟨scanText_none ls hs, NewScanner_short ls err pending (scanText_none ls hs)⟩
  · right
    refine ⟨?_, ?_⟩
    · by_contra hcon
      push_neg at hcon
      rw [scanText_short ls hcon] at hs
      cases hs
    · rcases hsl : scanText ls with ⟨xs, o⟩
      rw [hsl] at hs
      simp only at hs
      subst hs
      simp [NewScanner, hsl]

/-! ### Loops -/

theorem loopOver_append {σ α : Type} (body : α → Run σ → Run σ × Option (Option Error))
    (xs ys : List α) (w : Run σ) :
    loopOver body (xs ++ ys) w =
      match loopOver body xs w with
      | (w1, some r) => (w1, some r)
      | (w1, none) => loopOver body ys w1 := by
  induction xs generalizing w with
  | nil => simp [loopOver]
  | cons x xs ih =>
    simp only [List.cons_append, loopOver]
    rcases hb : body x w with ⟨w1, _ | r⟩
    · simp [ih]
    · simp

theorem loopOver_map {σ α β : Type} (body : β → Run σ → Run σ × Option (Option Error))
    (g : α → β) (xs : List α) (w : Run σ) :
    loopOver body (xs.map g) w = loopOver (fun x w1 => body (g x) w1) xs w := by
  induction xs generalizing w with
  | nil => simp [loopOver]
  | cons x xs ih =>
    simp only [List.map_cons, loopOver]
    rcases hb : body (g x) w with ⟨w1, _ | r⟩
    · simp [ih]
    · simp

theorem loopOver_flatMap {σ α β : Type} (body : β → Run σ → Run σ × Option (Option Error))
    (g : α → List β) (xs : List α) (w : Run σ) :
    loopOver body (xs.flatMap g) w = loopOver (fun x w1 => loopOver body (g x) w1) xs w := by
  induction xs generalizing w with
  | nil => simp [loopOver]
  | cons x xs ih =>
    simp only [List.flatMap_cons, loopOver_append, loopOver]
    rcases hb : loopOver body (g x) w with ⟨w1, _ | r⟩
    · simp [ih]
    · simp

/-- The two nested loops are the traversal of the list `partitions`. -/
theorem GetEDGARIndexEntries_eq {σ : Type} (c : Client) (now start end_ : Time)
    (f : σ → EDGARIndexEntry → σ × Option Error) (s : σ) :
    GetEDGARIndexEntries c now start end_ f s =
      (let r := traverse c start (effectiveEnd now end_) f
          (partitions start (effectiveEnd now end_)) ⟨s, [], []⟩
       ⟨r.1.state, r.1.calls, r.1.events, r.2.getD none⟩) := by
  simp only [GetEDGARIndexEntries, traverse, partitions, loopOver_flatMap, loopOver_map]

/-! ### One partition -/

theorem rangeFilter_eq {σ : Type} (start end_ : Time)
    (f : σ → EDGARIndexEntry → σ × Option Error) (s : σ) (e : EDGARIndexEntry) :
    rangeFilter start end_ f s e = if inRange start end_ e then f s e else (s, none) := by
  have h : (!e.DateFiled.Before start && !e.DateFiled.After end_) = inRange start end_ e := by
    simp only [Time.Before, Time.After, inRange]
    by_cases h1 : e.DateFiled.instant < start.instant
    all_goals by_cases h2 : e.DateFiled.instant > end_.instant
    all_goals simp [h1, h2]
    all_goals omega
  simp [rangeFilter, h]

theorem parseEntries_ok {σ : Type} (start end1 : Time)
    (f : σ → EDGARIndexEntry → σ × Option Error) (hf : ∀ s e, (f s e).2 = none)
    (scanErr : Option Error) (ls : List String) :
    ∀ (es : List EDGARIndexEntry) (s : σ) (log : List EDGARIndexEntry),
      parseAll ls = some es →
      parseEntries (rangeFilter start end1 (logged f)) scanErr ls (s, log) =
        ((runCallback f (es.filter (inRange start end1)) s,
          log ++ es.filter (inRange start end1)), scanErr) := by
  induction ls with
  | nil =>
    intro es s log h
    simp only [parseAll, Option.some.injEq] at h
    subst h
    simp [parseEntries, runCallback]
  | cons l ls ih =>
    intro es s log h
    simp only [parseAll] at h
    rcases hl : ParseEDGARIndexEntry l with err | e
    · simp [hl] at h
    · rcases hr : parseAll ls with _ | es1
      · simp [hl, hr] at h
      · simp only [hl, hr, Option.some.injEq] at h
        subst h
        simp only [parseEntries, hl, rangeFilter_eq]
        by_cases hin : inRange start end1 e = true
        · have h2 : (logged f (s, log) e).2 = none := by simp [logged, hf]
          have h1 : (logged f (s, log) e).1 = ((f s e).1, log ++ [e]) := by simp [logged]
          rcases hlog : logged f (s, log) e with ⟨w1, r⟩
          rw [hlog] at h1 h2
          simp only at h1 h2
          subst h1 h2
          simp only [hin, if_true, hlog]
          rw [ih es1 _ _ hr]
          simp [List.filter_cons, hin, runCallback]
        · simp only [hin, Bool.false_eq_true, if_false]
          rw [ih es1 _ _ hr]
          simp [List.filter_cons, hin]

theorem fetchPartition_ok {σ : Type} (c : Client) (start end1 : Time)
    (f : σ → EDGARIndexEntry → σ × Option Error) (hf : ∀ s e, (f s e).2 = none)
    (year quarter : Int) (es : List EDGARIndexEntry) (w : Run σ)
    (h : indexEntries c year quarter = some es) :
    fetchPartition c start end1 f year quarter w =
      (⟨runCallback f (es.filter (inRange start end1)) w.state,
        w.calls ++ es.filter (inRange start end1),
        w.events ++ partitionEvents (year, quarter)⟩, none) := by
  simp only [indexEntries, servedLines] at h
  rcases hg : c.Get (indexURL year quarter) with err | resp
  · simp [hg] at h
  · simp only [hg] at h
    by_cases hs : c.IsErrorStatus resp.StatusCode = true
    · simp [hs] at h
    · rcases hz : resp.Body.gzip with err | zr
      · simp [hs, hz] at h
      · simp only [hs, hz] at h
        by_cases hc : zr.scanner.err = none ∧ zr.closeErr = none ∧ resp.Body.closeErr = none
        · simp only [hc, and_self, if_true, Option.some_bind, Bool.false_eq_true, if_false] at h
          obtain ⟨h1, h2, h3⟩ := hc
          simp only [fetchPartition, hg, hs, hz, Run.emit, h2, h3, Bool.false_eq_true, if_false]
          rw [ParseEDGARIndex_of_err _ _ _ (by simp [h1]), h1]
          rw [parseEntries_ok start end1 f hf none _ es _ _ h]
          simp [partitionEvents]
        · simp [hs, hc] at h

/-! ### A traversal in which every partition is served -/

theorem runCallback_append {σ : Type} (f : σ → EDGARIndexEntry → σ × Option Error)
    (xs ys : List EDGARIndexEntry) (s : σ) :
    runCallback f (xs ++ ys) s = runCallback f ys (runCallback f xs s) := by
  simp [runCallback, List.foldl_append]

theorem traverse_ok {σ : Type} (c : Client) (start end1 : Time)
    (f : σ → EDGARIndexEntry → σ × Option Error) (hf : ∀ s e, (f s e).2 = none)
    (ps : List (Int × Int)) :
    ∀ w : Run σ, (∀ p ∈ ps, (indexEntries c p.1 p.2).isSome = true) →
      traverse c start end1 f ps w =
        (⟨runCallback f (ps.flatMap (inRangeEntries c start end1)) w.state,
          w.calls ++ ps.flatMap (inRangeEntries c start end1),
          w.events ++ ps.flatMap partitionEvents⟩, none) := by
  induction ps with
  | nil => intro w _; simp [traverse, loopOver, runCallback]
  | cons p ps ih =>
    intro w h
    have hp := h p (List.mem_cons_self _ _)
    obtain ⟨es, hes⟩ := Option.isSome_iff_exists.mp hp
    have ih1 := fun w1 => ih w1 (fun q hq => h q (List.mem_cons_of_mem _ hq))
    simp only [traverse] at ih1
    simp only [traverse, loopOver, fetchPartition_ok c start end1 f hf p.1 p.2 es w hes, ih1]
    simp [inRangeEntries, hes, runCallback_append, List.append_assoc]

theorem fetched_append (xs ys : List Event) : fetched (xs ++ ys) = fetched xs ++ fetched ys := by
  induction xs with
  | nil => simp [fetched]
  | cons x xs ih => cases x <;> simp [fetched, ih]

theorem fetched_partitionEvents (ps : List (Int × Int)) :
    fetched (ps.flatMap partitionEvents) = ps := by
  induction ps with
  | nil => simp [fetched]
  | cons p ps ih =>
    simp only [List.flatMap_cons, fetched_append, ih]
    simp [partitionEvents, fetched]

/-! ### The enumeration of the partitions -/

theorem mem_countDown (hi lo x : Int) : x ∈ countDown hi lo ↔ lo ≤ x ∧ x ≤ hi := by
  simp only [countDown, List.mem_map, List.mem_range]
  constructor
  · rintro ⟨i, hi1, rfl⟩
    omega
  · intro h
    exact ⟨(hi - x).toNat, by omega, by omega⟩

theorem pairwise_countDown (hi lo : Int) : (countDown hi lo).Pairwise (fun a b => b < a) := by
  simp only [countDown, List.pairwise_map]
  exact (List.pairwise_lt_range _).imp (fun h => by omega)

theorem monthQuarter_eq (t : Time) (init : Int) : monthQuarter t.month init = quarterOf t := by
  obtain ⟨h1, h2⟩ := t.month_ok
  simp only [quarterOf]
  generalize t.month = m at h1 h2
  interval_cases m <;> simp [monthQuarter]

theorem quarterOf_bounds (t : Time) : 1 ≤ quarterOf t ∧ quarterOf t ≤ 4 := by
  obtain ⟨h1, h2⟩ := t.month_ok
  simp only [quarterOf]
  omega

theorem mem_partitions (start end1 : Time) (y q : Int) :
    (y, q) ∈ partitions start end1 ↔
      1 ≤ q ∧ q ≤ 4 ∧ keyLE (start.year, quarterOf start) (y, q)
        ∧ keyLE (y, q) (end1.year, quarterOf end1) := by
  have hs := quarterOf_bounds start
  have he := quarterOf_bounds end1
  simp only [partitions, List.mem_flatMap, List.mem_map, mem_countDown, Prod.mk.injEq,
    endQuarter, startQuarter, monthQuarter_eq, keyLE]
  constructor
  · rintro ⟨y1, hy, q1, hq, rfl, rfl⟩
    split_ifs at hq <;> omega
  · intro h
    refine ⟨y, by omega, q, ?_, rfl, rfl⟩
    split_ifs <;> omega

theorem pairwise_partitions (start end1 : Time) :
    (partitions start end1).Pairwise (fun a b => keyLT b a) := by
  simp only [partitions, List.pairwise_flatMap, List.pairwise_map, List.mem_map, keyLT]
  refine ⟨fun y _ => ?_, ?_⟩
  · exact (pairwise_countDown _ _).imp (fun h => by simpa using h)
  · refine (pairwise_countDown _ _).imp ?_
    rintro a b hab _ ⟨_, _, rfl⟩ _ ⟨_, _, rfl⟩
    exact Or.inl hab

/-! ### The partitions fetched -/

/-- C1. When every partition between the quarter of `start` and the quarter of the end
of the range is served in full with well-formed records and `f` never fails, the
partitions `GetEDGARIndexEntries` fetches are exactly the pairs `(y, q)` with
`1 ≤ q ≤ 4` and `(start.year, ceil(start.month/3)) ≤ (y, q) ≤ (end.year, ceil(end.month/3))`
in the lexicographic order, and they are fetched in strictly descending order (hence
each once). The end of the range is `end`, or the current time when `end` is zero. -/
theorem fetched_partitions_descending {σ : Type} (c : Client) (now start end_ : Time)
    (f : σ → EDGARIndexEntry → σ × Option Error) (s : σ)
    (hok : ∀ y q : Int, 1 ≤ q → q ≤ 4 → keyLE (start.year, quarterOf start) (y, q) →
      keyLE (y, q) ((effectiveEnd now end_).year, quarterOf (effectiveEnd now end_)) →
      (indexEntries c y q).isSome = true)
    (hf : ∀ s e, (f s e).2 = none) :
    (∀ y q : Int, (y, q) ∈ fetched (GetEDGARIndexEntries c now start end_ f s).events ↔
        (1 ≤ q ∧ q ≤ 4 ∧ keyLE (start.year, quarterOf start) (y, q) ∧
          keyLE (y, q) ((effectiveEnd now end_).year, quarterOf (effectiveEnd now end_))))
      ∧ (fetched (GetEDGARIndexEntries c now start end_ f s).events).Pairwise
          (fun a b => keyLT b a) := by
  have hps : ∀ p ∈ partitions start (effectiveEnd now end_),
      (indexEntries c p.1 p.2).isSome = true := by
    rintro ⟨y, q⟩ hp
    obtain ⟨h1, h2, h3, h4⟩ := (mem_partitions _ _ y q).mp hp
    exact hok y q h1 h2 h3 h4
  have hev : fetched (GetEDGARIndexEntries c now start end_ f s).events =
      partitions start (effectiveEnd now end_) := by
    rw [GetEDGARIndexEntries_eq]
    simp only [traverse_ok c start _ f hf _ _ hps, List.nil_append, fetched_partitionEvents]
  rw [hev]
  exact ⟨fun y q => mem_partitions _ _ y q, pairwise_partitions _ _⟩

/-- C1 at the traversal from 2018-06-01 to 2018-10-20 against the client of the tests:
the partitions fetched are (2018, 4), (2018, 3), (2018, 2). -/
theorem fetched_partitions_descending_witness :
    (∀ s e, (noop s e).2 = none)
      ∧ fetched (GetEDGARIndexEntries sampleClient (utc2018 12 31) (utc2018 6 1)
          (utc2018 10 20) noop ()).events = [(2018, 4), (2018, 3), (2018, 2)]
      ∧ ((∀ y q : Int, (y, q) ∈ fetched (GetEDGARIndexEntries sampleClient (utc2018 12 31)
            (utc2018 6 1) (utc2018 10 20) noop ()).events ↔
          (1 ≤ q ∧ q ≤ 4 ∧ keyLE ((2018 : Int), quarterOf (utc2018 6 1)) (y, q) ∧
            keyLE (y, q) ((2018 : Int), quarterOf (utc2018 10 20))))
        ∧ (fetched (GetEDGARIndexEntries sampleClient (utc2018 12 31) (utc2018 6 1)
            (utc2018 10 20) noop ()).events).Pairwise (fun a b => keyLT b a)) :=
  ⟨fun _ _ => rfl, by decide,
    fetched_partitions_descending sampleClient (utc2018 12 31) (utc2018 6 1) (utc2018 10 20)
      noop () (fun _ _ _ _ _ _ => rfl) (fun _ _ => rfl)⟩

/-! ### The range filter -/

theorem loopOver_invariant {σ α : Type} (P : Run σ → Prop)
    (body : α → Run σ → Run σ × Option (Option Error))
    (hbody : ∀ x w, P w → P (body x w).1) (xs : List α) :
    ∀ w, P w → P (loopOver body xs w).1 := by
  induction xs with
  | nil => intro w hw; simpa [loopOver] using hw
  | cons x xs ih =>
    intro w hw
    have h1 := hbody x w hw
    simp only [loopOver]
    rcases hb : body x w with ⟨w1, _ | r⟩
    · rw [hb] at h1
      exact ih w1 h1
    · rw [hb] at h1
      exact h1

theorem parseEntries_calls_inRange {σ : Type} (start end1 : Time)
    (f : σ → EDGARIndexEntry → σ × Option Error) (scanErr : Option Error)
    (ls : List String) :
    ∀ (s : σ) (log : List EDGARIndexEntry), (∀ e ∈ log, inRange start end1 e = true) →
      ∀ e ∈ (parseEntries (rangeFilter start end1 (logged f)) scanErr ls (s, log)).1.2,
        inRange start end1 e = true := by
  induction ls with
  | nil => intro s log h; simpa [parseEntries] using h
  | cons l ls ih =>
    intro s log h
    simp only [parseEntries]
    rcases hl : ParseEDGARIndexEntry l with err | e
    · simpa using h
    · simp only [rangeFilter_eq]
      by_cases hin : inRange start end1 e = true
      · simp only [hin, if_true]
        have hlog : ∀ x ∈ log ++ [e], inRange start end1 x = true := by
          intro x hx
          rcases List.mem_append.mp hx with hx | hx
          · exact h x hx
          · simp only [List.mem_singleton] at hx
            rw [hx]
            exact hin
        rcases hr : (f s e).2 with _ | err
        · have : logged f (s, log) e = (((f s e).1, log ++ [e]), none) := by simp [logged, hr]
          rw [this]
          exact ih _ _ hlog
        · have : logged f (s, log) e = (((f s e).1, log ++ [e]), some err) := by
            simp [logged, hr]
          rw [this]
          exact hlog
      · simp only [hin, Bool.false_eq_true, if_false]
        exact ih _ _ h

theorem fetchPartition_calls_inRange {σ : Type} (c : Client) (start end1 : Time)
    (f : σ → EDGARIndexEntry → σ × Option Error) (year quarter : Int) (w : Run σ)
    (h : ∀ e ∈ w.calls, inRange start end1 e = true) :
    ∀ e ∈ (fetchPartition c start end1 f year quarter w).1.calls,
      inRange start end1 e = true := by
  have hp := fun (zr : GzipReader) =>
    parseEntries_calls_inRange start end1 f (skipLoop 12 0 zr.scanner).err
      (skipLoop 12 0 zr.scanner).lines
      w.state w.calls h
  unfold fetchPartition
  simp only [Run.emit, ParseEDGARIndex]
  split
  · exact h
  · split
    · exact h
    · split
      · exact h
      · split
        · exact hp _
        · split
          · exact hp _
          · split
            · exact hp _
            · exact hp _

theorem calls_inRange {σ : Type} (c : Client) (now start end_ : Time)
    (f : σ → EDGARIndexEntry → σ × Option Error) (s : σ) :
    ∀ e ∈ (GetEDGARIndexEntries c now start end_ f s).calls,
      inRange start (effectiveEnd now end_) e = true := by
  rw [GetEDGARIndexEntries_eq]
  exact loopOver_invariant (fun w => ∀ e ∈ w.calls, inRange start (effectiveEnd now end_) e = true)
    _ (fun p w hw => fetchPartition_calls_inRange c start _ f p.1 p.2 w hw) _ _ (by simp)

theorem GetEDGARIndexEntries_ok {σ : Type} (c : Client) (now start end_ : Time)
    (f : σ → EDGARIndexEntry → σ × Option Error) (s : σ)
    (hok : ∀ y q : Int, 1 ≤ q → q ≤ 4 → keyLE (start.year, quarterOf start) (y, q) →
      keyLE (y, q) ((effectiveEnd now end_).year, quarterOf (effectiveEnd now end_)) →
      (indexEntries c y q).isSome = true)
    (hf : ∀ s e, (f s e).2 = none) :
    GetEDGARIndexEntries c now start end_ f s =
      ⟨runCallback f ((partitions start (effectiveEnd now end_)).flatMap
          (inRangeEntries c start (effectiveEnd now end_))) s,
        (partitions start (effectiveEnd now end_)).flatMap
          (inRangeEntries c start (effectiveEnd now end_)),
        (partitions start (effectiveEnd now end_)).flatMap partitionEvents, none⟩ := by
  have hps : ∀ p ∈ partitions start (effectiveEnd now end_),
      (indexEntries c p.1 p.2).isSome = true := by
    rintro ⟨y, q⟩ hp
    obtain ⟨h1, h2, h3, h4⟩ := (mem_partitions _ _ y q).mp hp
    exact hok y q h1 h2 h3 h4
  rw [GetEDGARIndexEntries_eq]
  simp [traverse_ok c start _ f hf _ _ hps]

/-- C2. `f` is invoked only on entries whose filed date `d` satisfies
`start ≤ d ≤ end` as instants, in every traversal; and when every partition of the
range is served in full with well-formed records and `f` never fails, a record of a
fetched partition is passed to `f` if and only if `start ≤ d ≤ end`, both bounds
included. The end of the range is `end`, or the current time when `end` is zero. -/
theorem invoked_iff_in_range {σ : Type} (c : Client) (now start end_ : Time)
    (f : σ → EDGARIndexEntry → σ × Option Error) (s : σ) :
    (∀ e ∈ (GetEDGARIndexEntries c now start end_ f s).calls,
        start.instant ≤ e.DateFiled.instant ∧
          e.DateFiled.instant ≤ (effectiveEnd now end_).instant)
      ∧ ((∀ y q : Int, 1 ≤ q → q ≤ 4 → keyLE (start.year, quarterOf start) (y, q) →
            keyLE (y, q) ((effectiveEnd now end_).year, quarterOf (effectiveEnd now end_)) →
            (indexEntries c y q).isSome = true) →
          (∀ s e, (f s e).2 = none) →
          ∀ p ∈ fetched (GetEDGARIndexEntries c now start end_ f s).events,
            ∀ e ∈ (indexEntries c p.1 p.2).getD [],
              (e ∈ (GetEDGARIndexEntries c now start end_ f s).calls ↔
                start.instant ≤ e.DateFiled.instant ∧
                  e.DateFiled.instant ≤ (effectiveEnd now end_).instant)) := by
  refine ⟨fun e he => ?_, fun hok hf p hp e he => ?_⟩
  · simpa [inRange] using calls_inRange c now start end_ f s e he
  · rw [GetEDGARIndexEntries_ok c now start end_ f s hok hf] at hp ⊢
    simp only [fetched_partitionEvents] at hp
    simp only [List.mem_flatMap, inRangeEntries, List.mem_filter]
    constructor
    · rintro ⟨_, _, _, h⟩
      simpa [inRange] using h
    · intro h
      exact ⟨p, hp, he, by simpa [inRange] using h⟩

/-- C2 at the range [2018-10-15, 2018-10-19] and an index with records filed on
2018-10-14, 2018-10-15, 2018-10-19 and 2018-10-20: the callback receives the records
of 2018-10-15 and 2018-10-19 and no other. -/
theorem invoked_iff_in_range_witness :
    (GetEDGARIndexEntries boundaryClient (utc2018 12 31) (utc2018 10 15) (utc2018 10 19)
        noop ()).calls.map EDGARIndexEntry.String
        = ["2|B|4|2018-10-15|b.txt", "3|C|4|2018-10-19|c.txt"]
      ∧ (∀ e ∈ (indexEntries boundaryClient 2018 4).getD [],
          (e ∈ (GetEDGARIndexEntries boundaryClient (utc2018 12 31) (utc2018 10 15)
              (utc2018 10 19) noop ()).calls ↔
            (utc2018 10 15).instant ≤ e.DateFiled.instant ∧
              e.DateFiled.instant ≤ (utc2018 10 19).instant)) :=
  ⟨by decide,
    (invoked_iff_in_range boundaryClient (utc2018 12 31) (utc2018 10 15) (utc2018 10 19)
      noop ()).2 (fun _ _ _ _ _ _ => rfl) (fun _ _ => rfl) (2018, 4) (by decide)⟩

/-! ### The order of delivery -/

/-- The order of delivery of what `ParseEDGARIndex` parses. When every partition of the
range is served in full (the fetch succeeds and the content decompresses), every line
after the twelve lines the skip loop consumes is a well-formed record and `f` never
fails, `GetEDGARIndexEntries` returns nil and the entries it passes to `f` are,
partition after partition in the order the partitions were fetched, the in-range
entries of those lines in the order of the file. -/
theorem parsed_entries_in_fetch_order {σ : Type} (c : Client) (now start end_ : Time)
    (f : σ → EDGARIndexEntry → σ × Option Error) (s : σ)
    (hok : ∀ y q : Int, 1 ≤ q → q ≤ 4 → keyLE (start.year, quarterOf start) (y, q) →
      keyLE (y, q) ((effectiveEnd now end_).year, quarterOf (effectiveEnd now end_)) →
      (indexEntries c y q).isSome = true)
    (hf : ∀ s e, (f s e).2 = none) :
    (GetEDGARIndexEntries c now start end_ f s).err = none
      ∧ (GetEDGARIndexEntries c now start end_ f s).calls =
          (fetched (GetEDGARIndexEntries c now start end_ f s).events).flatMap
            (fun p => ((indexEntries c p.1 p.2).getD []).filter
              (inRange start (effectiveEnd now end_)))
      ∧ (GetEDGARIndexEntries c now start end_ f s).state =
          runCallback f (GetEDGARIndexEntries c now start end_ f s).calls s := by
  rw [GetEDGARIndexEntries_ok c now start end_ f s hok hf]
  simp only [fetched_partitionEvents]
  exact ⟨trivial, rfl, trivial⟩

/-- C3, on the code. For a client whose partition file is the 11-line preamble followed
by the two records of the sample, filed on 2018-10-15 and 2018-10-19, the range
[2018-10-15, 2018-10-19] and a callback that never fails: the fetch succeeds, both
record lines are well formed and in range, one partition is fetched and nil is
returned, yet `f` is invoked on the second record only: the first record of the file
is consumed by the skip loop and never delivered. -/
theorem first_record_of_partition_is_dropped :
    servedLines elevenLineClient 2018 4 = some elevenLineIndex
      ∧ (parseAll (recordLines elevenLineIndex)).map (List.map EDGARIndexEntry.String) =
          some
            ["1000045|NICHOLAS FINANCIAL INC|4|2018-10-15|edgar/data/1000045/0001357521-18-000008.txt",
             "1000184|SAP SE|6-K|2018-10-19|edgar/data/1000184/0001104659-18-062851.txt"]
      ∧ ((parseAll (recordLines elevenLineIndex)).getD []).all
          (inRange (utc2018 10 15) (utc2018 10 19)) = true
      ∧ (GetEDGARIndexEntries elevenLineClient (utc2018 12 31) (utc2018 10 15) (utc2018 10 19)
          noop ()).err = none
      ∧ fetched (GetEDGARIndexEntries elevenLineClient (utc2018 12 31) (utc2018 10 15)
          (utc2018 10 19) noop ()).events = [(2018, 4)]
      ∧ (GetEDGARIndexEntries elevenLineClient (utc2018 12 31) (utc2018 10 15) (utc2018 10 19)
          noop ()).calls.map EDGARIndexEntry.String =
          ["1000184|SAP SE|6-K|2018-10-19|edgar/data/1000184/0001104659-18-062851.txt"] := by
  decide

/-! ### The tag extractor -/

theorem skipToTag_found (tag o : String) (pre rest : List String)
    (ho : strings.TrimSpace o = openTag tag)
    (hpre : ∀ l ∈ pre, strings.TrimSpace l ≠ openTag tag) :
    skipToTag tag (pre ++ o :: rest) = (true, rest) := by
  induction pre with
  | nil => simp [skipToTag, ho]
  | cons l pre ih =>
    have hl := hpre l (List.mem_cons_self _ _)
    simp only [List.cons_append, skipToTag, hl, if_false]
    exact ih (fun x hx => hpre x (List.mem_cons_of_mem _ hx))

theorem skipToTag_missing (tag : String) (lines : List String)
    (h : ∀ l ∈ lines, strings.TrimSpace l ≠ openTag tag) :
    skipToTag tag lines = (false, []) := by
  induction lines with
  | nil => simp [skipToTag]
  | cons l ls ih =>
    have hl := h l (List.mem_cons_self _ _)
    simp only [skipToTag, hl, if_false]
    exact ih (fun x hx => h x (List.mem_cons_of_mem _ hx))

theorem skipToTag_true (tag : String) (lines : List String)
    (h : (skipToTag tag lines).1 = true) :
    ∃ l ∈ lines, strings.TrimSpace l = openTag tag := by
  induction lines with
  | nil => simp [skipToTag] at h
  | cons l ls ih =>
    by_cases hl : strings.TrimSpace l = openTag tag
    · exact ⟨l, List.mem_cons_self _ _, hl⟩
    · simp only [skipToTag, hl, if_false] at h
      obtain ⟨x, hx, hx1⟩ := ih h
      exact ⟨x, List.mem_cons_of_mem _ hx, hx1⟩

theorem readN_exhausted (tag : String) (lenP k : Nat) :
    readN ⟨none, tag⟩ lenP k = List.replicate k endOfStream := by
  induction k with
  | zero => simp [readN]
  | succ k ih =>
    simp only [readN, tagFromSECDocumentReader.Read, List.replicate_succ]
    rw [ih]
    rfl

theorem readN_payload (tag c : String) (err : Option Error) (pending : Nat)
    (held : Option String) (post : List String)
    (lenP m : Nat) (hc : strings.TrimSpace c = closeTag tag) (payload : List String)
    (hpay : ∀ l ∈ payload, strings.TrimSpace l ≠ closeTag tag) :
    readN ⟨some ⟨payload ++ c :: post, err, pending, held⟩, tag⟩ lenP (payload.length + 1 + m) =
      payload.map (fun l => ⟨(bytes l).take lenP, (bytes l).length, none⟩)
        ++ List.replicate (1 + m) endOfStream := by
  induction payload with
  | nil =>
    have h1 : 0 + 1 + m = m + 1 := by omega
    have h2 : 1 + m = m + 1 := by omega
    simp only [List.length_nil, List.nil_append, List.map_nil, h1, h2, readN,
      tagFromSECDocumentReader.Read, Scanner.Scan, hc, if_true, readN_exhausted,
      List.replicate_succ]
    rfl
  | cons l payload ih =>
    have hl := hpay l (List.mem_cons_self _ _)
    have h1 : (l :: payload).length + 1 + m = (payload.length + 1 + m) + 1 := by
      simp only [List.length_cons]; omega
    simp only [h1, readN, List.cons_append, tagFromSECDocumentReader.Read, Scanner.Scan, hl,
      if_false, List.map_cons]
    rw [ih (fun x hx => hpay x (List.mem_cons_of_mem _ hx))]

theorem ExtractTag_found (sc : Scanner) (tag o : String) (pre rest : List String)
    (hl : sc.lines = pre ++ o :: rest)
    (ho : strings.TrimSpace o = openTag tag)
    (hpre : ∀ l ∈ pre, strings.TrimSpace l ≠ openTag tag)
    (herr : sc.err = none ∨ sc.pending ≤ rest.length) :
    ExtractTagFromSECDocument sc tag = .ok ⟨some ⟨rest, sc.err, sc.pending, sc.held⟩, tag⟩ := by
  have hE : Scanner.Err ⟨rest, sc.err, sc.pending, sc.held⟩ = none := by
    rcases herr with h | h
    · simp [Scanner.Err, h]
    · simp [Scanner.Err, Nat.not_lt.mpr h]
  simp only [ExtractTagFromSECDocument, hl, skipToTag_found tag o pre _ ho hpre, hE]

theorem ExtractTag_missing (sc : Scanner) (tag : String)
    (h : ∀ l ∈ sc.lines, strings.TrimSpace l ≠ openTag tag) :
    ExtractTagFromSECDocument sc tag = .error (sc.err.getD (.missingTag tag)) := by
  simp only [ExtractTagFromSECDocument, skipToTag_missing tag _ h]
  rw [Scanner.Err_after_end ⟨[], sc.err, sc.pending, sc.held⟩ rfl]
  cases sc.err <;> rfl

/-- When the tag line is found, the result is a reader or the error of the scanner. -/
theorem ExtractTag_of_found (sc : Scanner) (tag : String)
    (h : (skipToTag tag sc.lines).1 = true) :
    (∃ r, ExtractTagFromSECDocument sc tag = .ok r)
      ∨ ∃ e, sc.err = some e ∧ ExtractTagFromSECDocument sc tag = .error e := by
  rcases hs : skipToTag tag sc.lines with ⟨b, rest⟩
  rw [hs] at h
  simp only at h
  subst h
  simp only [ExtractTagFromSECDocument, hs, Scanner.Err]
  split_ifs with hlt
  · rcases he : sc.err with _ | e
    · exact Or.inl ⟨_, rfl⟩
    · exact Or.inr ⟨e, rfl, rfl⟩
  · exact Or.inl ⟨_, rfl⟩

theorem skipToTag_of_mem (tag : String) (lines : List String)
    (h : ∃ l ∈ lines, strings.TrimSpace l = openTag tag) :
    (skipToTag tag lines).1 = true := by
  induction lines with
  | nil => simp at h
  | cons x xs ih =>
    by_cases hx0 : strings.TrimSpace x = openTag tag
    · simp [skipToTag, hx0]
    · simp only [skipToTag, hx0, if_false]
      apply ih
      obtain ⟨z, hz, hz1⟩ := h
      rcases List.mem_cons.mp hz with rfl | hz
      · exact absurd hz1 hx0
      · exact ⟨z, hz, hz1⟩

theorem longLine_too_long : MaxScanTokenSize ≤ (bytes longLine).length := by
  have h := bytes_length_ge longLine
  have h1 : longLine.data.length = MaxScanTokenSize := by simp [longLine]
  omega

theorem longLine_trim : strings.TrimSpace (dropCR longLine) = longLine := by
  obtain ⟨k, hk⟩ : ∃ k, MaxScanTokenSize = k + 1 := ⟨65535, by decide⟩
  have hA : isSpace 'A' = false := by decide
  have hd : dropCR longLine = longLine := by
    have hlast : longLine.data.getLast? = some 'A' := by
      simp only [longLine, hk, List.getLast?_replicate]
      simp
    unfold dropCR
    rw [hlast]
    rfl
  have hdrop : ∀ n : Nat, (List.replicate n 'A').dropWhile isSpace = List.replicate n 'A' := by
    intro n
    cases n with
    | zero => rfl
    | succ n => simp [List.replicate_succ, List.dropWhile_cons, hA]
  rw [hd]
  simp only [strings.TrimSpace, longLine, hdrop, List.reverse_replicate]

theorem longLine_ne_openTag : longLine ≠ openTag "XML" := by
  intro h
  have h1 := congrArg (fun s => s.data.length) h
  have h2 : longLine.data.length = MaxScanTokenSize := by simp [longLine]
  have h3 : (openTag "XML").data.length = 5 := by decide
  simp only [h2, h3] at h1
  exact absurd h1 (by decide)

theorem longLine_ne_closeTag : longLine ≠ closeTag "XML" := by
  intro h
  have h1 := congrArg (fun s => s.data.length) h
  have h2 : longLine.data.length = MaxScanTokenSize := by simp [longLine]
  have h3 : (closeTag "XML").data.length = 6 := by decide
  simp only [h2, h3] at h1
  exact absurd h1 (by decide)

theorem takeBytes_replicate (n : Nat) :
    takeBytes n (List.replicate n 'A') = List.replicate n 'A' := by
  induction n with
  | zero => rfl
  | succ n ih =>
    have h1 : (String.utf8EncodeChar 'A').length = 1 := by decide
    simp only [List.replicate_succ, takeBytes, h1, Nat.add_sub_cancel, ih]
    simp

theorem longLine_dropCR : dropCR longLine = longLine := by
  obtain ⟨k, hk⟩ : ∃ k, MaxScanTokenSize = k + 1 := ⟨65535, by decide⟩
  have hlast : longLine.data.getLast? = some 'A' := by
    simp only [longLine, hk, List.getLast?_replicate]
    simp
  unfold dropCR
  rw [hlast]
  rfl

theorem longLine_held :
    dropCR (String.mk (takeBytes MaxScanTokenSize longLine.data)) = longLine := by
  have hd : takeBytes MaxScanTokenSize longLine.data = longLine.data :=
    takeBytes_replicate MaxScanTokenSize
  rw [hd]
  exact longLine_dropCR

theorem longLine_not_closing : strings.TrimSpace longLine ≠ closeTag "XML" := by
  have ht := longLine_trim
  rw [longLine_dropCR] at ht
  rw [ht]
  exact longLine_ne_closeTag

theorem Read_at_end (tag : String) (e : Error) (pending : Nat) (held : Option String)
    (lenP : Nat) :
    (tagFromSECDocumentReader.mk (some ⟨[], some e, pending, held⟩) tag).Read lenP =
      (⟨some ⟨Scanner.afterEnd ⟨[], some e, pending, held⟩, some e,
          (Scanner.afterEnd ⟨[], some e, pending, held⟩).length + 1, none⟩, tag⟩,
        ⟨[], 0, some e⟩) := by
  simp [tagFromSECDocumentReader.Read, Scanner.Scan, Scanner.Err]

theorem Read_line (tag l : String) (rest : List String) (err : Option Error)
    (pending : Nat) (held : Option String) (lenP : Nat)
    (h : strings.TrimSpace l ≠ closeTag tag) :
    (tagFromSECDocumentReader.mk (some ⟨l :: rest, err, pending, held⟩) tag).Read lenP =
      (⟨some ⟨rest, err, pending, held⟩, tag⟩,
        ⟨(bytes l).take lenP, (bytes l).length, none⟩) := by
  simp [tagFromSECDocumentReader.Read, Scanner.Scan, h]

theorem afterEnd_tooLong (ls : List String) (pending : Nat) (l : String) :
    Scanner.afterEnd ⟨ls, some .tooLong, pending, some l⟩ = [l] := by
  simp [Scanner.afterEnd]

theorem afterEnd_none (ls : List String) (err : Option Error) (pending : Nat) :
    Scanner.afterEnd ⟨ls, err, pending, none⟩ = [] := by
  simp [Scanner.afterEnd]

/-- After `bufio.ErrTooLong` one more line is yielded: the bytes the buffer holds. For
a reader on a scanner that stands before a line of `bufio.MaxScanTokenSize` bytes, the
first `Read` returns `bufio.ErrTooLong`, the second the held bytes, here the whole
line, and the third `bufio.ErrTooLong` again; the line that follows is never read. -/
theorem held_bytes_are_read_after_error (lenP : Nat) :
    readN ⟨some (NewScanner ⟨[longLine, "PAYLOAD-LINE-2"], none, 0⟩), "XML"⟩ lenP 3 =
      [⟨[], 0, some .tooLong⟩,
       ⟨(bytes longLine).take lenP, (bytes longLine).length, none⟩,
       ⟨[], 0, some .tooLong⟩] := by
  rw [NewScanner_long longLine _ none 0 longLine_too_long, longLine_held]
  simp only [readN]
  rw [Read_at_end, afterEnd_tooLong]
  simp only []
  rw [Read_line "XML" longLine [] _ _ _ lenP longLine_not_closing]
  simp only []
  rw [Read_at_end, afterEnd_none]

/-- C4, amended. For a reader that delivers the envelope
`pre ++ [o] ++ payload ++ [c] ++ post`, in which every line up to `c` is shorter than
`bufio.MaxScanTokenSize` (the lines of `post` may have any length), `o` is the first
line that trims to `<tag>`, `c` the first line after it that trims to `</tag>`, and
which ends without a read error or with one that is not yet on record when `o` is
yielded, `ExtractTagFromSECDocument` succeeds, and successive calls of `Read` with a
buffer at least as long as every payload line return the payload lines, one per call,
in order and whole (the bytes of the line as `bufio.ScanLines` cuts it, untrimmed, with
nil error), and from then on only end-of-stream: no line of `pre` or `post` and neither
tag line is returned. -/
theorem reads_yield_payload (pre payload post : List String) (o c tag : String)
    (err : Option Error) (pending lenP m : Nat)
    (hshort : ∀ l ∈ pre ++ o :: (payload ++ [c]), (bytes l).length < MaxScanTokenSize)
    (herr : err = none ∨ pending ≤ payload.length + 1 + post.length)
    (ho : strings.TrimSpace (dropCR o) = openTag tag)
    (hpre : ∀ l ∈ pre, strings.TrimSpace (dropCR l) ≠ openTag tag)
    (hc : strings.TrimSpace (dropCR c) = closeTag tag)
    (hpay : ∀ l ∈ payload, strings.TrimSpace (dropCR l) ≠ closeTag tag)
    (hlen : ∀ l ∈ payload, (bytes (dropCR l)).length ≤ lenP) :
    ∃ r, ExtractTagFromSECDocument
          (NewScanner ⟨pre ++ o :: (payload ++ c :: post), err, pending⟩) tag = .ok r
      ∧ readN r lenP (payload.length + 1 + m) =
          payload.map (fun l => ⟨bytes (dropCR l), (bytes (dropCR l)).length, none⟩)
            ++ List.replicate (1 + m) endOfStream := by
  have hsplit : pre ++ o :: (payload ++ c :: post) = (pre ++ o :: (payload ++ [c])) ++ post := by
    simp
  have hsc := NewScanner_append (pre ++ o :: (payload ++ [c])) post err pending hshort
  rw [← hsplit] at hsc
  have hlines : (NewScanner ⟨pre ++ o :: (payload ++ c :: post), err, pending⟩).lines =
      pre.map dropCR ++ dropCR o ::
        (payload.map dropCR ++ dropCR c :: (NewScanner ⟨post, err, pending⟩).lines) := by
    rw [hsc]
    simp
  have hpend : (NewScanner ⟨pre ++ o :: (payload ++ c :: post), err, pending⟩).err = none
      ∨ (NewScanner ⟨pre ++ o :: (payload ++ c :: post), err, pending⟩).pending ≤
        (payload.map dropCR ++ dropCR c :: (NewScanner ⟨post, err, pending⟩).lines).length := by
    rw [hsc]
    simp only
    rcases NewScanner_cases ⟨post, err, pending⟩ with ⟨_, h⟩ | ⟨_, _, h⟩
    · rw [h]
      rcases herr with h1 | h1
      · exact Or.inl h1
      · right
        simp only [List.length_append, List.length_map, List.length_cons]
        omega
    · right
      rw [h]
      exact Nat.zero_le _
  refine ⟨_, ExtractTag_found _ tag (dropCR o) (pre.map dropCR) _ hlines ho
    (by simpa using hpre) hpend, ?_⟩
  have h := readN_payload tag (dropCR c)
    (NewScanner ⟨pre ++ o :: (payload ++ c :: post), err, pending⟩).err
    (NewScanner ⟨pre ++ o :: (payload ++ c :: post), err, pending⟩).pending
    (NewScanner ⟨pre ++ o :: (payload ++ c :: post), err, pending⟩).held
    (NewScanner ⟨post, err, pending⟩).lines lenP m hc (payload.map dropCR) (by simpa using hpay)
  rw [List.length_map] at h
  rw [h, List.map_map]
  congr 1
  apply List.map_congr_left
  intro l hl
  simp only [Function.comp, List.take_of_length_le (hlen l hl)]

/-- C4, amended, at the envelope of the example and the tag `XML`: four calls of `Read`
with a buffer of 64 bytes give `PAYLOAD-LINE-1`, `PAYLOAD-LINE-2` and twice
end-of-stream. -/
theorem reads_yield_payload_witness :
    (∀ l ∈ sampleEnvelope.take 6, (bytes l).length < MaxScanTokenSize)
      ∧ (∀ l ∈ ["PAYLOAD-LINE-1", "PAYLOAD-LINE-2"], (bytes (dropCR l)).length ≤ 64)
      ∧ ∃ r, ExtractTagFromSECDocument (NewScanner ⟨sampleEnvelope, none, 0⟩) "XML" = .ok r
        ∧ readN r 64 4 =
          [⟨bytes "PAYLOAD-LINE-1", 14, none⟩, ⟨bytes "PAYLOAD-LINE-2", 14, none⟩,
            endOfStream, endOfStream] :=
  ⟨by decide, by decide,
    reads_yield_payload ["<SEC-DOCUMENT>0001357521-18-000008.txt : 20181015", "<TYPE>4"]
      ["PAYLOAD-LINE-1", "PAYLOAD-LINE-2"] ["</TEXT>", "</SEC-DOCUMENT>"] "<XML>" "</XML>"
      "XML" none 0 64 1 (by decide) (Or.inl rfl) (by decide) (by decide) (by decide)
      (by decide) (by decide)⟩

/-- C4, as stated, fails: for the envelope `<XML>`, a payload line of
`bufio.MaxScanTokenSize` bytes that does not trim to `</XML>`, `</XML>`, extraction
succeeds and the first `Read`, whatever the buffer, returns `bufio.ErrTooLong` and no
payload. -/
theorem long_payload_line_stops_reads :
    strings.TrimSpace (dropCR "<XML>") = openTag "XML"
      ∧ strings.TrimSpace (dropCR longLine) ≠ closeTag "XML"
      ∧ strings.TrimSpace (dropCR "</XML>") = closeTag "XML"
      ∧ ∃ r, ExtractTagFromSECDocument
            (NewScanner ⟨["<XML>", longLine, "</XML>"], none, 0⟩) "XML" = .ok r
        ∧ ∀ lenP, (r.Read lenP).2 = ⟨[], 0, some .tooLong⟩ := by
  refine ⟨by decide, by rw [longLine_trim]; exact longLine_ne_closeTag, by decide, ?_⟩
  have hsc : NewScanner ⟨["<XML>", longLine, "</XML>"], none, 0⟩ =
      ⟨["<XML>"], some .tooLong, 0,
        some (dropCR (String.mk (takeBytes MaxScanTokenSize longLine.data)))⟩ := by
    have h := NewScanner_append ["<XML>"] [longLine, "</XML>"] none 0 (by decide)
    rw [NewScanner_long longLine _ none 0 longLine_too_long] at h
    exact h
  rw [hsc]
  refine ⟨_, ExtractTag_found _ "XML" "<XML>" [] [] rfl (by decide) (by simp) (Or.inr (le_refl _)),
    fun lenP => ?_⟩
  simp [tagFromSECDocumentReader.Read, Scanner.Scan, Scanner.Err]

/-- C5, amended. For a reader that delivers an envelope and then `io.EOF` or an error
of its own, and every tag: `ExtractTagFromSECDocument` fails with the missing-tag
error if and only if every line of the envelope is shorter than
`bufio.MaxScanTokenSize`, the reader ends without error and no line trims to `<tag>`;
when it does, the scan has consumed every line and no reader is returned. When the
scan stops on an error (of the reader, or `bufio.ErrTooLong`) and no line it has
yielded trims to `<tag>`, that error is returned instead. -/
theorem missing_tag_iff (rd : Reader) (tag : String)
    (herr : rd.err ≠ some (.missingTag tag)) :
    (ExtractTagFromSECDocument (NewScanner rd) tag = .error (.missingTag tag) ↔
        (∀ l ∈ rd.lines, (bytes l).length < MaxScanTokenSize) ∧ rd.err = none
          ∧ ∀ l ∈ rd.lines, strings.TrimSpace (dropCR l) ≠ openTag tag)
      ∧ (ExtractTagFromSECDocument (NewScanner rd) tag = .error (.missingTag tag) →
          (NewScanner rd).lines = rd.lines.map dropCR
            ∧ (skipToTag tag (NewScanner rd).lines).2 = []
            ∧ ∀ r, ExtractTagFromSECDocument (NewScanner rd) tag ≠ .ok r)
      ∧ ∀ e, (NewScanner rd).err = some e →
          (∀ l ∈ (NewScanner rd).lines, strings.TrimSpace l ≠ openTag tag) →
          ExtractTagFromSECDocument (NewScanner rd) tag = .error e := by
  have herr1 : (NewScanner rd).err ≠ some (.missingTag tag) := by
    rcases NewScanner_cases rd with ⟨_, h⟩ | ⟨_, h, _⟩
    · rw [h]; exact herr
    · rw [h]; simp
  have hmp : ExtractTagFromSECDocument (NewScanner rd) tag = .error (.missingTag tag) →
      (∀ l ∈ (NewScanner rd).lines, strings.TrimSpace l ≠ openTag tag)
        ∧ (NewScanner rd).err = none := by
    intro h
    by_cases hf : ∃ l ∈ (NewScanner rd).lines, strings.TrimSpace l = openTag tag
    · rcases ExtractTag_of_found _ tag (skipToTag_of_mem tag _ hf) with ⟨r, hr⟩ | ⟨e, he, hr⟩
      · rw [hr] at h; cases h
      · rw [hr] at h
        injection h with h
        subst h
        exact absurd he herr1
    · push_neg at hf
      refine ⟨hf, ?_⟩
      rw [ExtractTag_missing _ tag hf] at h
      rcases he : (NewScanner rd).err with _ | e
      · rfl
      · rw [he] at h
        simp only [Option.getD_some] at h
        injection h with h
        subst h
        exact absurd he herr1
  have hfull : (NewScanner rd).err = none →
      (∀ l ∈ rd.lines, (bytes l).length < MaxScanTokenSize) ∧ rd.err = none
        ∧ (NewScanner rd).lines = rd.lines.map dropCR := by
    intro he
    rcases NewScanner_cases rd with ⟨hs, h⟩ | ⟨_, h, _⟩
    · rw [h] at he
      exact ⟨hs, he, by rw [h]⟩
    · rw [h] at he; cases he
  refine ⟨⟨fun h => ?_, fun h => ?_⟩, fun h => ?_, fun e he hno => ?_⟩
  · obtain ⟨hno, he⟩ := hmp h
    obtain ⟨hs, hre, hl⟩ := hfull he
    refine ⟨hs, hre, fun l hl1 => ?_⟩
    apply hno
    rw [hl]
    exact List.mem_map_of_mem _ hl1
  · obtain ⟨hs, hre, hno⟩ := h
    rw [show rd = ⟨rd.lines, rd.err, rd.pending⟩ from rfl, NewScanner_short _ _ _ hs,
      ExtractTag_missing _ tag (by simpa using hno)]
    simp [hre]
  · obtain ⟨hno, he⟩ := hmp h
    obtain ⟨hs, hre, hl⟩ := hfull he
    refine ⟨hl, ?_, fun r hr => ?_⟩
    · rw [skipToTag_missing tag _ hno]
    · rw [h] at hr
      cases hr
  · rw [ExtractTag_missing _ tag hno, he]
    rfl

/-- C5, amended, at the envelope of the example: the tag `PDF` is missing and the scan
has consumed the envelope; the tag `XML` is not missing. -/
theorem missing_tag_iff_witness :
    (none : Option Error) ≠ some (.missingTag "PDF")
      ∧ ExtractTagFromSECDocument (NewScanner ⟨sampleEnvelope, none, 0⟩) "PDF"
          = .error (.missingTag "PDF")
      ∧ (skipToTag "PDF" (NewScanner ⟨sampleEnvelope, none, 0⟩).lines).2 = []
      ∧ ExtractTagFromSECDocument (NewScanner ⟨sampleEnvelope, none, 0⟩) "XML"
          ≠ .error (.missingTag "XML") :=
  ⟨by decide, by decide,
    ((missing_tag_iff ⟨sampleEnvelope, none, 0⟩ "PDF" (by decide)).2.1 (by decide)).2.1,
    by decide⟩

/-- C5, as stated, fails: no line of the envelope trims to `<XML>`, yet the error is
not the missing-tag error, when the reader fails after the last line (the error of the
reader is returned) and when a line has `bufio.MaxScanTokenSize` bytes
(`bufio.ErrTooLong` is returned). -/
theorem scan_error_is_not_missing_tag :
    (∀ l ∈ ["<SEC-DOCUMENT>", "<TYPE>4"], strings.TrimSpace (dropCR l) ≠ openTag "XML")
      ∧ ExtractTagFromSECDocument
          (NewScanner ⟨["<SEC-DOCUMENT>", "<TYPE>4"], some (.other "unexpected EOF"), 0⟩) "XML"
        = .error (.other "unexpected EOF")
      ∧ (∀ l ∈ ["<SEC-DOCUMENT>", longLine], strings.TrimSpace (dropCR l) ≠ openTag "XML")
      ∧ ExtractTagFromSECDocument (NewScanner ⟨["<SEC-DOCUMENT>", longLine], none, 0⟩) "XML"
        = .error .tooLong := by
  refine ⟨by decide, by decide, ?_, ?_⟩
  · intro l hl
    rcases List.mem_cons.mp hl with rfl | hl
    · decide
    · rw [List.mem_singleton] at hl
      subst hl
      rw [longLine_trim]
      exact longLine_ne_openTag
  · have hsc : NewScanner ⟨["<SEC-DOCUMENT>", longLine], none, 0⟩ =
        ⟨["<SEC-DOCUMENT>"], some .tooLong, 0,
          some (dropCR (String.mk (takeBytes MaxScanTokenSize longLine.data)))⟩ := by
      have h := NewScanner_append ["<SEC-DOCUMENT>"] [longLine] none 0 (by decide)
      rw [NewScanner_long longLine _ none 0 longLine_too_long] at h
      exact h
    rw [hsc, ExtractTag_missing _ "XML" (by decide)]
    rfl

/-! ### Malformed lines -/

theorem ParseEDGARIndexEntry_malformed (bad : String)
    (hbad : (strings.Split bad '|').length ≠ 5
      ∨ ∀ t, time.Parse ((strings.Split bad '|').getD 3 "") ≠ .ok t) :
    ∃ err, ParseEDGARIndexEntry bad = .error err := by
  unfold ParseEDGARIndexEntry
  split
  · rename_i c0 c1 c2 c3 c4 hsplit
    rcases hbad with h | h
    · simp [hsplit] at h
    · simp only [hsplit, List.getD_eq_getElem?_getD] at h
      simp only [List.getElem?_cons_succ, List.getElem?_cons_zero, Option.getD_some] at h
      rcases ha : strconv.Atoi c0 with err | cik
      · exact ⟨err, rfl⟩
      · rcases hp : time.Parse c3 with err | t
        · exact ⟨err, rfl⟩
        · exact absurd hp (h t)
  · exact ⟨_, rfl⟩

theorem parseEntries_malformed {σ : Type} (f : σ → EDGARIndexEntry → σ × Option Error)
    (scanErr : Option Error) (bad : String) (rest : List String) (err : Error)
    (hbad : ParseEDGARIndexEntry bad = .error err) (good : List String) :
    ∀ (es : List EDGARIndexEntry) (s : σ) (log : List EDGARIndexEntry),
      parseAll good = some es →
      ∃ pre, (parseEntries (logged f) scanErr (good ++ bad :: rest) (s, log)).1.2 = log ++ pre
        ∧ pre <+: es
        ∧ (parseEntries (logged f) scanErr (good ++ bad :: rest) (s, log)).2 ≠ none
        ∧ ((∀ s1, ∀ e ∈ es, (f s1 e).2 = none) →
            pre = es
              ∧ (parseEntries (logged f) scanErr (good ++ bad :: rest) (s, log)).2 = some err) := by
  induction good with
  | nil =>
    intro es s log h
    simp only [parseAll, Option.some.injEq] at h
    subst h
    exact ⟨[], by simp [parseEntries, hbad]⟩
  | cons l good ih =>
    intro es s log h
    simp only [parseAll] at h
    rcases hl : ParseEDGARIndexEntry l with e1 | e
    · simp [hl] at h
    · rcases hr : parseAll good with _ | es1
      · simp [hl, hr] at h
      · simp only [hl, hr, Option.some.injEq] at h
        subst h
        simp only [List.cons_append, parseEntries, hl]
        rcases hfe : (f s e).2 with _ | err1
        · have hlog : logged f (s, log) e = (((f s e).1, log ++ [e]), none) := by
            simp [logged, hfe]
          simp only [hlog]
          obtain ⟨pre, h1, h2, h3, h4⟩ := ih es1 (f s e).1 (log ++ [e]) hr
          refine ⟨e :: pre, by simp [h1], ?_, h3, fun hf => ?_⟩
          · obtain ⟨t, ht⟩ := h2
            exact ⟨t, by simp [← ht]⟩
          · obtain ⟨h5, h6⟩ := h4 (fun s1 x hx => hf s1 x (List.mem_cons_of_mem _ hx))
            exact ⟨by rw [h5], h6⟩
        · have hlog : logged f (s, log) e = (((f s e).1, log ++ [e]), some err1) := by
            simp [logged, hfe]
          simp only [hlog]
          refine ⟨[e], rfl, ⟨es1, rfl⟩, by simp, fun hf => ?_⟩
          have := hf s e (List.mem_cons_self _ _)
          rw [hfe] at this
          cases this

/-- A malformed line after the twelve lines the skip loop consumes. When the lines
left after the skip loop are well-formed record lines `good` followed by a line `bad`
that does not split on `|` into exactly 5 fields or whose fourth field is not accepted
by `time.Parse`, `ParseEDGARIndex` returns an error; `f` has been invoked on an initial
part of the records of `good`, in order, and so never on `bad` or a later line; and
when `f` does not fail on the records of `good`, it has been invoked on all of them
and the error returned is the parse error of `bad`. -/
theorem malformed_line_after_skip {σ : Type} (r : Scanner) (good rest : List String)
    (bad : String) (es : List EDGARIndexEntry) (f : σ → EDGARIndexEntry → σ × Option Error)
    (s : σ)
    (hlines : skipLines 0 r.lines = good ++ bad :: rest)
    (hgood : parseAll good = some es)
    (hbad : (strings.Split bad '|').length ≠ 5
      ∨ ∀ t, time.Parse ((strings.Split bad '|').getD 3 "") ≠ .ok t) :
    (ParseEDGARIndex r (logged f) (s, [])).2 ≠ none
      ∧ (ParseEDGARIndex r (logged f) (s, [])).1.2 <+: es
      ∧ ((∀ s1, ∀ e ∈ es, (f s1 e).2 = none) →
          (ParseEDGARIndex r (logged f) (s, [])).1.2 = es
            ∧ ∃ err, ParseEDGARIndexEntry bad = .error err
              ∧ (ParseEDGARIndex r (logged f) (s, [])).2 = some err) := by
  obtain ⟨err, herr⟩ := ParseEDGARIndexEntry_malformed bad hbad
  obtain ⟨pre, h1, h2, h3, h4⟩ :=
    parseEntries_malformed f r.err bad rest err herr good es s [] hgood
  rw [ParseEDGARIndex_of_lines r _ _ (by rw [hlines]; simp), hlines]
  simp only [List.nil_append] at h1
  rw [h1]
  refine ⟨h3, h2, fun hf => ?_⟩
  obtain ⟨h5, h6⟩ := h4 hf
  exact ⟨h5, err, herr, h6⟩

/-- C6, on the code. On the eleven header lines of an index file followed by a line
with four fields (a pipe is missing) and a well-formed record, the skip loop consumes
the malformed line as its twelfth line: `ParseEDGARIndex` returns nil, and `f` is
invoked on the record that follows the malformed line. On the same lines after the
twelve leading lines of the sample the wrong-number-of-columns error is returned. -/
theorem malformed_first_record_is_skipped :
    (brokenFirstRecordIndex.take 11 = elevenLineIndex.take 11
        ∧ brokenFirstRecordIndex.drop 11 =
          ["1000045|NICHOLAS FINANCIAL INC|4|2018-10-15",
           "1000184|SAP SE|6-K|2018-10-19|edgar/data/1000184/0001104659-18-062851.txt"])
      ∧ (strings.Split "1000045|NICHOLAS FINANCIAL INC|4|2018-10-15" '|').length = 4
      ∧ ParseEDGARIndexEntry "1000045|NICHOLAS FINANCIAL INC|4|2018-10-15"
          = .error .wrongColumns
      ∧ (ParseEDGARIndex (NewScanner ⟨brokenFirstRecordIndex, none, 0⟩)
          (logged noop) ((), [])).2 = none
      ∧ (ParseEDGARIndex (NewScanner ⟨brokenFirstRecordIndex, none, 0⟩)
          (logged noop) ((), [])).1.2.map EDGARIndexEntry.String
          = ["1000184|SAP SE|6-K|2018-10-19|edgar/data/1000184/0001104659-18-062851.txt"]
      ∧ ParseEDGARIndex (NewScanner ⟨"" :: brokenFirstRecordIndex, none, 0⟩)
          (logged noop) ((), []) = (((), []), some .wrongColumns) := by
  decide

/-! ### Serialising a parsed entry -/

theorem splitChars_ne_nil (sep : Char) (s : List Char) : splitChars sep s ≠ [] := by
  cases s with
  | nil => simp [splitChars]
  | cons c cs =>
    simp only [splitChars]
    split_ifs
    · simp
    · split <;> simp

theorem joinChars_splitChars (sep : Char) (s : List Char) :
    joinChars sep (splitChars sep s) = s := by
  induction s with
  | nil => simp [splitChars, joinChars]
  | cons c cs ih =>
    simp only [splitChars]
    split_ifs with hc
    · rcases hs : splitChars sep cs with _ | ⟨v, ws⟩
      · exact absurd hs (splitChars_ne_nil sep cs)
      · rw [hs] at ih
        simp [joinChars, ih, hc]
    · rcases hs : splitChars sep cs with _ | ⟨w, ws⟩
      · exact absurd hs (splitChars_ne_nil sep cs)
      · rw [hs] at ih
        cases ws with
        | nil => simpa [joinChars] using ih
        | cons v ws => simpa [joinChars] using ih

theorem Join_Split (s : String) (sep : Char) : strings.Join (strings.Split s sep) sep = s := by
  simp only [strings.Join, strings.Split, List.map_map]
  have : (String.data ∘ String.mk) = id := by funext x; rfl
  rw [this, List.map_id, joinChars_splitChars]

theorem digitVal_some (c : Char) (v : Nat) (h : digitVal c = some v) :
    v < 10 ∧ Nat.digitChar v = c := by
  unfold digitVal at h
  split_ifs at h with hc
  simp only [Option.some.injEq] at h
  have hv : c.toNat = 48 + v := by omega
  have hc1 : c = Char.ofNat (48 + v) := by rw [← hv, Char.ofNat_toNat]
  have hlt : v < 10 := by omega
  subst hc1
  refine ⟨hlt, ?_⟩
  clear h hv hc
  interval_cases v <;> decide

theorem natDigits_small (k n : Nat) (hk : 0 < k) (h : n < 10) :
    natDigits k n = [Nat.digitChar n] := by
  cases k with
  | zero => omega
  | succ k => simp [natDigits, h]

theorem natDigits_big (k n : Nat) (hk : 0 < k) (h : 10 ≤ n) :
    natDigits k n = natDigits (k - 1) (n / 10) ++ [Nat.digitChar (n % 10)] := by
  cases k with
  | zero => omega
  | succ k => simp [natDigits, Nat.not_lt.mpr h]

theorem appendInt_two (x y : Nat) (hx : x < 10) (hy : y < 10) :
    appendInt ((x * 10 + y : Nat) : Int) 2 = [Nat.digitChar x, Nat.digitChar y] := by
  interval_cases x <;> interval_cases y <;> rfl

theorem appendInt_four (n : Nat) (h : n < 10000) :
    appendInt (n : Int) 4 =
      [Nat.digitChar (n / 10 / 10 / 10), Nat.digitChar (n / 10 / 10 % 10),
        Nat.digitChar (n / 10 % 10), Nat.digitChar (n % 10)] := by
  have hneg : ¬ ((n : Int) < 0) := by omega
  simp only [appendInt, hneg, if_false, Int.natAbs_ofNat, List.nil_append, formatNat]
  by_cases h1 : n < 10
  · rw [natDigits_small _ _ (by omega) h1]
    have e1 : n / 10 / 10 / 10 = 0 := by omega
    have e2 : n / 10 / 10 % 10 = 0 := by omega
    have e3 : n / 10 % 10 = 0 := by omega
    have e4 : n % 10 = n := by omega
    rw [e1, e2, e3, e4]
    rfl
  · by_cases h2 : n < 100
    · rw [natDigits_big _ _ (by omega) (by omega), natDigits_small _ _ (by omega) (by omega)]
      have e1 : n / 10 / 10 / 10 = 0 := by omega
      have e2 : n / 10 / 10 % 10 = 0 := by omega
      have e3 : n / 10 % 10 = n / 10 := by omega
      rw [e1, e2, e3]
      rfl
    · by_cases h3 : n < 1000
      · rw [natDigits_big _ _ (by omega) (by omega), natDigits_big _ _ (by omega) (by omega),
          natDigits_small _ _ (by omega) (by omega)]
        have e1 : n / 10 / 10 / 10 = 0 := by omega
        have e2 : n / 10 / 10 % 10 = n / 10 / 10 := by omega
        rw [e1, e2]
        rfl
      · rw [natDigits_big _ _ (by omega) (by omega), natDigits_big _ _ (by omega) (by omega),
          natDigits_big _ _ (by omega) (by omega), natDigits_small _ _ (by omega) (by omega)]
        rfl

theorem getnum_some (v : List Char) (n : Nat) (rest : List Char)
    (h : getnum v = some (n, rest)) :
    ∃ a b x y, v = a :: b :: rest ∧ digitVal a = some x ∧ digitVal b = some y
      ∧ n = x * 10 + y := by
  unfold getnum at h
  split at h
  · rename_i a b r
    split at h
    · rename_i x y hx hy
      simp only [Option.some.injEq, Prod.mk.injEq] at h
      obtain ⟨h1, h2⟩ := h
      subst h1 h2
      exact ⟨a, b, x, y, rfl, hx, hy, rfl⟩
    · cases h
  · cases h

theorem parseDigits_four (v : List Char) (n : Nat) (hlen : 4 ≤ v.length)
    (h : parseDigits (v.take 4) 0 = some n) :
    ∃ a b c d x y z w, v = a :: b :: c :: d :: v.drop 4
      ∧ digitVal a = some x ∧ digitVal b = some y ∧ digitVal c = some z
      ∧ digitVal d = some w ∧ n = ((x * 10 + y) * 10 + z) * 10 + w := by
  match v, hlen with
  | a :: b :: c :: d :: rest, _ =>
    simp only [List.take_succ_cons, List.take_zero, parseDigits] at h
    rcases ha : digitVal a with _ | x
    · simp [ha] at h
    · rcases hb : digitVal b with _ | y
      · simp [ha, hb] at h
      · rcases hc : digitVal c with _ | z
        · simp [ha, hb, hc] at h
        · rcases hd : digitVal d with _ | w
          · simp [ha, hb, hc, hd] at h
          · simp only [ha, hb, hc, hd, Option.some.injEq] at h
            exact ⟨a, b, c, d, x, y, z, w, by simp, ha, hb, hc, hd, by omega⟩

theorem Format_Parse (v : String) (t : Time) (h : time.Parse v = .ok t) : t.Format = v := by
  unfold time.Parse at h
  simp only at h
  split_ifs at h with h1
  split at h
  · cases h
  · rename_i year hy
    split at h
    · rename_i v1 hv1
      split at h
      · cases h
      · rename_i month v2 hm
        split_ifs at h with hmr
        split at h
        · rename_i v3
          split at h
          · cases h
          · rename_i day v4 hd
            split_ifs at h with hv4 hdr
            have hv4e : v4 = [] := by simpa using hv4
            subst hv4e
            injection h with h
            subst h
            obtain ⟨a, b, c, d, x, y, z, w, hv, ha, hb, hc, hdd, hn⟩ :=
              parseDigits_four v.data year (by omega) hy
            obtain ⟨m1, m2, xm, ym, hv1e, hm1, hm2, hmn⟩ := getnum_some _ _ _ hm
            obtain ⟨d1, d2, xd, yd, hv3e, hd1, hd2, hdn⟩ := getnum_some _ _ _ hd
            have hdata : v.data = [a, b, c, d, '-', m1, m2, '-', d1, d2] := by
              rw [hv, hv1, hv1e, hv3e]
            obtain ⟨hx, hxa⟩ := digitVal_some _ _ ha
            obtain ⟨hy1, hyb⟩ := digitVal_some _ _ hb
            obtain ⟨hz, hzc⟩ := digitVal_some _ _ hc
            obtain ⟨hw, hwd⟩ := digitVal_some _ _ hdd
            obtain ⟨hxm, hxm1⟩ := digitVal_some _ _ hm1
            obtain ⟨hym, hym1⟩ := digitVal_some _ _ hm2
            obtain ⟨hxd, hxd1⟩ := digitVal_some _ _ hd1
            obtain ⟨hyd, hyd1⟩ := digitVal_some _ _ hd2
            have e1 : year / 10 / 10 / 10 = x := by omega
            have e2 : year / 10 / 10 % 10 = y := by omega
            have e3 : year / 10 % 10 = z := by omega
            have e4 : year % 10 = w := by omega
            have hvs : v = String.mk v.data := rfl
            rw [hvs, hdata]
            simp only [Time.Format, time.Date]
            rw [appendInt_four year (by omega), hmn, hdn, appendInt_two xm ym hxm hym,
              appendInt_two xd yd hxd hyd, e1, e2, e3, e4, hxa, hyb, hzc, hwd, hxm1, hym1,
              hxd1, hyd1]
            rfl
        · cases h
    · cases h

/-- C7, as stated, fails: the line `007|A|4|2018-10-15|x` splits into 5 fields and is
accepted, and the parsed entry serialises to `7|A|4|2018-10-15|x`. -/
theorem reserialise_leading_zeros :
    (strings.Split "007|A|4|2018-10-15|x" '|').length = 5
      ∧ ∃ e, ParseEDGARIndexEntry "007|A|4|2018-10-15|x" = .ok e
        ∧ e.String = "7|A|4|2018-10-15|x" ∧ e.String ≠ "007|A|4|2018-10-15|x" :=
  ⟨by decide,
    ⟨7, "A", "4", time.Date 2018 10 15 (by decide) (by decide), "x"⟩,
    by decide, by decide, by decide⟩

/-- C7, amended. For every line `s` accepted by `ParseEDGARIndexEntry`, `s` splits on
`|` into 5 fields; serialising the parsed entry with `String()` reproduces the last
four fields exactly and puts the decimal form `strconv.Itoa` of the owner id in place
of the first; so it reproduces `s` if and only if the first field of `s` is that
decimal form of its value. -/
theorem reserialise_parsed (s : String) (e : EDGARIndexEntry)
    (h : ParseEDGARIndexEntry s = .ok e) :
    ∃ c0 c1 c2 c3 c4, strings.Split s '|' = [c0, c1, c2, c3, c4]
      ∧ strconv.Atoi c0 = .ok e.CIK
      ∧ e.String = strings.Join [strconv.Itoa e.CIK, c1, c2, c3, c4] '|'
      ∧ (e.String = s ↔ strconv.Itoa e.CIK = c0) := by
  unfold ParseEDGARIndexEntry at h
  split at h
  · rename_i c0 c1 c2 c3 c4 hsplit
    split at h
    · cases h
    · rename_i cik hcik
      split at h
      · cases h
      · rename_i t ht
        injection h with h
        subst h
        have hfmt := Format_Parse c3 t ht
        have hstr : (EDGARIndexEntry.mk cik c1 c2 t c4).String =
            strings.Join [strconv.Itoa cik, c1, c2, c3, c4] '|' := by
          simp [EDGARIndexEntry.String, hfmt]
        have hs : s = strings.Join [c0, c1, c2, c3, c4] '|' := by
          rw [← hsplit, Join_Split]
        refine ⟨c0, c1, c2, c3, c4, hsplit, hcik, hstr, ?_⟩
        rw [hstr]
        constructor
        · intro heq
          rw [hs] at heq
          simp only [strings.Join, List.map_cons, List.map_nil, joinChars] at heq
          have h1 := List.append_cancel_right (congrArg String.data heq)
          exact String.ext h1
        · intro heq
          rw [heq, ← hs]
  · cases h

/-- C7, amended, at the first record of the sample index, which is reproduced. -/
theorem reserialise_parsed_witness :
    ∃ e, ParseEDGARIndexEntry
        "1000045|NICHOLAS FINANCIAL INC|4|2018-10-15|edgar/data/1000045/0001357521-18-000008.txt"
        = .ok e
      ∧ e.String =
        "1000045|NICHOLAS FINANCIAL INC|4|2018-10-15|edgar/data/1000045/0001357521-18-000008.txt"
      ∧ ∃ c0 c1 c2 c3 c4,
        strings.Split
          "1000045|NICHOLAS FINANCIAL INC|4|2018-10-15|edgar/data/1000045/0001357521-18-000008.txt"
          '|' = [c0, c1, c2, c3, c4]
        ∧ strconv.Atoi c0 = .ok e.CIK
        ∧ e.String = strings.Join [strconv.Itoa e.CIK, c1, c2, c3, c4] '|'
        ∧ (e.String =
            "1000045|NICHOLAS FINANCIAL INC|4|2018-10-15|edgar/data/1000045/0001357521-18-000008.txt"
          ↔ strconv.Itoa e.CIK = c0) :=
  ⟨⟨1000045, "NICHOLAS FINANCIAL INC", "4", time.Date 2018 10 15 (by decide) (by decide),
      "edgar/data/1000045/0001357521-18-000008.txt"⟩,
    by decide, by decide, reserialise_parsed _ _ (by decide)⟩

/-! ### Empty partitions -/

/-- C8, as stated, fails. The index of the fourth quarter of 2018 has a body of zero
bytes, the index of the third quarter holds a record filed on 2018-08-01, and the
range is [2018-06-01, 2018-10-20]: `GetEDGARIndexEntries` returns nil after the first
fetch, the third and the second quarter are never fetched, and the record of
2018-08-01, which is in range, is not delivered. -/
theorem empty_body_ends_traversal :
    (GetEDGARIndexEntries emptyBodyClient (utc2018 12 31) (utc2018 6 1) (utc2018 10 20)
        noop ()).err = none
      ∧ (GetEDGARIndexEntries emptyBodyClient (utc2018 12 31) (utc2018 6 1) (utc2018 10 20)
          noop ()).events = [.get 2018 4, .closeBody 2018 4]
      ∧ (GetEDGARIndexEntries emptyBodyClient (utc2018 12 31) (utc2018 6 1) (utc2018 10 20)
          noop ()).calls = []
      ∧ (inRangeEntries emptyBodyClient (utc2018 6 1) (utc2018 10 20) (2018, 3)).map
          EDGARIndexEntry.String = ["7|G|4|2018-08-01|g.txt"] := by
  decide

/-- C8, amended. When the request for a partition succeeds with a status that is no
error status and a body of zero bytes (opening the gzip stream gives `io.EOF`), the
body is closed, no error is raised and the traversal ends there: the loop body
executes `return nil`, so whatever partitions follow in the enumeration are not
fetched and the callback is not invoked again. -/
theorem empty_body_returns_nil {σ : Type} (c : Client) (start end1 : Time)
    (f : σ → EDGARIndexEntry → σ × Option Error) (p : Int × Int) (ps : List (Int × Int))
    (w : Run σ) (resp : Response)
    (hget : c.Get (indexURL p.1 p.2) = .ok resp)
    (hstatus : c.IsErrorStatus resp.StatusCode = false)
    (hbody : resp.Body.gzip = .error .EOF) :
    traverse c start end1 f (p :: ps) w =
      (⟨w.state, w.calls, w.events ++ [.get p.1 p.2, .closeBody p.1 p.2]⟩, some none) := by
  simp [traverse, loopOver, fetchPartition, hget, hstatus, hbody, Run.emit]

/-- C8, amended, at the traversal of the three partitions of [2018-06-01, 2018-10-20]
when the index of the fourth quarter of 2018 has a body of zero bytes. -/
theorem empty_body_returns_nil_witness :
    emptyBodyClient.Get (indexURL 2018 4) = emptyResponse
      ∧ traverse emptyBodyClient (utc2018 6 1) (utc2018 10 20) noop
          [(2018, 4), (2018, 3), (2018, 2)] ⟨(), [], []⟩ =
        (⟨(), [], [] ++ [.get 2018 4, .closeBody 2018 4]⟩, some none) :=
  ⟨by decide,
    empty_body_returns_nil emptyBodyClient (utc2018 6 1) (utc2018 10 20) noop (2018, 4)
      [(2018, 3), (2018, 2)] ⟨(), [], []⟩ ⟨200, ⟨.error .EOF, ⟨[], none, 0, none⟩, none⟩⟩
      (by decide) (by decide) rfl⟩

theorem fetchPartition_empty_content {σ : Type} (c : Client) (start end1 : Time)
    (f : σ → EDGARIndexEntry → σ × Option Error) (p : Int × Int) (w : Run σ)
    (h : servedLines c p.1 p.2 = some []) :
    fetchPartition c start end1 f p.1 p.2 w =
      (⟨w.state, w.calls, w.events ++ partitionEvents p⟩, none) := by
  simp only [servedLines] at h
  rcases hg : c.Get (indexURL p.1 p.2) with err | resp
  · simp [hg] at h
  · simp only [hg] at h
    by_cases hs : c.IsErrorStatus resp.StatusCode = true
    · simp [hs] at h
    · rcases hz : resp.Body.gzip with err | zr
      · simp [hs, hz] at h
      · simp only [hs, hz] at h
        by_cases hc : zr.scanner.err = none ∧ zr.closeErr = none ∧ resp.Body.closeErr = none
        · simp only [hc, and_self, if_true, Option.some.injEq, Bool.false_eq_true,
            if_false] at h
          obtain ⟨h1, h2, h3⟩ := hc
          simp only [fetchPartition, hg, hs, hz, Run.emit, h2, h3, Bool.false_eq_true, if_false]
          rw [ParseEDGARIndex_of_err _ _ _ (by simp [h1]), h1, h]
          simp [skipLines, parseEntries, partitionEvents]
        · simp [hs, hc] at h

/-- C9. A partition that is served in full with decompressed content of zero length
adds no callback invocation and no error: the loop body leaves the callback state and
the list of invocations as they were and runs to its end, and the traversal goes on
with the partitions that follow it in the enumeration. -/
theorem empty_content_continues {σ : Type} (c : Client) (start end1 : Time)
    (f : σ → EDGARIndexEntry → σ × Option Error) (p : Int × Int) (ps : List (Int × Int))
    (w : Run σ) (h : servedLines c p.1 p.2 = some []) :
    fetchPartition c start end1 f p.1 p.2 w =
        (⟨w.state, w.calls, w.events ++ partitionEvents p⟩, none)
      ∧ traverse c start end1 f (p :: ps) w =
        traverse c start end1 f ps ⟨w.state, w.calls, w.events ++ partitionEvents p⟩ := by
  have h1 := fetchPartition_empty_content c start end1 f p w h
  refine ⟨h1, ?_⟩
  simp only [traverse, loopOver, h1]

/-- C9 at a traversal of [2018-06-01, 2018-10-20] in which the index of the fourth
quarter of 2018 has zero-length content: the three partitions are fetched, the record
of the later ones is delivered and nil is returned. -/
theorem empty_content_continues_witness :
    servedLines emptyContentClient 2018 4 = some []
      ∧ fetched (GetEDGARIndexEntries emptyContentClient (utc2018 12 31) (utc2018 6 1)
          (utc2018 10 20) noop ()).events = [(2018, 4), (2018, 3), (2018, 2)]
      ∧ (GetEDGARIndexEntries emptyContentClient (utc2018 12 31) (utc2018 6 1)
          (utc2018 10 20) noop ()).calls.map EDGARIndexEntry.String
          = ["7|G|4|2018-08-01|g.txt", "7|G|4|2018-08-01|g.txt"]
      ∧ (GetEDGARIndexEntries emptyContentClient (utc2018 12 31) (utc2018 6 1)
          (utc2018 10 20) noop ()).err = none
      ∧ (fetchPartition emptyContentClient (utc2018 6 1) (utc2018 10 20) noop 2018 4
            ⟨(), [], []⟩ = (⟨(), [], [] ++ partitionEvents (2018, 4)⟩, none)
          ∧ traverse emptyContentClient (utc2018 6 1) (utc2018 10 20) noop
              [(2018, 4), (2018, 3), (2018, 2)] ⟨(), [], []⟩ =
            traverse emptyContentClient (utc2018 6 1) (utc2018 10 20) noop
              [(2018, 3), (2018, 2)] ⟨(), [], [] ++ partitionEvents (2018, 4)⟩) :=
  ⟨by decide, by decide, by decide, by decide,
    empty_content_continues emptyContentClient (utc2018 6 1) (utc2018 10 20) noop (2018, 4)
      [(2018, 3), (2018, 2)] ⟨(), [], []⟩ (by decide)⟩

/-! ### An inverted range -/

theorem parseEntries_out_of_range {σ : Type} (start end1 : Time)
    (f : σ → EDGARIndexEntry → σ × Option Error) (g : σ → EDGARIndexEntry → σ × Option Error)
    (hno : ∀ e, inRange start end1 e = false) :
    rangeFilter start end1 (logged f) = rangeFilter start end1 (logged g) := by
  funext w e
  simp [rangeFilter_eq, hno]

theorem fetchPartition_out_of_range {σ : Type} (c : Client) (start end1 : Time)
    (f g : σ → EDGARIndexEntry → σ × Option Error)
    (hno : ∀ e, inRange start end1 e = false) :
    fetchPartition c start end1 f = fetchPartition c start end1 g := by
  funext year quarter w
  simp only [fetchPartition, parseEntries_out_of_range start end1 f g hno]

theorem GetEDGARIndexEntries_out_of_range {σ : Type} (c : Client) (now start end_ : Time)
    (f g : σ → EDGARIndexEntry → σ × Option Error) (s : σ)
    (hno : ∀ e, inRange start (effectiveEnd now end_) e = false) :
    GetEDGARIndexEntries c now start end_ f s = GetEDGARIndexEntries c now start end_ g s := by
  simp only [GetEDGARIndexEntries, fetchPartition_out_of_range c start _ f g hno]

theorem partitions_eq_nil (start end1 : Time)
    (h : keyLT (end1.year, quarterOf end1) (start.year, quarterOf start)) :
    partitions start end1 = [] := by
  apply List.eq_nil_iff_forall_not_mem.mpr
  rintro ⟨y, q⟩ hp
  obtain ⟨_, _, h3, h4⟩ := (mem_partitions _ _ y q).mp hp
  simp only [keyLE, keyLT] at h h3 h4
  omega

/-- C10, as stated, fails: with `start` = 2018-10-19 after `end` = 2018-10-15 the index
of the fourth quarter of 2018 is still fetched, and when that request fails the
error is returned. -/
theorem inverted_range_returns_fetch_error :
    (utc2018 10 15).instant < (utc2018 10 19).instant
      ∧ (GetEDGARIndexEntries failingClient (utc2018 12 31) (utc2018 10 19) (utc2018 10 15)
          noop ()).events = [.get 2018 4]
      ∧ (GetEDGARIndexEntries failingClient (utc2018 12 31) (utc2018 10 19) (utc2018 10 15)
          noop ()).err = some (.other "connection refused") := by
  decide

/-- C10, amended. When `start` is after the end of the range, `GetEDGARIndexEntries`
never invokes `f` (its state is left as it was); no partition is fetched and nil is
returned when the quarter of `start` is later than the quarter of the end; and nil is
returned when every partition between the two quarters is served in full with
well-formed records. The end of the range is `end`, or the current time when `end`
is zero. -/
theorem inverted_range_no_calls {σ : Type} (c : Client) (now start end_ : Time)
    (f : σ → EDGARIndexEntry → σ × Option Error) (s : σ)
    (h : (effectiveEnd now end_).instant < start.instant) :
    (GetEDGARIndexEntries c now start end_ f s).calls = []
      ∧ (GetEDGARIndexEntries c now start end_ f s).state = s
      ∧ (keyLT ((effectiveEnd now end_).year, quarterOf (effectiveEnd now end_))
            (start.year, quarterOf start) →
          (GetEDGARIndexEntries c now start end_ f s).events = []
            ∧ (GetEDGARIndexEntries c now start end_ f s).err = none)
      ∧ ((∀ y q : Int, 1 ≤ q → q ≤ 4 → keyLE (start.year, quarterOf start) (y, q) →
            keyLE (y, q) ((effectiveEnd now end_).year, quarterOf (effectiveEnd now end_)) →
            (indexEntries c y q).isSome = true) →
          (GetEDGARIndexEntries c now start end_ f s).err = none) := by
  have hno : ∀ e, inRange start (effectiveEnd now end_) e = false := by
    intro e
    simp only [inRange, decide_eq_false_iff_not]
    omega
  have hcalls : (GetEDGARIndexEntries c now start end_ f s).calls = [] := by
    apply List.eq_nil_iff_forall_not_mem.mpr
    intro e he
    have := calls_inRange c now start end_ f s e he
    rw [hno e] at this
    cases this
  have hg := GetEDGARIndexEntries_out_of_range c now start end_ f (fun s1 _ => (s1, none)) s hno
  have hstate : (GetEDGARIndexEntries c now start end_ f s).state = s := by
    rw [hg, GetEDGARIndexEntries_eq]
    have hinv := loopOver_invariant (fun w : Run σ => w.state = s)
      (fun p w1 => fetchPartition c start (effectiveEnd now end_) (fun s1 _ => (s1, none))
        p.1 p.2 w1)
      (fun p w hw => by
        have hkeep : ∀ (scanErr : Option Error) (ls : List String) (log : List EDGARIndexEntry),
            (parseEntries (rangeFilter start (effectiveEnd now end_)
              (logged (fun (s1 : σ) (_ : EDGARIndexEntry) => (s1, (none : Option Error)))))
              scanErr ls (w.state, log)).1.1 = s := by
          intro scanErr ls
          induction ls with
          | nil => intro log; simpa [parseEntries] using hw
          | cons l ls ih =>
            intro log
            simp only [parseEntries]
            rcases ParseEDGARIndexEntry l with err | e
            · simpa using hw
            · simp only [rangeFilter_eq, hno, Bool.false_eq_true, if_false]
              exact ih log
        unfold fetchPartition
        simp only [Run.emit, ParseEDGARIndex]
        split
        · exact hw
        · split
          · exact hw
          · split
            · exact hw
            · split
              · exact hkeep _ _ _
              · split
                · exact hkeep _ _ _
                · split
                  · exact hkeep _ _ _
                  · exact hkeep _ _ _)
      (partitions start (effectiveEnd now end_)) ⟨s, [], []⟩ rfl
    simpa [traverse] using hinv
  refine ⟨hcalls, hstate, fun hlt => ?_, fun hok => ?_⟩
  · rw [GetEDGARIndexEntries_eq, partitions_eq_nil _ _ hlt]
    simp [traverse, loopOver]
  · rw [hg, GetEDGARIndexEntries_ok c now start end_ _ s hok (fun _ _ => rfl)]

/-- C10, amended, at `start` = 2018-10-19 and `end` = 2018-10-15 against the client of
the tests: the index of the fourth quarter is fetched, no record is delivered and nil
is returned. -/
theorem inverted_range_no_calls_witness :
    (utc2018 10 15).instant < (utc2018 10 19).instant
      ∧ (GetEDGARIndexEntries sampleClient (utc2018 12 31) (utc2018 10 19) (utc2018 10 15)
          noop ()).events = partitionEvents (2018, 4)
      ∧ (GetEDGARIndexEntries sampleClient (utc2018 12 31) (utc2018 10 19) (utc2018 10 15)
          noop ()).calls = []
      ∧ (GetEDGARIndexEntries sampleClient (utc2018 12 31) (utc2018 10 19) (utc2018 10 15)
          noop ()).err = none :=
  ⟨by decide, by decide,
    (inverted_range_no_calls sampleClient (utc2018 12 31) (utc2018 10 19) (utc2018 10 15)
      noop () (by decide)).1,
    (inverted_range_no_calls sampleClient (utc2018 12 31) (utc2018 10 19) (utc2018 10 15)
      noop () (by decide)).2.2.2 (fun _ _ _ _ _ _ => rfl)⟩

/-! ### The lines skipped -/

theorem parseEntries_logged_ok {σ : Type} (f : σ → EDGARIndexEntry → σ × Option Error)
    (hf : ∀ s e, (f s e).2 = none) (scanErr : Option Error) (ls : List String) :
    ∀ (es : List EDGARIndexEntry) (s : σ) (log : List EDGARIndexEntry),
      parseAll ls = some es →
      parseEntries (logged f) scanErr ls (s, log) = ((runCallback f es s, log ++ es), scanErr) := by
  induction ls with
  | nil =>
    intro es s log h
    simp only [parseAll, Option.some.injEq] at h
    subst h
    simp [parseEntries, runCallback]
  | cons l ls ih =>
    intro es s log h
    simp only [parseAll] at h
    rcases hl : ParseEDGARIndexEntry l with err | e
    · simp [hl] at h
    · rcases hr : parseAll ls with _ | es1
      · simp [hl, hr] at h
      · simp only [hl, hr, Option.some.injEq] at h
        subst h
        have hlog : logged f (s, log) e = (((f s e).1, log ++ [e]), none) := by
          simp [logged, hf]
        simp only [parseEntries, hl, hlog]
        rw [ih es1 _ _ hr]
        simp [runCallback]

theorem parseAll_of_forall_ok (ls : List String)
    (h : ∀ l ∈ ls, (ParseEDGARIndexEntry l).toBool = true) :
    ∃ es, parseAll ls = some es ∧ es.map Except.ok = ls.map ParseEDGARIndexEntry := by
  induction ls with
  | nil => exact ⟨[], rfl, rfl⟩
  | cons l ls ih =>
    have hl := h l (List.mem_cons_self _ _)
    obtain ⟨e, he⟩ : ∃ e, ParseEDGARIndexEntry l = .ok e := by
      rcases hp : ParseEDGARIndexEntry l with err | e
      · simp [hp, Except.toBool] at hl
      · exact ⟨e, rfl⟩
    obtain ⟨es, hes, hmap⟩ := ih (fun x hx => h x (List.mem_cons_of_mem _ hx))
    exact ⟨e :: es, by simp [parseAll, he, hes], by simp [he, hmap]⟩

/-- C11, on the code. On the eleven header lines of an index file followed by the two
records of the sample, the skip loop leaves only the second record in the scanner:
twelve lines are consumed, the record on the twelfth line is never parsed, and `f` is
invoked once, on the record of the thirteenth line. -/
theorem skip_loop_consumes_twelve_lines :
    elevenLineIndex.length = 11 + 2
      ∧ skipLines 0 elevenLineIndex
          = ["1000184|SAP SE|6-K|2018-10-19|edgar/data/1000184/0001104659-18-062851.txt"]
      ∧ (ParseEDGARIndex ⟨elevenLineIndex, none, 0, none⟩ (logged noop) ((), [])).1.2.map
          EDGARIndexEntry.String
          = ["1000184|SAP SE|6-K|2018-10-19|edgar/data/1000184/0001104659-18-062851.txt"]
      ∧ (ParseEDGARIndex ⟨elevenLineIndex, none, 0, none⟩ (logged noop) ((), [])).2 = none := by
  decide

/-- C15, amended. For a reader that delivers 12 leading lines followed by record lines
and then `io.EOF`, every line being shorter than `bufio.MaxScanTokenSize` and every
record line, as `bufio.ScanLines` cuts it, well formed, and a callback that never
fails, `ParseEDGARIndex` returns nil and invokes `f` once per record line, in the
order of the lines, the i-th call receiving the entry `ParseEDGARIndexEntry` gives for
the i-th record line. -/
theorem sample_shaped_index_parsed {σ : Type} (header records : List String)
    (pending : Nat) (f : σ → EDGARIndexEntry → σ × Option Error) (s : σ)
    (hlen : header.length = 12)
    (hshort : ∀ l ∈ header ++ records, (bytes l).length < MaxScanTokenSize)
    (hrec : ∀ l ∈ records, (ParseEDGARIndexEntry (dropCR l)).toBool = true)
    (hf : ∀ s e, (f s e).2 = none) :
    (ParseEDGARIndex (NewScanner ⟨header ++ records, none, pending⟩) (logged f) (s, [])).2
        = none
      ∧ (ParseEDGARIndex (NewScanner ⟨header ++ records, none, pending⟩)
          (logged f) (s, [])).1.2.length = records.length
      ∧ (ParseEDGARIndex (NewScanner ⟨header ++ records, none, pending⟩)
          (logged f) (s, [])).1.2.map Except.ok
          = records.map (fun l => ParseEDGARIndexEntry (dropCR l)) := by
  obtain ⟨es, hes, hmap⟩ := parseAll_of_forall_ok (records.map dropCR)
    (by simpa using hrec)
  have hskip : skipLines 0 ((header ++ records).map dropCR) = records.map dropCR := by
    rw [skipLines_eq_drop _ 0 (by omega)]
    simp [List.drop_append_eq_append_drop, hlen]
  have hlenes : es.length = records.length := by
    have := congrArg List.length hmap
    simpa using this
  rw [NewScanner_short _ none pending hshort, ParseEDGARIndex_of_err _ _ _ (by simp)]
  simp only [hskip, parseEntries_logged_ok f hf none _ es s [] hes, List.nil_append]
  refine ⟨trivial, hlenes, ?_⟩
  rw [hmap, List.map_map]
  rfl

/-- C15, amended, at the sample index of the tests: nil is returned and the two records
are delivered in order. -/
theorem sample_shaped_index_parsed_witness :
    (sampleEDGARIndex.take 12).length = 12
      ∧ (∀ l ∈ sampleEDGARIndex, (bytes l).length < MaxScanTokenSize)
      ∧ (ParseEDGARIndex (NewScanner ⟨sampleEDGARIndex, none, 0⟩)
          (logged noop) ((), [])).1.2.map EDGARIndexEntry.String
          = ["1000045|NICHOLAS FINANCIAL INC|4|2018-10-15|edgar/data/1000045/0001357521-18-000008.txt",
             "1000184|SAP SE|6-K|2018-10-19|edgar/data/1000184/0001104659-18-062851.txt"]
      ∧ ((ParseEDGARIndex
            (NewScanner ⟨sampleEDGARIndex.take 12 ++ sampleEDGARIndex.drop 12, none, 0⟩)
            (logged noop) ((), [])).2 = none
        ∧ (ParseEDGARIndex
            (NewScanner ⟨sampleEDGARIndex.take 12 ++ sampleEDGARIndex.drop 12, none, 0⟩)
            (logged noop) ((), [])).1.2.length = (sampleEDGARIndex.drop 12).length
        ∧ (ParseEDGARIndex
            (NewScanner ⟨sampleEDGARIndex.take 12 ++ sampleEDGARIndex.drop 12, none, 0⟩)
            (logged noop) ((), [])).1.2.map Except.ok
            = (sampleEDGARIndex.drop 12).map (fun l => ParseEDGARIndexEntry (dropCR l))) :=
  ⟨by decide, by decide, by decide,
    sample_shaped_index_parsed (sampleEDGARIndex.take 12) (sampleEDGARIndex.drop 12) 0 noop ()
      (by decide) (by decide) (by decide) (fun _ _ => rfl)⟩

/-! ### Empty lines and the content of parse errors -/

/-- C17, as stated, fails: on the sample index followed by an empty line and one more
record, `ParseEDGARIndex` returns the wrong-number-of-columns error at the empty line,
and the record after it is never delivered. -/
theorem empty_line_not_skipped :
    (ParseEDGARIndex ⟨blankLineIndex, none, 0, none⟩ (logged noop) ((), [])).2 = some .wrongColumns
      ∧ (ParseEDGARIndex ⟨blankLineIndex, none, 0, none⟩ (logged noop) ((), [])).1.2.map
          EDGARIndexEntry.String
          = ["1000045|NICHOLAS FINANCIAL INC|4|2018-10-15|edgar/data/1000045/0001357521-18-000008.txt",
             "1000184|SAP SE|6-K|2018-10-19|edgar/data/1000184/0001104659-18-062851.txt"] := by
  decide

/-- C17, amended. An empty line is a malformed record: `ParseEDGARIndexEntry` rejects
it with the wrong-number-of-columns error, and when the lines left after the skip loop
are well-formed record lines followed by an empty line, `ParseEDGARIndex` with a
callback that does not fail on those records invokes `f` on them, in order, returns
that error, and parses no line after the empty one. -/
theorem empty_line_is_an_error {σ : Type} (r : Scanner) (good rest : List String)
    (es : List EDGARIndexEntry) (f : σ → EDGARIndexEntry → σ × Option Error) (s : σ)
    (hlines : skipLines 0 r.lines = good ++ "" :: rest)
    (hgood : parseAll good = some es)
    (hf : ∀ s1, ∀ e ∈ es, (f s1 e).2 = none) :
    ParseEDGARIndexEntry "" = .error .wrongColumns
      ∧ (ParseEDGARIndex r (logged f) (s, [])).2 = some .wrongColumns
      ∧ (ParseEDGARIndex r (logged f) (s, [])).1.2 = es := by
  have hbad : ParseEDGARIndexEntry "" = .error .wrongColumns := by decide
  obtain ⟨pre, h1, _, _, h4⟩ :=
    parseEntries_malformed f r.err "" rest .wrongColumns hbad good es s [] hgood
  obtain ⟨h5, h6⟩ := h4 hf
  rw [ParseEDGARIndex_of_lines r _ _ (by rw [hlines]; simp), hlines]
  simp only [List.nil_append] at h1
  exact ⟨hbad, h6, by rw [h1, h5]⟩

/-- C17, amended, at the sample index followed by an empty line and one more record. -/
theorem empty_line_is_an_error_witness :
    skipLines 0 blankLineIndex = sampleEDGARIndex.drop 12 ++ "" :: ["5|E|4|2018-10-16|e.txt"]
      ∧ (ParseEDGARIndexEntry "" = .error .wrongColumns
        ∧ (ParseEDGARIndex ⟨blankLineIndex, none, 0, none⟩ (logged noop) ((), [])).2
            = some .wrongColumns
        ∧ (ParseEDGARIndex ⟨blankLineIndex, none, 0, none⟩ (logged noop) ((), [])).1.2
            = (parseAll (sampleEDGARIndex.drop 12)).getD []) :=
  ⟨by decide,
    empty_line_is_an_error ⟨blankLineIndex, none, 0, none⟩ (sampleEDGARIndex.drop 12)
      ["5|E|4|2018-10-16|e.txt"] ((parseAll (sampleEDGARIndex.drop 12)).getD []) noop ()
      (by decide) (by decide) (fun _ _ _ => rfl)⟩

theorem Atoi_error (c : String) (err : Error) (h : strconv.Atoi c = .error err) :
    err = .numError c := by
  unfold strconv.Atoi at h
  simp only at h
  repeat' first
    | (injection h with h; exact h.symm)
    | split at h
    | cases h

theorem Parse_error (v : String) (err : Error) (h : time.Parse v = .error err) :
    err = .parseError v := by
  unfold time.Parse at h
  simp only at h
  repeat' first
    | (injection h with h; exact h.symm)
    | split at h
    | cases h

/-- C20, as stated, fails: the two different malformed lines `a|b` and `c|d|e` give
the same error, the fixed wrong-number-of-columns error, which holds no text of the
line. -/
theorem different_lines_same_error :
    ParseEDGARIndexEntry "a|b" = .error .wrongColumns
      ∧ ParseEDGARIndexEntry "c|d|e" = .error .wrongColumns
      ∧ "a|b" ≠ "c|d|e" := by
  decide

/-- C20, amended. The error `ParseEDGARIndexEntry` returns for a malformed line is
the fixed wrong-number-of-columns error when the line does not split on `|` into
exactly 5 fields, and otherwise the conversion error of `strconv.Atoi`, which holds
the first field, or the parse error of `time.Parse`, which holds the fourth field:
the error holds at most one field of the line. -/
theorem parse_error_content (s : String) (err : Error)
    (h : ParseEDGARIndexEntry s = .error err) :
    ((strings.Split s '|').length ≠ 5 ∧ err = .wrongColumns)
      ∨ ∃ c0 c1 c2 c3 c4, strings.Split s '|' = [c0, c1, c2, c3, c4]
        ∧ (err = .numError c0 ∨ err = .parseError c3) := by
  unfold ParseEDGARIndexEntry at h
  split at h
  · rename_i c0 c1 c2 c3 c4 hsplit
    right
    refine ⟨c0, c1, c2, c3, c4, hsplit, ?_⟩
    split at h
    · rename_i e1 he1
      injection h with h
      subst h
      exact Or.inl (Atoi_error c0 _ he1)
    · split at h
      · rename_i e2 he2
        injection h with h
        subst h
        exact Or.inr (Parse_error c3 _ he2)
      · cases h
  · rename_i hne
    left
    injection h with h
    refine ⟨?_, h.symm⟩
    intro hlen
    match hs : strings.Split s '|', hlen with
    | [c0, c1, c2, c3, c4], _ => exact hne c0 c1 c2 c3 c4 hs

/-- C20, amended, at a line whose owner id is not a number: the error holds the first
field `x` and nothing else of the line. -/
theorem parse_error_content_witness :
    ParseEDGARIndexEntry "x|A|4|2018-10-15|p" = .error (.numError "x")
      ∧ (((strings.Split "x|A|4|2018-10-15|p" '|').length ≠ 5
          ∧ Error.numError "x" = .wrongColumns)
        ∨ ∃ c0 c1 c2 c3 c4, strings.Split "x|A|4|2018-10-15|p" '|' = [c0, c1, c2, c3, c4]
          ∧ (Error.numError "x" = .numError c0 ∨ Error.numError "x" = .parseError c3)) :=
  ⟨by decide, parse_error_content "x|A|4|2018-10-15|p" (.numError "x") (by decide)⟩

/-! ### The end of the extracted stream -/

theorem Read_after_end (r : tagFromSECDocumentReader) (lenP : Nat)
    (h : (r.Read lenP).2.err = some .EOF) :
    (r.Read lenP).2 = endOfStream
      ∧ ∀ lenQ, (r.Read lenP).1.Read lenQ = ((r.Read lenP).1, endOfStream) := by
  obtain ⟨sc, tag⟩ := r
  cases sc with
  | none =>
    refine ⟨rfl, fun lenQ => rfl⟩
  | some sc =>
    obtain ⟨lines, err, pending, held⟩ := sc
    cases lines with
    | nil =>
      cases err with
      | none =>
        simp [tagFromSECDocumentReader.Read, Scanner.Scan, Scanner.Err, Scanner.afterEnd,
          endOfStream]
      | some e =>
        simp only [tagFromSECDocumentReader.Read, Scanner.Scan, Scanner.Err, Scanner.afterEnd,
          Nat.lt_succ_self, if_true, Option.some.injEq] at h
        subst h
        simp [tagFromSECDocumentReader.Read, Scanner.Scan, Scanner.Err, Scanner.afterEnd,
          endOfStream]
    | cons line rest =>
      by_cases hc : strings.TrimSpace line = closeTag tag
      · simp only [tagFromSECDocumentReader.Read, Scanner.Scan, hc, if_true]
        exact ⟨rfl, fun lenQ => rfl⟩
      · simp [tagFromSECDocumentReader.Read, Scanner.Scan, hc] at h

theorem readN_fixed (r : tagFromSECDocumentReader) (lenQ : Nat)
    (h : r.Read lenQ = (r, endOfStream)) (k : Nat) :
    readN r lenQ k = List.replicate k endOfStream := by
  induction k with
  | zero => rfl
  | succ k ih => simp [readN, h, ih, List.replicate_succ]

/-- C13. Once a `Read` has signalled end-of-stream, whether the closing-tag line was
reached or the underlying stream ended, it has returned 0 bytes, and every later
`Read`, whatever the buffer, returns 0 bytes and end-of-stream and leaves the reader
as it is: nothing is scanned again and no line after the closing tag is emitted. -/
theorem exhaustion_is_absorbing (r : tagFromSECDocumentReader) (lenP : Nat)
    (h : (r.Read lenP).2.err = some .EOF) :
    (r.Read lenP).2 = endOfStream
      ∧ (∀ lenQ, (r.Read lenP).1.Read lenQ = ((r.Read lenP).1, endOfStream))
      ∧ ∀ lenQ k, readN (r.Read lenP).1 lenQ k = List.replicate k endOfStream := by
  obtain ⟨h1, h2⟩ := Read_after_end r lenP h
  exact ⟨h1, h2, fun lenQ k => readN_fixed _ lenQ (h2 lenQ) k⟩

/-- C13 at a reader that stands before the closing tag of the example envelope: the
`Read` that meets `</XML>` signals end-of-stream and so do the three that follow, the
lines `</TEXT>` and `</SEC-DOCUMENT>` being never returned. -/
theorem exhaustion_is_absorbing_witness :
    ((tagFromSECDocumentReader.mk (some ⟨["</XML>", "</TEXT>", "</SEC-DOCUMENT>"], none, 0, none⟩)
        "XML").Read 64).2.err = some .EOF
      ∧ readN ((tagFromSECDocumentReader.mk
          (some ⟨["</XML>", "</TEXT>", "</SEC-DOCUMENT>"], none, 0, none⟩) "XML").Read 64).1 64 3
        = [endOfStream, endOfStream, endOfStream] :=
  ⟨by decide,
    (exhaustion_is_absorbing ⟨some ⟨["</XML>", "</TEXT>", "</SEC-DOCUMENT>"], none, 0, none⟩, "XML"⟩
      64 (by decide)).2.2 64 3⟩

theorem readN_at_end (tag : String) (pending : Nat) (held : Option String) (lenP m : Nat) :
    readN ⟨some ⟨[], none, pending, held⟩, tag⟩ lenP m = List.replicate m endOfStream := by
  cases m with
  | zero => rfl
  | succ m =>
    have h : (tagFromSECDocumentReader.mk (some ⟨[], none, pending, held⟩) tag).Read lenP =
        (⟨some ⟨[], none, 1, none⟩, tag⟩, endOfStream) := by
      simp [tagFromSECDocumentReader.Read, Scanner.Scan, Scanner.Err, Scanner.afterEnd,
        endOfStream]
    simp only [readN, h, List.replicate_succ]
    rw [readN_fixed _ lenP (by
      simp [tagFromSECDocumentReader.Read, Scanner.Scan, Scanner.Err, Scanner.afterEnd,
        endOfStream]) m]

theorem readN_unterminated (tag : String) (pending : Nat) (held : Option String)
    (lenP m : Nat) (payload : List String)
    (hpay : ∀ l ∈ payload, strings.TrimSpace l ≠ closeTag tag) :
    readN ⟨some ⟨payload, none, pending, held⟩, tag⟩ lenP (payload.length + m) =
      payload.map (fun l => ⟨(bytes l).take lenP, (bytes l).length, none⟩)
        ++ List.replicate m endOfStream := by
  induction payload with
  | nil =>
    simp only [List.length_nil, Nat.zero_add, List.map_nil, List.nil_append]
    exact readN_at_end tag pending held lenP m
  | cons l payload ih =>
    have hl := hpay l (List.mem_cons_self _ _)
    have h1 : (l :: payload).length + m = (payload.length + m) + 1 := by
      simp only [List.length_cons]; omega
    simp only [h1, readN, tagFromSECDocumentReader.Read, Scanner.Scan, hl, if_false,
      List.map_cons, List.cons_append]
    rw [ih (fun x hx => hpay x (List.mem_cons_of_mem _ hx))]

/-- C14, amended. For a reader that delivers an envelope and then `io.EOF`, in which
every line is shorter than `bufio.MaxScanTokenSize` and the first line that trims to
`<tag>` is followed by no line that trims to `</tag>`, `ExtractTagFromSECDocument`
succeeds and successive calls of `Read` go through every line after the opening-tag
line, in order, one per call: each returns the length of the line, as
`bufio.ScanLines` cuts it, and nil error, having copied as many of its bytes as the
buffer holds; from then on every call returns end-of-stream: no error reports the
missing closing tag. -/
theorem unterminated_tag_truncates (pre payload : List String) (o tag : String)
    (pending lenP m : Nat)
    (hshort : ∀ l ∈ pre ++ o :: payload, (bytes l).length < MaxScanTokenSize)
    (ho : strings.TrimSpace (dropCR o) = openTag tag)
    (hpre : ∀ l ∈ pre, strings.TrimSpace (dropCR l) ≠ openTag tag)
    (hpay : ∀ l ∈ payload, strings.TrimSpace (dropCR l) ≠ closeTag tag) :
    ∃ r, ExtractTagFromSECDocument (NewScanner ⟨pre ++ o :: payload, none, pending⟩) tag = .ok r
      ∧ readN r lenP (payload.length + m) =
          payload.map (fun l =>
              ⟨(bytes (dropCR l)).take lenP, (bytes (dropCR l)).length, none⟩)
            ++ List.replicate m endOfStream := by
  rw [NewScanner_short _ none pending hshort]
  refine ⟨_, ExtractTag_found _ tag (dropCR o) (pre.map dropCR) (payload.map dropCR)
    (by simp) ho (by simpa using hpre) (Or.inl rfl), ?_⟩
  have h := readN_unterminated tag pending none lenP m (payload.map dropCR)
    (by simpa using hpay)
  rw [List.length_map] at h
  rw [h, List.map_map]
  rfl

/-- C14, amended, at an envelope whose tag `XML` is never closed: the two lines after
`<XML>` are returned, then end-of-stream twice. -/
theorem unterminated_tag_truncates_witness :
    unterminatedEnvelope = ["<SEC-DOCUMENT>"] ++ "<XML>" :: ["PAYLOAD-LINE-1", "PAYLOAD-LINE-2"]
      ∧ (∀ l ∈ unterminatedEnvelope, (bytes l).length < MaxScanTokenSize)
      ∧ ∃ r, ExtractTagFromSECDocument
          (NewScanner ⟨["<SEC-DOCUMENT>"] ++ "<XML>" :: ["PAYLOAD-LINE-1", "PAYLOAD-LINE-2"],
            none, 0⟩) "XML" = .ok r
        ∧ readN r 64 (2 + 2) =
          [⟨bytes "PAYLOAD-LINE-1", 14, none⟩, ⟨bytes "PAYLOAD-LINE-2", 14, none⟩]
            ++ [endOfStream, endOfStream] :=
  ⟨by decide, by decide,
    unterminated_tag_truncates ["<SEC-DOCUMENT>"] ["PAYLOAD-LINE-1", "PAYLOAD-LINE-2"] "<XML>"
      "XML" 0 64 2 (by decide) (by decide) (by decide) (by decide)⟩

/-- C14, as stated, fails: for the envelope `<XML>`, `PAYLOAD-LINE-1` and a line of
`bufio.MaxScanTokenSize` bytes, which holds no closing tag, the stream returns the
first line and then `bufio.ErrTooLong`, not the second line and not end-of-stream. -/
theorem long_line_ends_stream_with_error :
    strings.TrimSpace (dropCR "<XML>") = openTag "XML"
      ∧ (∀ l ∈ ["PAYLOAD-LINE-1", longLine], strings.TrimSpace (dropCR l) ≠ closeTag "XML")
      ∧ ∃ r, ExtractTagFromSECDocument
            (NewScanner ⟨["<XML>", "PAYLOAD-LINE-1", longLine], none, 0⟩) "XML" = .ok r
        ∧ readN r 64 2 = [⟨bytes "PAYLOAD-LINE-1", 14, none⟩, ⟨[], 0, some .tooLong⟩] := by
  refine ⟨by decide, ?_, ?_⟩
  · intro l hl
    rcases List.mem_cons.mp hl with rfl | hl
    · decide
    · rw [List.mem_singleton] at hl
      subst hl
      rw [longLine_trim]
      exact longLine_ne_closeTag
  have hsc : NewScanner ⟨["<XML>", "PAYLOAD-LINE-1", longLine], none, 0⟩ =
      ⟨["<XML>", "PAYLOAD-LINE-1"], some .tooLong, 0,
        some (dropCR (String.mk (takeBytes MaxScanTokenSize longLine.data)))⟩ := by
    have h := NewScanner_append ["<XML>", "PAYLOAD-LINE-1"] [longLine] none 0 (by decide)
    rw [NewScanner_long longLine _ none 0 longLine_too_long] at h
    exact h
  rw [hsc]
  refine ⟨_, ExtractTag_found _ "XML" "<XML>" [] ["PAYLOAD-LINE-1"] rfl (by decide) (by simp)
    (Or.inr (Nat.zero_le _)), ?_⟩
  have hl : strings.TrimSpace "PAYLOAD-LINE-1" ≠ closeTag "XML" := by decide
  have hb : (bytes "PAYLOAD-LINE-1").take 64 = bytes "PAYLOAD-LINE-1" := by decide
  have hn : (bytes "PAYLOAD-LINE-1").length = 14 := by decide
  simp [readN, tagFromSECDocumentReader.Read, Scanner.Scan, Scanner.Err, hl, hb, hn]

/-! ### A fetch that fails -/

/-- C18. When the request for a partition fails in transport, the loop body returns
that error right after the request; when it is answered with an error status, the
body is closed and the error returned is the `StatusError` holding the URL of the
partition and the status received. In both cases the traversal ends there: the
partitions that follow are not fetched and the callback is not invoked (its state and
the list of its invocations are left as they were). The URL of a partition is
`https://www.sec.gov/Archives/edgar/full-index/{year}/QTR{quarter}/master.gz` with the
year and the quarter in decimal. -/
theorem fetch_failure_aborts {σ : Type} (c : Client) (start end1 : Time)
    (f : σ → EDGARIndexEntry → σ × Option Error) (p : Int × Int) (ps : List (Int × Int))
    (w : Run σ) :
    (∀ err, c.Get (indexURL p.1 p.2) = .error err →
        traverse c start end1 f (p :: ps) w =
          (⟨w.state, w.calls, w.events ++ [.get p.1 p.2]⟩, some (some err)))
      ∧ (∀ resp, c.Get (indexURL p.1 p.2) = .ok resp →
          c.IsErrorStatus resp.StatusCode = true →
          traverse c start end1 f (p :: ps) w =
            (⟨w.state, w.calls, w.events ++ [.get p.1 p.2, .closeBody p.1 p.2]⟩,
              some (some (.statusError (indexURL p.1 p.2) resp.StatusCode))))
      ∧ indexURL p.1 p.2 =
          "https://www.sec.gov/Archives/edgar/full-index/" ++ strconv.Itoa p.1 ++ "/QTR"
            ++ strconv.Itoa p.2 ++ "/master.gz" := by
  refine ⟨fun err h => ?_, fun resp h hs => ?_, rfl⟩
  · simp [traverse, loopOver, fetchPartition, h, Run.emit]
  · simp [traverse, loopOver, fetchPartition, h, hs, Run.emit]

/-- C18 at the range [2018-06-01, 2018-10-20]: against a client whose requests fail in
transport that error is returned after one request, and against a client that answers
404 the `StatusError` with the URL of the fourth quarter of 2018 and the status 404 is
returned after one request. -/
theorem fetch_failure_aborts_witness :
    indexURL 2018 4 = "https://www.sec.gov/Archives/edgar/full-index/2018/QTR4/master.gz"
      ∧ (GetEDGARIndexEntries failingClient (utc2018 12 31) (utc2018 6 1) (utc2018 10 20)
          noop ()).err = some (.other "connection refused")
      ∧ (GetEDGARIndexEntries notFoundClient (utc2018 12 31) (utc2018 6 1) (utc2018 10 20)
          noop ()).err = some (.statusError
            "https://www.sec.gov/Archives/edgar/full-index/2018/QTR4/master.gz" 404)
      ∧ (GetEDGARIndexEntries notFoundClient (utc2018 12 31) (utc2018 6 1) (utc2018 10 20)
          noop ()).events = [.get 2018 4, .closeBody 2018 4]
      ∧ traverse failingClient (utc2018 6 1) (utc2018 10 20) noop
          [(2018, 4), (2018, 3), (2018, 2)] ⟨(), [], []⟩ =
        (⟨(), [], [] ++ [.get 2018 4]⟩, some (some (.other "connection refused")))
      ∧ traverse notFoundClient (utc2018 6 1) (utc2018 10 20) noop
          [(2018, 4), (2018, 3), (2018, 2)] ⟨(), [], []⟩ =
        (⟨(), [], [] ++ [.get 2018 4, .closeBody 2018 4]⟩,
          some (some (.statusError (indexURL 2018 4) 404))) :=
  ⟨by decide, by decide, by decide, by decide,
    (fetch_failure_aborts failingClient (utc2018 6 1) (utc2018 10 20) noop (2018, 4)
      [(2018, 3), (2018, 2)] ⟨(), [], []⟩).1 _ rfl,
    (fetch_failure_aborts notFoundClient (utc2018 6 1) (utc2018 10 20) noop (2018, 4)
      [(2018, 3), (2018, 2)] ⟨(), [], []⟩).2.1 _ rfl rfl⟩

/-! ### A callback that fails -/

theorem parseEntries_stops {σ : Type} (f : σ → EDGARIndexEntry → σ × Option Error)
    (g : σ × List EDGARIndexEntry → EDGARIndexEntry → (σ × List EDGARIndexEntry) × Option Error)
    (keep : EDGARIndexEntry → Bool)
    (hg : ∀ w e, g w e = if keep e = true then logged f w e else (w, none))
    (scanErr : Option Error) (l : String) (rest : List String) (e : EDGARIndexEntry)
    (err : Error) (hl : ParseEDGARIndexEntry l = .ok e) (hkeep : keep e = true)
    (good : List String) :
    ∀ (es : List EDGARIndexEntry) (s : σ) (log : List EDGARIndexEntry),
      parseAll good = some es →
      succeeds f (es.filter keep) s = true →
      (f (runCallback f (es.filter keep) s) e).2 = some err →
      parseEntries g scanErr (good ++ l :: rest) (s, log) =
        (((f (runCallback f (es.filter keep) s) e).1, log ++ es.filter keep ++ [e]),
          some err) := by
  induction good with
  | nil =>
    intro es s log h _ herr
    simp only [parseAll, Option.some.injEq] at h
    subst h
    simp only [List.filter_nil, runCallback, List.foldl_nil] at herr
    simp [parseEntries, hl, hg, hkeep, logged, herr, runCallback]
  | cons x good ih =>
    intro es s log h hok herr
    simp only [parseAll] at h
    rcases hx : ParseEDGARIndexEntry x with e1 | a
    · simp [hx] at h
    · rcases hr : parseAll good with _ | es1
      · simp [hx, hr] at h
      · simp only [hx, hr, Option.some.injEq] at h
        subst h
        simp only [List.cons_append, parseEntries, hx, hg]
        by_cases ha : keep a = true
        · simp only [List.filter_cons, ha, if_true, succeeds, Bool.and_eq_true,
            Option.isNone_iff_eq_none] at hok herr ⊢
          obtain ⟨hfa, hok1⟩ := hok
          have hrun : runCallback f (a :: es1.filter keep) s =
              runCallback f (es1.filter keep) (f s a).1 := by
            simp [runCallback]
          rw [hrun] at herr ⊢
          have hlog : logged f (s, log) a = (((f s a).1, log ++ [a]), none) := by
            simp [logged, hfa]
          simp only [hlog]
          have h2 := ih es1 (f s a).1 (log ++ [a]) hr hok1 herr
          simpa using h2
        · simp only [List.filter_cons, ha, Bool.false_eq_true, if_false] at hok herr ⊢
          have h2 := ih es1 s log hr hok herr
          simpa using h2

/-- C12. When the callback returns an error `err` on a record, having returned none on
the records before it, then (1) `ParseEDGARIndex` returns exactly `err` and has invoked
its callback on that record last, no later line being parsed; and (2) in
`GetEDGARIndexEntries` the loop body closes both streams and returns exactly `err`, so
that the traversal ends there: `f` has been invoked on that record last and the
partitions that follow are not fetched. -/
theorem callback_error_aborts {σ : Type} (c : Client) (start end1 : Time)
    (f : σ → EDGARIndexEntry → σ × Option Error) :
    (∀ (r : Scanner) (good rest : List String) (l : String) (es : List EDGARIndexEntry)
        (e : EDGARIndexEntry) (err : Error) (s : σ),
        skipLines 0 r.lines = good ++ l :: rest →
        parseAll good = some es →
        ParseEDGARIndexEntry l = .ok e →
        succeeds f es s = true →
        (f (runCallback f es s) e).2 = some err →
        ParseEDGARIndex r (logged f) (s, []) =
          (((f (runCallback f es s) e).1, es ++ [e]), some err))
      ∧ (∀ (p : Int × Int) (ps : List (Int × Int)) (w : Run σ) (resp : Response)
          (zr : GzipReader) (good rest : List String) (l : String)
          (es : List EDGARIndexEntry) (e : EDGARIndexEntry) (err : Error),
          c.Get (indexURL p.1 p.2) = .ok resp →
          c.IsErrorStatus resp.StatusCode = false →
          resp.Body.gzip = .ok zr →
          skipLines 0 zr.scanner.lines = good ++ l :: rest →
          parseAll good = some es →
          ParseEDGARIndexEntry l = .ok e →
          inRange start end1 e = true →
          succeeds f (es.filter (inRange start end1)) w.state = true →
          (f (runCallback f (es.filter (inRange start end1)) w.state) e).2 = some err →
          traverse c start end1 f (p :: ps) w =
            (⟨(f (runCallback f (es.filter (inRange start end1)) w.state) e).1,
              w.calls ++ es.filter (inRange start end1) ++ [e],
              w.events ++ partitionEvents p⟩, some (some err))) := by
  constructor
  · intro r good rest l es e err s hlines hgood hl hok herr
    have hfilter : es.filter (fun _ => true) = es := by simp
    have := parseEntries_stops f (logged f) (fun _ => true) (fun w x => by simp) r.err l rest
      e err hl rfl good es s [] hgood (by rw [hfilter]; exact hok) (by rw [hfilter]; exact herr)
    rw [hfilter] at this
    rw [ParseEDGARIndex_of_lines r _ _ (by rw [hlines]; simp), hlines]
    exact this
  · intro p ps w resp zr good rest l es e err hget hstatus hzr hlines hgood hl hin hok herr
    have := parseEntries_stops f (rangeFilter start end1 (logged f)) (inRange start end1)
      (fun w x => rangeFilter_eq start end1 (logged f) w x) zr.scanner.err l rest e err hl hin
      good es w.state w.calls hgood hok herr
    simp [traverse, loopOver, fetchPartition, hget, hstatus, hzr,
      ParseEDGARIndex_of_lines zr.scanner _ _ (by rw [hlines]; simp), hlines,
      this, Run.emit, partitionEvents]

/-- C12 at the sample index and a callback that fails on its second record, in the
range [2018-06-01, 2018-10-20]: the two records are delivered, the error of the
callback is returned and only the fourth quarter of 2018 is fetched. -/
theorem callback_error_aborts_witness :
    (GetEDGARIndexEntries sampleClient (utc2018 12 31) (utc2018 6 1) (utc2018 10 20)
        (failOn 1000184) ()).err = some (.other "stop")
      ∧ (GetEDGARIndexEntries sampleClient (utc2018 12 31) (utc2018 6 1) (utc2018 10 20)
          (failOn 1000184) ()).events = partitionEvents (2018, 4)
      ∧ ParseEDGARIndex ⟨sampleEDGARIndex, none, 0, none⟩ (logged (failOn 1000184)) ((), []) =
          ((((failOn 1000184) (runCallback (failOn 1000184)
              ((parseAll (sampleEDGARIndex.drop 12 |>.take 1)).getD []) ()) sampleSecondEntry).1,
            (parseAll (sampleEDGARIndex.drop 12 |>.take 1)).getD [] ++ [sampleSecondEntry]),
            some (.other "stop"))
      ∧ traverse sampleClient (utc2018 6 1) (utc2018 10 20) (failOn 1000184)
          [(2018, 4), (2018, 3), (2018, 2)] ⟨(), [], []⟩ =
        (⟨((failOn 1000184) (runCallback (failOn 1000184)
              (((parseAll (sampleEDGARIndex.drop 12 |>.take 1)).getD []).filter
                (inRange (utc2018 6 1) (utc2018 10 20))) ()) sampleSecondEntry).1,
          [] ++ ((parseAll (sampleEDGARIndex.drop 12 |>.take 1)).getD []).filter
              (inRange (utc2018 6 1) (utc2018 10 20)) ++ [sampleSecondEntry],
          [] ++ partitionEvents (2018, 4)⟩, some (some (.other "stop"))) :=
  ⟨by decide, by decide,
    (callback_error_aborts sampleClient (utc2018 6 1) (utc2018 10 20) (failOn 1000184)).1
      ⟨sampleEDGARIndex, none, 0, none⟩ (sampleEDGARIndex.drop 12 |>.take 1) []
      "1000184|SAP SE|6-K|2018-10-19|edgar/data/1000184/0001104659-18-062851.txt"
      ((parseAll (sampleEDGARIndex.drop 12 |>.take 1)).getD []) sampleSecondEntry
      (.other "stop") () (by decide) (by decide) (by decide) (by decide) (by decide),
    (callback_error_aborts sampleClient (utc2018 6 1) (utc2018 10 20) (failOn 1000184)).2
      (2018, 4) [(2018, 3), (2018, 2)] ⟨(), [], []⟩
      ⟨200, ⟨.ok ⟨⟨sampleEDGARIndex, none, 0, none⟩, none⟩, ⟨[], none, 0, none⟩, none⟩⟩
      ⟨⟨sampleEDGARIndex, none, 0, none⟩, none⟩ (sampleEDGARIndex.drop 12 |>.take 1) []
      "1000184|SAP SE|6-K|2018-10-19|edgar/data/1000184/0001104659-18-062851.txt"
      ((parseAll (sampleEDGARIndex.drop 12 |>.take 1)).getD []) sampleSecondEntry
      (.other "stop") (by decide) (by decide) rfl (by decide) (by decide) (by decide)
      (by decide) (by decide) (by decide)⟩

/-! ### Parsing a well-formed line -/

theorem digitVal_digitChar (k : Nat) (h : k < 10) : digitVal (Nat.digitChar k) = some k := by
  interval_cases k <;> decide

theorem digitChar_ne_pipe (k : Nat) (h : k < 10) : Nat.digitChar k ≠ '|' := by
  interval_cases k <;> decide

theorem digitVal_ne_pipe (ch : Char) (h : (digitVal ch).isSome = true) : ch ≠ '|' := by
  intro hc
  subst hc
  simp [digitVal] at h

theorem splitChars_single (sep : Char) (a : List Char) (h : sep ∉ a) :
    splitChars sep a = [a] := by
  induction a with
  | nil => rfl
  | cons x a ih =>
    have hx : x ≠ sep := fun hx => h (by simp [hx])
    have ha : sep ∉ a := fun ha => h (List.mem_cons_of_mem _ ha)
    simp [splitChars, hx, ih ha]

theorem splitChars_append (sep : Char) (a rest : List Char) (h : sep ∉ a) :
    splitChars sep (a ++ sep :: rest) = a :: splitChars sep rest := by
  induction a with
  | nil => simp [splitChars]
  | cons x a ih =>
    have hx : x ≠ sep := fun hx => h (by simp [hx])
    have ha : sep ∉ a := fun ha => h (List.mem_cons_of_mem _ ha)
    simp [splitChars, hx, ih ha]

theorem parseDigits_eq (body : List Char) (acc : Nat)
    (h : body.all (fun ch => (digitVal ch).isSome) = true) :
    parseDigits body acc =
      some (acc * 10 ^ body.length
        + Nat.ofDigits 10 (body.reverse.map fun ch => ch.toNat - 48)) := by
  induction body generalizing acc with
  | nil => simp [parseDigits]
  | cons ch cs ih =>
    simp only [List.all_cons, Bool.and_eq_true] at h
    obtain ⟨h1, h2⟩ := h
    have hv : digitVal ch = some (ch.toNat - 48) := by
      unfold digitVal at h1 ⊢
      split_ifs at h1 ⊢
      · rfl
      · simp at h1
    simp only [parseDigits, hv, ih _ h2, List.reverse_cons, List.map_append, List.map_cons,
      List.map_nil, Nat.ofDigits_append, Nat.ofDigits_singleton, List.length_map,
      List.length_reverse, List.length_cons, Option.some.injEq]
    ring

theorem Atoi_decimal (c : String) (hc : isDecimal c = true)
    (hrange : -9223372036854775808 ≤ decimalValue c ∧ decimalValue c ≤ 9223372036854775807) :
    strconv.Atoi c = .ok (decimalValue c) := by
  simp only [isDecimal, Bool.and_eq_true, Bool.not_eq_true', List.isEmpty_eq_false] at hc
  obtain ⟨hne, hall⟩ := hc
  have hp := parseDigits_eq (unsignedPart c) 0 hall
  simp only [Nat.zero_mul, Nat.zero_add] at hp
  have hbody : (match c.data with
      | '-' :: r => r
      | '+' :: r => r
      | r => r) = unsignedPart c := rfl
  unfold strconv.Atoi
  simp only [hbody, hne, if_false, hp]
  simp only [decimalValue] at hrange ⊢
  rw [if_pos hrange]

theorem daysIn_le (m : Nat) (year : Int) : daysIn m year ≤ 31 := by
  unfold daysIn
  split_ifs
  · omega
  · by_cases hm : m ≤ 13
    · interval_cases m <;> simp [daysBefore]
    · have h1 : daysBefore m = 365 := by
        unfold daysBefore
        rw [List.getD_eq_default]
        simp only [List.length_cons, List.length_nil]
        omega
      have h2 : daysBefore (m - 1) = 365 := by
        unfold daysBefore
        rw [List.getD_eq_default]
        simp only [List.length_cons, List.length_nil]
        omega
      omega

theorem Format_Date (y m d : Nat) (hm : 1 ≤ m ∧ m ≤ 12)
    (hd : 1 ≤ d ∧ d ≤ daysIn m (y : Int)) (hy : y ≤ 9999) :
    (time.Date (y : Int) m d hm hd).Format =
      String.mk [Nat.digitChar (y / 10 / 10 / 10), Nat.digitChar (y / 10 / 10 % 10),
        Nat.digitChar (y / 10 % 10), Nat.digitChar (y % 10), '-',
        Nat.digitChar (m / 10), Nat.digitChar (m % 10), '-',
        Nat.digitChar (d / 10), Nat.digitChar (d % 10)] := by
  have hd31 := daysIn_le m (y : Int)
  have hm2 : ((m : Nat) : Int) = ((m / 10 * 10 + m % 10 : Nat) : Int) := by
    rw [Nat.div_add_mod']
  have hd2 : ((d : Nat) : Int) = ((d / 10 * 10 + d % 10 : Nat) : Int) := by
    rw [Nat.div_add_mod']
  simp only [Time.Format, time.Date]
  rw [appendInt_four y (by omega), hm2, hd2,
    appendInt_two (m / 10) (m % 10) (by omega) (by omega),
    appendInt_two (d / 10) (d % 10) (by omega) (by omega)]
  rfl

theorem Parse_Format (y m d : Nat) (hm : 1 ≤ m ∧ m ≤ 12)
    (hd : 1 ≤ d ∧ d ≤ daysIn m (y : Int)) (hy : y ≤ 9999) :
    time.Parse (time.Date (y : Int) m d hm hd).Format = .ok (time.Date (y : Int) m d hm hd) := by
  have hd31 := daysIn_le m (y : Int)
  have e1 := digitVal_digitChar (y / 10 / 10 / 10) (by omega)
  have e2 := digitVal_digitChar (y / 10 / 10 % 10) (by omega)
  have e3 := digitVal_digitChar (y / 10 % 10) (by omega)
  have e4 := digitVal_digitChar (y % 10) (by omega)
  have e5 := digitVal_digitChar (m / 10) (by omega)
  have e6 := digitVal_digitChar (m % 10) (by omega)
  have e7 := digitVal_digitChar (d / 10) (by omega)
  have e8 := digitVal_digitChar (d % 10) (by omega)
  have hyear : (((0 * 10 + y / 10 / 10 / 10) * 10 + y / 10 / 10 % 10) * 10 + y / 10 % 10) * 10
      + y % 10 = y := by omega
  have hmonth : m / 10 * 10 + m % 10 = m := Nat.div_add_mod' m 10
  have hday : d / 10 * 10 + d % 10 = d := Nat.div_add_mod' d 10
  rw [Format_Date y m d hm hd hy]
  unfold time.Parse
  simp only [List.length_cons, List.length_nil, isDigit, List.get?_cons_zero, e1,
    List.take_succ_cons, List.take_zero, parseDigits, e2, e3, e4, hyear, List.drop_succ_cons,
    List.drop_zero, getnum, e5, e6, e7, e8, hmonth, hday]
  simp [hm, hd, time.Date]

theorem Format_no_pipe (y m d : Nat) (hm : 1 ≤ m ∧ m ≤ 12)
    (hd : 1 ≤ d ∧ d ≤ daysIn m (y : Int)) (hy : y ≤ 9999) :
    '|' ∉ (time.Date (y : Int) m d hm hd).Format.data := by
  have hd31 := daysIn_le m (y : Int)
  rw [Format_Date y m d hm hd hy]
  simp only [List.mem_cons, List.mem_singleton, List.not_mem_nil, or_false, not_or]
  refine ⟨?_, ?_, ?_, ?_, by decide, ?_, ?_, by decide, ?_, ?_⟩ <;>
    exact fun h => digitChar_ne_pipe _ (by omega) h.symm

theorem isDecimal_no_pipe (c : String) (hc : isDecimal c = true) : '|' ∉ c.data := by
  simp only [isDecimal, Bool.and_eq_true, List.all_eq_true] at hc
  obtain ⟨_, hall⟩ := hc
  have hbody : ∀ ch ∈ unsignedPart c, ch ≠ '|' := fun ch hch => digitVal_ne_pipe ch (hall ch hch)
  intro hmem
  unfold unsignedPart at hbody
  split at hbody
  · rename_i r hr
    rw [hr] at hmem
    rcases List.mem_cons.mp hmem with h | h
    · exact absurd h (by decide)
    · exact hbody _ h rfl
  · rename_i r hr
    rw [hr] at hmem
    rcases List.mem_cons.mp hmem with h | h
    · exact absurd h (by decide)
    · exact hbody _ h rfl
  · exact hbody _ hmem rfl

/-- C16, as stated, fails: the first field of `9223372036854775808|A|4|2018-10-15|x`
is a decimal integer, the number 2^63, and the line is rejected with the conversion
error of `strconv.Atoi`, the number being out of the range of `int`. -/
theorem owner_id_out_of_range :
    isDecimal "9223372036854775808" = true
      ∧ decimalValue "9223372036854775808" = 9223372036854775808
      ∧ ParseEDGARIndexEntry "9223372036854775808|A|4|2018-10-15|x"
          = .error (.numError "9223372036854775808") := by
  decide

/-- C16, amended. For every line `c|n|t|d|p` in which `n`, `t` and `p` hold no `|`,
`c` is a decimal integer (an optional sign and digits) whose value is in the range of
a 64-bit `int`, and `d` is the form `YYYY-MM-DD` of a calendar date of the years 0 to
9999, `ParseEDGARIndexEntry` returns the entry whose `CIK` is the value of `c`, whose
`CompanyName`, `FormType` and `Filename` are `n`, `t` and `p` unchanged, and whose
`DateFiled` is midnight UTC of the date, with no time component. -/
theorem parse_well_formed_line (c n t p : String) (y m d : Nat)
    (hm : 1 ≤ m ∧ m ≤ 12) (hd : 1 ≤ d ∧ d ≤ daysIn m (y : Int)) (hy : y ≤ 9999)
    (hc : isDecimal c = true)
    (hrange : -9223372036854775808 ≤ decimalValue c ∧ decimalValue c ≤ 9223372036854775807)
    (hn : '|' ∉ n.data) (ht : '|' ∉ t.data) (hp : '|' ∉ p.data) :
    ParseEDGARIndexEntry
        (strings.Join [c, n, t, (time.Date (y : Int) m d hm hd).Format, p] '|')
      = .ok ⟨decimalValue c, n, t, time.Date (y : Int) m d hm hd, p⟩
      ∧ (time.Date (y : Int) m d hm hd).nanos = 0
      ∧ (time.Date (y : Int) m d hm hd).offset = 0 := by
  refine ⟨?_, rfl, rfl⟩
  have hsplit : strings.Split
      (strings.Join [c, n, t, (time.Date (y : Int) m d hm hd).Format, p] '|') '|'
      = [c, n, t, (time.Date (y : Int) m d hm hd).Format, p] := by
    simp only [strings.Split, strings.Join, List.map_cons, List.map_nil, joinChars]
    rw [splitChars_append _ _ _ (isDecimal_no_pipe c hc), splitChars_append _ _ _ hn,
      splitChars_append _ _ _ ht, splitChars_append _ _ _ (Format_no_pipe y m d hm hd hy),
      splitChars_single _ _ hp]
    rfl
  unfold ParseEDGARIndexEntry
  rw [hsplit]
  simp only [Atoi_decimal c hc hrange, Parse_Format y m d hm hd hy]

/-- C16, amended, at the first record of the sample index: the owner id is 1000045
and the date filed is midnight UTC of 2018-10-15. -/
theorem parse_well_formed_line_witness :
    strings.Join ["1000045", "NICHOLAS FINANCIAL INC", "4",
        (time.Date ((2018 : Nat) : Int) 10 15 (by decide) (by decide)).Format,
        "edgar/data/1000045/0001357521-18-000008.txt"] '|'
      = "1000045|NICHOLAS FINANCIAL INC|4|2018-10-15|edgar/data/1000045/0001357521-18-000008.txt"
      ∧ decimalValue "1000045" = 1000045
      ∧ (ParseEDGARIndexEntry
          (strings.Join ["1000045", "NICHOLAS FINANCIAL INC", "4",
            (time.Date ((2018 : Nat) : Int) 10 15 (by decide) (by decide)).Format,
            "edgar/data/1000045/0001357521-18-000008.txt"] '|')
        = .ok ⟨decimalValue "1000045", "NICHOLAS FINANCIAL INC", "4",
            time.Date ((2018 : Nat) : Int) 10 15 (by decide) (by decide),
            "edgar/data/1000045/0001357521-18-000008.txt"⟩
        ∧ (time.Date ((2018 : Nat) : Int) 10 15 (by decide) (by decide)).nanos = 0
        ∧ (time.Date ((2018 : Nat) : Int) 10 15 (by decide) (by decide)).offset = 0) :=
  ⟨by decide, by decide,
    parse_well_formed_line "1000045" "NICHOLAS FINANCIAL INC" "4"
      "edgar/data/1000045/0001357521-18-000008.txt" 2018 10 15 (by decide) (by decide)
      (by decide) (by decide) (by decide) (by decide) (by decide) (by decide)⟩

/-! ### A document that cannot be fetched -/

/-- C19, on the code. The index holds two form 4 records in range; the request for
the document of the first fails in transport and the document of the second is
served. `GetForm4Filings` returns nil: the transport error is dropped, the second
record is processed, its document is fetched and `f` is invoked on its filing. -/
theorem document_transport_error_is_dropped :
    form4Client.Get "https://www.sec.gov/Archives/edgar/data/1000045/a.txt"
        = .error (.other "connection reset")
      ∧ (GetForm4Filings form4Client lineDecoder (utc2018 12 31) (utc2018 10 15)
          (utc2018 10 19) noopFiling ()).err = none
      ∧ (GetForm4Filings form4Client lineDecoder (utc2018 12 31) (utc2018 10 15)
          (utc2018 10 19) noopFiling ()).calls.map EDGARIndexEntry.String
          = ["1000045|NICHOLAS FINANCIAL INC|4|2018-10-15|edgar/data/1000045/a.txt",
             "1000046|OTHER INC|4|2018-10-16|edgar/data/1000046/b.txt"]
      ∧ (GetForm4Filings form4Client lineDecoder (utc2018 12 31) (utc2018 10 15)
          (utc2018 10 19) noopFiling ()).state.filings
          = [["PAYLOAD-LINE-1", "PAYLOAD-LINE-2"]]
      ∧ (GetForm4Filings form4Client lineDecoder (utc2018 12 31) (utc2018 10 15)
          (utc2018 10 19) noopFiling ()).state.docs
          = [.get "https://www.sec.gov/Archives/edgar/data/1000045/a.txt",
             .get "https://www.sec.gov/Archives/edgar/data/1000046/b.txt",
             .closeBody "https://www.sec.gov/Archives/edgar/data/1000046/b.txt"] := by
  decide

/-! ### The default end of the range -/

/-- C21. When `end` is the zero time, `GetEDGARIndexEntries(start, end, f)` is the same
traversal as `GetEDGARIndexEntries(start, now, f)` with `now` the current time: the
same events, the same invocations of `f`, the same final state and the same result.
When `end` is not zero it is used as it is: the traversal does not depend on the
current time. -/
theorem zero_end_is_now {σ : Type} (c : Client) (now start end_ : Time)
    (f : σ → EDGARIndexEntry → σ × Option Error) (s : σ) :
    (end_.IsZero = true →
        GetEDGARIndexEntries c now start end_ f s = GetEDGARIndexEntries c now start now f s)
      ∧ (end_.IsZero = false →
          effectiveEnd now end_ = end_
            ∧ ∀ now1, GetEDGARIndexEntries c now start end_ f s
                = GetEDGARIndexEntries c now1 start end_ f s) := by
  constructor
  · intro h
    have h1 : effectiveEnd now end_ = now := by simp [effectiveEnd, h]
    have h2 : effectiveEnd now now = now := by simp [effectiveEnd]
    simp only [GetEDGARIndexEntries, h1, h2]
  · intro h
    have h1 : ∀ t, effectiveEnd t end_ = end_ := by intro t; simp [effectiveEnd, h]
    exact ⟨h1 now, fun now1 => by simp only [GetEDGARIndexEntries, h1]⟩

/-- C21 at `start` = 2018-06-01 and the zero `end`, the current time being 2018-10-20:
the partitions of the range [2018-06-01, 2018-10-20] are fetched. -/
theorem zero_end_is_now_witness :
    zeroTime.IsZero = true
      ∧ fetched (GetEDGARIndexEntries sampleClient (utc2018 10 20) (utc2018 6 1) zeroTime
          noop ()).events = [(2018, 4), (2018, 3), (2018, 2)]
      ∧ GetEDGARIndexEntries sampleClient (utc2018 10 20) (utc2018 6 1) zeroTime noop ()
          = GetEDGARIndexEntries sampleClient (utc2018 10 20) (utc2018 6 1) (utc2018 10 20)
              noop () :=
  ⟨by decide, by decide,
    (zero_end_is_now sampleClient (utc2018 10 20) (utc2018 6 1) zeroTime noop ()).1
      (by decide)⟩

/-! ### The count returned by Read -/

/-- C22, on the code. A `Read` with a buffer of 8 bytes on a reader that stands before
the 14-byte line `PAYLOAD-LINE-1` returns `n` = 14 with nil error, more than the
length of the buffer, having copied only the 8 bytes `PAYLOAD-`; the next `Read`
returns the next line, so the 6 bytes `LINE-1` are never delivered. -/
theorem read_count_exceeds_buffer :
    (payloadReader.Read 8).2.n = 14
      ∧ (payloadReader.Read 8).2.err = none
      ∧ (payloadReader.Read 8).2.data = bytes "PAYLOAD-"
      ∧ ((payloadReader.Read 8).1.Read 8).2.data = bytes "PAYLOAD-"
      ∧ (bytes "PAYLOAD-LINE-1").length = 14 := by
  decide

/-! ### The URL of an entry -/

/-- C24. The URL of an index entry is `https://www.sec.gov/Archives/` followed by its
`Filename`, unchanged, whatever its other fields are. -/
theorem URL_eq (cik : Int) (name formType filename : String) (date : Time) :
    (EDGARIndexEntry.mk cik name formType date filename).URL
      = "https://www.sec.gov/Archives/" ++ filename := by
  rfl

/-! ### The release of the response bodies -/

theorem bodiesReleased_append (c : Client) (xs ys : List Event) :
    ∀ st, bodiesReleased c st xs = true →
      bodiesReleased c st (xs ++ ys) = bodiesReleased c none ys := by
  induction xs with
  | nil =>
    intro st h
    simp only [bodiesReleased, Option.isNone_iff_eq_none] at h
    subst h
    rfl
  | cons x xs ih =>
    intro st h
    simp only [List.cons_append, bodiesReleased] at h ⊢
    rcases hs : bodyStep c st x with _ | st1
    · simp [hs] at h
    · simp only [hs] at h ⊢
      exact ih st1 h

theorem fetchPartition_bodiesReleased {σ : Type} (c : Client) (start end1 : Time)
    (f : σ → EDGARIndexEntry → σ × Option Error) (year quarter : Int) (w : Run σ)
    (h : bodiesReleased c none w.events = true) :
    bodiesReleased c none (fetchPartition c start end1 f year quarter w).1.events = true := by
  have hfail : ∀ err, c.Get (indexURL year quarter) = .error err →
      bodiesReleased c none (w.events ++ [.get year quarter]) = true := by
    intro err hg
    rw [bodiesReleased_append c _ _ none h]
    simp [bodiesReleased, bodyStep, hg, Except.toBool]
  have hshort : ∀ resp, c.Get (indexURL year quarter) = .ok resp →
      bodiesReleased c none (w.events ++ [.get year quarter] ++ [.closeBody year quarter])
        = true := by
    intro resp hg
    rw [List.append_assoc, bodiesReleased_append c _ _ none h]
    simp [bodiesReleased, bodyStep, hg, Except.toBool]
  have hfull : ∀ resp, c.Get (indexURL year quarter) = .ok resp →
      bodiesReleased c none (w.events ++ [.get year quarter] ++ [.closeGzip year quarter]
        ++ [.closeBody year quarter]) = true := by
    intro resp hg
    rw [List.append_assoc, List.append_assoc, bodiesReleased_append c _ _ none h]
    simp [bodiesReleased, bodyStep, hg, Except.toBool]
  unfold fetchPartition
  simp only [Run.emit]
  split
  · rename_i err hg
    exact hfail err hg
  · rename_i resp hg
    split
    · exact hshort resp hg
    · split
      · exact hshort resp hg
      · split
        · exact hfull resp hg
        · split
          · exact hfull resp hg
          · split
            · exact hfull resp hg
            · exact hfull resp hg

/-- C23. In every traversal, whatever the client answers and whatever the callback
does, the events keep the discipline of the response bodies: the body of every
request that succeeded is closed before the next request is made and before
`GetEDGARIndexEntries` returns, no body is closed twice, and none is left open,
whichever way the call returns. -/
theorem bodies_released {σ : Type} (c : Client) (now start end_ : Time)
    (f : σ → EDGARIndexEntry → σ × Option Error) (s : σ) :
    bodiesReleased c none (GetEDGARIndexEntries c now start end_ f s).events = true := by
  rw [GetEDGARIndexEntries_eq]
  exact loopOver_invariant (fun w => bodiesReleased c none w.events = true) _
    (fun p w hw => fetchPartition_bodiesReleased c start _ f p.1 p.2 w hw) _ _ rfl

/-! ### The forms that are processed -/

theorem parseEntries_state_invariant {σ : Type} (P : σ → Prop) (start end1 : Time)
    (f : σ → EDGARIndexEntry → σ × Option Error) (hf : ∀ s e, P s → P (f s e).1)
    (scanErr : Option Error) (ls : List String) :
    ∀ (s : σ) (log : List EDGARIndexEntry), P s →
      P (parseEntries (rangeFilter start end1 (logged f)) scanErr ls (s, log)).1.1 := by
  induction ls with
  | nil => intro s log hs; simpa [parseEntries] using hs
  | cons l ls ih =>
    intro s log hs
    simp only [parseEntries]
    rcases ParseEDGARIndexEntry l with err | e
    · simpa using hs
    · simp only [rangeFilter_eq]
      by_cases hin : inRange start end1 e = true
      · simp only [hin, if_true]
        rcases hr : (f s e).2 with _ | err
        · have : logged f (s, log) e = (((f s e).1, log ++ [e]), none) := by simp [logged, hr]
          rw [this]
          exact ih _ _ (hf s e hs)
        · have : logged f (s, log) e = (((f s e).1, log ++ [e]), some err) := by
            simp [logged, hr]
          rw [this]
          exact hf s e hs
      · simp only [hin, Bool.false_eq_true, if_false]
        exact ih _ _ hs

theorem GetEDGARIndexEntries_state_invariant {σ : Type} (P : σ → Prop) (c : Client)
    (now start end_ : Time) (f : σ → EDGARIndexEntry → σ × Option Error) (s : σ)
    (hf : ∀ s e, P s → P (f s e).1) (hs : P s) :
    P (GetEDGARIndexEntries c now start end_ f s).state := by
  rw [GetEDGARIndexEntries_eq]
  refine loopOver_invariant (fun w => P w.state) _ (fun p w hw => ?_) _ _ hs
  have hp := fun (zr : GzipReader) =>
    parseEntries_state_invariant P start (effectiveEnd now end_) f hf (skipLoop 12 0 zr.scanner).err
      (skipLoop 12 0 zr.scanner).lines w.state w.calls hw
  unfold fetchPartition
  simp only [Run.emit, ParseEDGARIndex]
  split
  · exact hw
  · split
    · exact hw
    · split
      · exact hw
      · split
        · exact hp _
        · split
          · exact hp _
          · split
            · exact hp _
            · exact hp _

/-- C25. The closure of `GetForm4Filings` does nothing for an index entry whose form
type is neither `FormType4` nor `FormType4A`: no request, no invocation of `f`, no
error. And in every traversal each document event (a request or the closing of a
body) is for the URL of an entry whose form type is `FormType4` or `FormType4A`. -/
theorem only_form4_processed {σ Form4 : Type} (c : Client) (dec : Form4Decoder Form4)
    (now start end_ : Time) (f : σ → Form4 → σ × Option Error) (s : σ) :
    (∀ (w : FilingRun σ Form4) (e : EDGARIndexEntry),
        e.FormType ≠ dec.FormType4 → e.FormType ≠ dec.FormType4A →
        form4Callback c dec f w e = (w, none))
      ∧ ∀ ev ∈ (GetForm4Filings c dec now start end_ f s).state.docs,
          ∃ e : EDGARIndexEntry,
            (e.FormType = dec.FormType4 ∨ e.FormType = dec.FormType4A)
              ∧ (ev = .get e.URL ∨ ev = .closeBody e.URL) := by
  constructor
  · intro w e h1 h2
    simp [form4Callback, h1, h2]
  · refine GetEDGARIndexEntries_state_invariant
      (fun w : FilingRun σ Form4 => ∀ ev ∈ w.docs, ∃ e : EDGARIndexEntry,
        (e.FormType = dec.FormType4 ∨ e.FormType = dec.FormType4A)
          ∧ (ev = .get e.URL ∨ ev = .closeBody e.URL))
      c now start end_ (form4Callback c dec f) ⟨s, [], []⟩ (fun w e hw => ?_) (by simp)
    by_cases hskip : e.FormType ≠ dec.FormType4 ∧ e.FormType ≠ dec.FormType4A
    · simpa [form4Callback, hskip] using hw
    · have hform : e.FormType = dec.FormType4 ∨ e.FormType = dec.FormType4A := by
        by_contra hcon
        exact hskip ⟨fun h => hcon (Or.inl h), fun h => hcon (Or.inr h)⟩
      have hget : ∀ ev ∈ w.docs ++ [DocEvent.get e.URL], ∃ e1 : EDGARIndexEntry,
          (e1.FormType = dec.FormType4 ∨ e1.FormType = dec.FormType4A)
            ∧ (ev = .get e1.URL ∨ ev = .closeBody e1.URL) := by
        intro ev hev
        rcases List.mem_append.mp hev with h | h
        · exact hw ev h
        · exact ⟨e, hform, Or.inl (List.mem_singleton.mp h)⟩
      have hclose : ∀ ev ∈ w.docs ++ [DocEvent.get e.URL] ++ [DocEvent.closeBody e.URL],
          ∃ e1 : EDGARIndexEntry,
            (e1.FormType = dec.FormType4 ∨ e1.FormType = dec.FormType4A)
              ∧ (ev = .get e1.URL ∨ ev = .closeBody e1.URL) := by
        intro ev hev
        rcases List.mem_append.mp hev with h | h
        · exact hget ev h
        · exact ⟨e, hform, Or.inr (List.mem_singleton.mp h)⟩
      simp only [form4Callback, hskip, if_false]
      split
      · exact hget
      · split
        · exact hclose
        · split
          · exact hclose
          · split
            · exact hclose
            · exact hclose

/-- C25 at the test of `GetForm4Filings`: of the two records of the sample index, of
form types `4` and `6-K`, only the document of the first is requested and exactly one
filing is delivered. -/
theorem only_form4_processed_witness :
    (GetForm4Filings filingsTestClient lineDecoder (utc2018 12 31) (utc2018 10 15)
        (utc2018 10 19) noopFiling ()).err = none
      ∧ (GetForm4Filings filingsTestClient lineDecoder (utc2018 12 31) (utc2018 10 15)
          (utc2018 10 19) noopFiling ()).calls.map EDGARIndexEntry.FormType = ["4", "6-K"]
      ∧ (GetForm4Filings filingsTestClient lineDecoder (utc2018 12 31) (utc2018 10 15)
          (utc2018 10 19) noopFiling ()).state.filings
          = [["PAYLOAD-LINE-1", "PAYLOAD-LINE-2"]]
      ∧ (GetForm4Filings filingsTestClient lineDecoder (utc2018 12 31) (utc2018 10 15)
          (utc2018 10 19) noopFiling ()).state.docs
          = [.get "https://www.sec.gov/Archives/edgar/data/1000045/0001357521-18-000008.txt",
             .closeBody
               "https://www.sec.gov/Archives/edgar/data/1000045/0001357521-18-000008.txt"]
      ∧ form4Callback filingsTestClient lineDecoder noopFiling ⟨(), [], []⟩ sampleSecondEntry
          = (⟨(), [], []⟩, none) :=
  ⟨by decide, by decide, by decide, by decide,
    (only_form4_processed filingsTestClient lineDecoder (utc2018 12 31) (utc2018 10 15)
      (utc2018 10 19) noopFiling ()).1 ⟨(), [], []⟩ sampleSecondEntry (by decide) (by decide)⟩

/-! ### Parsing a serialised entry -/

theorem parseDigits_append (a b : List Char) (acc : Nat) :
    parseDigits (a ++ b) acc = (parseDigits a acc).bind fun n => parseDigits b n := by
  induction a generalizing acc with
  | nil => simp [parseDigits]
  | cons ch a ih =>
    simp only [List.cons_append, parseDigits]
    rcases digitVal ch with _ | v
    · rfl
    · exact ih _

theorem natDigits_parse (fuel : Nat) : ∀ n, n < fuel → parseDigits (natDigits fuel n) 0 = some n := by
  induction fuel with
  | zero => intro n h; omega
  | succ fuel ih =>
    intro n h
    simp only [natDigits]
    split_ifs with h10
    · simp [parseDigits, digitVal_digitChar n h10]
    · rw [parseDigits_append, ih (n / 10) (by omega)]
      simp only [Option.some_bind, parseDigits, digitVal_digitChar (n % 10) (by omega),
        Option.some.injEq]
      omega

theorem natDigits_all (fuel : Nat) :
    ∀ n, (natDigits fuel n).all (fun ch => (digitVal ch).isSome) = true := by
  induction fuel with
  | zero => intro n; rfl
  | succ fuel ih =>
    intro n
    simp only [natDigits]
    split_ifs with h10
    · simp [digitVal_digitChar n h10]
    · simp [List.all_append, ih (n / 10), digitVal_digitChar (n % 10) (by omega)]

theorem formatNat_ne_nil (n : Nat) : formatNat n ≠ [] := by
  simp only [formatNat, natDigits]
  split_ifs <;> simp

theorem unsignedPart_digits (c : String) (h : c.data.all (fun ch => (digitVal ch).isSome) = true) :
    unsignedPart c = c.data ∧ c.data.head? ≠ some '-' := by
  unfold unsignedPart
  constructor
  · split
    · rename_i r hr
      rw [hr] at h
      simp [digitVal] at h
    · rename_i r hr
      rw [hr] at h
      simp [digitVal] at h
    · rfl
  · intro hh
    cases hd : c.data with
    | nil => simp [hd] at hh
    | cons ch rest =>
      rw [hd] at h hh
      simp only [List.head?_cons, Option.some.injEq] at hh
      subst hh
      simp [digitVal] at h

theorem Itoa_decimal (x : Int) :
    isDecimal (strconv.Itoa x) = true ∧ decimalValue (strconv.Itoa x) = x := by
  have hall := natDigits_all (x.natAbs + 1) x.natAbs
  have hne := formatNat_ne_nil x.natAbs
  have hparse := natDigits_parse (x.natAbs + 1) x.natAbs (by omega)
  have hval : Nat.ofDigits 10 ((formatNat x.natAbs).reverse.map fun ch => ch.toNat - 48)
      = x.natAbs := by
    have h1 := parseDigits_eq (formatNat x.natAbs) 0 hall
    simp only [formatNat] at h1 ⊢
    rw [hparse] at h1
    simp only [Nat.zero_mul, Nat.zero_add, Option.some.injEq] at h1
    exact h1.symm
  by_cases hx : x < 0
  · have hdata : (strconv.Itoa x).data = '-' :: formatNat x.natAbs := by
      simp [strconv.Itoa, hx]
    have hbody : unsignedPart (strconv.Itoa x) = formatNat x.natAbs := by
      simp only [unsignedPart, hdata]
    constructor
    · simp only [isDecimal, hbody, Bool.and_eq_true, Bool.not_eq_true', List.isEmpty_eq_false]
      exact ⟨hne, hall⟩
    · simp only [decimalValue, hbody, hval, hdata, List.head?_cons, if_true]
      omega
  · have hdata : (strconv.Itoa x).data = formatNat x.natAbs := by
      simp [strconv.Itoa, hx]
    obtain ⟨hbody, hhead⟩ := unsignedPart_digits (strconv.Itoa x) (by rw [hdata]; exact hall)
    rw [hdata] at hbody hhead
    constructor
    · simp only [isDecimal, hbody, Bool.and_eq_true, Bool.not_eq_true', List.isEmpty_eq_false]
      exact ⟨hne, hall⟩
    · simp only [decimalValue, hbody, hval, hdata, hhead, if_false]
      omega

theorem ParseEDGARIndexEntry_joined (c n t p : String) (y m d : Nat)
    (hm : 1 ≤ m ∧ m ≤ 12) (hd : 1 ≤ d ∧ d ≤ daysIn m (y : Int)) (hy : y ≤ 9999)
    (hc : isDecimal c = true)
    (hrange : -9223372036854775808 ≤ decimalValue c ∧ decimalValue c ≤ 9223372036854775807)
    (hn : '|' ∉ n.data) (ht : '|' ∉ t.data) (hp : '|' ∉ p.data) :
    ParseEDGARIndexEntry
        (strings.Join [c, n, t, (time.Date (y : Int) m d hm hd).Format, p] '|')
      = .ok ⟨decimalValue c, n, t, time.Date (y : Int) m d hm hd, p⟩ := by
  have hsplit : strings.Split
      (strings.Join [c, n, t, (time.Date (y : Int) m d hm hd).Format, p] '|') '|'
      = [c, n, t, (time.Date (y : Int) m d hm hd).Format, p] := by
    simp only [strings.Split, strings.Join, List.map_cons, List.map_nil, joinChars]
    rw [splitChars_append _ _ _ (isDecimal_no_pipe c hc), splitChars_append _ _ _ hn,
      splitChars_append _ _ _ ht, splitChars_append _ _ _ (Format_no_pipe y m d hm hd hy),
      splitChars_single _ _ hp]
    rfl
  unfold ParseEDGARIndexEntry
  rw [hsplit]
  simp only [Atoi_decimal c hc hrange, Parse_Format y m d hm hd hy]

/-- C26. For every entry `e` whose `CIK` is a value of the 64-bit type `int`, whose
`CompanyName`, `FormType` and `Filename` hold no `|` and whose `DateFiled` is midnight
UTC of a calendar date of the years 1 to 9999, `ParseEDGARIndexEntry(e.String())`
succeeds and returns an entry equal to `e`. -/
theorem parse_serialised (e : EDGARIndexEntry)
    (hcik : -9223372036854775808 ≤ e.CIK ∧ e.CIK ≤ 9223372036854775807)
    (hn : '|' ∉ e.CompanyName.data) (ht : '|' ∉ e.FormType.data)
    (hp : '|' ∉ e.Filename.data)
    (hnanos : e.DateFiled.nanos = 0) (hoffset : e.DateFiled.offset = 0)
    (hyear : 1 ≤ e.DateFiled.year ∧ e.DateFiled.year ≤ 9999) :
    ParseEDGARIndexEntry e.String = .ok e := by
  obtain ⟨cik, n, t, date, p⟩ := e
  obtain ⟨year, m, d, nanos, offset, hm, hd, hns⟩ := date
  simp only at hcik hn ht hp hnanos hoffset hyear
  subst hnanos hoffset
  obtain ⟨y, rfl⟩ : ∃ y : Nat, year = (y : Int) := ⟨year.toNat, by omega⟩
  obtain ⟨hdec, hval⟩ := Itoa_decimal cik
  have h := ParseEDGARIndexEntry_joined (strconv.Itoa cik) n t p y m d hm hd (by omega) hdec
    (by rw [hval]; exact hcik) hn ht hp
  rw [hval] at h
  exact h

/-- C26 at the first record of the sample index. -/
theorem parse_serialised_witness :
    (EDGARIndexEntry.mk 1000045 "NICHOLAS FINANCIAL INC" "4" (utc2018 10 15)
        "edgar/data/1000045/0001357521-18-000008.txt").String
      = "1000045|NICHOLAS FINANCIAL INC|4|2018-10-15|edgar/data/1000045/0001357521-18-000008.txt"
      ∧ ParseEDGARIndexEntry
          (EDGARIndexEntry.mk 1000045 "NICHOLAS FINANCIAL INC" "4" (utc2018 10 15)
            "edgar/data/1000045/0001357521-18-000008.txt").String
        = .ok ⟨1000045, "NICHOLAS FINANCIAL INC", "4", utc2018 10 15,
            "edgar/data/1000045/0001357521-18-000008.txt"⟩ :=
  ⟨by decide,
    parse_serialised ⟨1000045, "NICHOLAS FINANCIAL INC", "4", utc2018 10 15,
      "edgar/data/1000045/0001357521-18-000008.txt"⟩ (by decide) (by decide) (by decide)
      (by decide) (by decide) (by decide) (by decide)⟩

/-! ### When a line is accepted -/

theorem parseDigits_some_all (body : List Char) :
    ∀ acc n, parseDigits body acc = some n →
      body.all (fun ch => (digitVal ch).isSome) = true := by
  induction body with
  | nil => intro acc n _; rfl
  | cons ch cs ih =>
    intro acc n h
    simp only [parseDigits] at h
    rcases hv : digitVal ch with _ | v
    · simp [hv] at h
    · simp only [hv] at h
      simp [hv, ih _ _ h]

theorem Atoi_ok_iff (c : String) :
    (∃ v, strconv.Atoi c = .ok v) ↔
      (isDecimal c = true ∧ -9223372036854775808 ≤ decimalValue c
        ∧ decimalValue c ≤ 9223372036854775807) := by
  constructor
  · rintro ⟨v, h⟩
    have hbody : (match c.data with
        | '-' :: r => r
        | '+' :: r => r
        | r => r) = unsignedPart c := rfl
    unfold strconv.Atoi at h
    simp only [hbody] at h
    by_cases hne : unsignedPart c = []
    · simp [hne] at h
    · simp only [hne, if_false] at h
      rcases hp : parseDigits (unsignedPart c) 0 with _ | n
      · simp [hp] at h
      · have hall := parseDigits_some_all _ _ _ hp
        have hval := parseDigits_eq (unsignedPart c) 0 hall
        rw [hp] at hval
        simp only [Nat.zero_mul, Nat.zero_add, Option.some.injEq] at hval
        simp only [hp] at h
        by_cases hr : -9223372036854775808 ≤
            (if c.data.head? = some '-' then -(n : Int) else (n : Int))
            ∧ (if c.data.head? = some '-' then -(n : Int) else (n : Int))
              ≤ 9223372036854775807
        · refine ⟨?_, ?_⟩
          · simp only [isDecimal, Bool.and_eq_true, Bool.not_eq_true', List.isEmpty_eq_false]
            exact ⟨hne, hall⟩
          · simp only [decimalValue, ← hval]
            exact hr
        · rw [if_neg hr] at h
          cases h
  · rintro ⟨hc, hr1, hr2⟩
    exact ⟨_, Atoi_decimal c hc ⟨hr1, hr2⟩⟩

theorem Parse_ok_date (v : String) (t : Time) (h : time.Parse v = .ok t) :
    ∃ (y m d : Nat) (hm : 1 ≤ m ∧ m ≤ 12) (hd : 1 ≤ d ∧ d ≤ daysIn m (y : Int)),
      y ≤ 9999 ∧ t = time.Date (y : Int) m d hm hd := by
  unfold time.Parse at h
  simp only at h
  split_ifs at h with h1
  split at h
  · cases h
  · rename_i year hy
    split at h
    · rename_i v1 hv1
      split at h
      · cases h
      · rename_i month v2 hm
        split_ifs at h with hmr
        split at h
        · rename_i v3
          split at h
          · cases h
          · rename_i day v4 hd
            split_ifs at h with hv4 hdr
            injection h with h
            obtain ⟨a, b, c, d, x, y, z, w, _, ha, hb, hc, hdd, hn⟩ :=
              parseDigits_four v.data year (by omega) hy
            have hx := (digitVal_some _ _ ha).1
            have hy1 := (digitVal_some _ _ hb).1
            have hz := (digitVal_some _ _ hc).1
            have hw := (digitVal_some _ _ hdd).1
            exact ⟨year, month, day, hmr, hdr, by omega, h.symm⟩
        · cases h
    · cases h

theorem Parse_ok_iff (v : String) : (∃ t, time.Parse v = .ok t) ↔ IsDateText v := by
  constructor
  · rintro ⟨t, h⟩
    obtain ⟨y, m, d, hm, hd, hy, ht⟩ := Parse_ok_date v t h
    refine ⟨y, m, d, hm, hd, hy, ?_⟩
    rw [← ht]
    exact (Format_Parse v t h).symm
  · rintro ⟨y, m, d, hm, hd, hy, rfl⟩
    exact ⟨_, Parse_Format y m d hm hd hy⟩

/-- C27. `ParseEDGARIndexEntry` succeeds if and only if the line splits on `|` into
exactly 5 fields, the first field is a decimal integer (an optional sign and digits)
that `strconv.Atoi` converts, its value being in the range of a 64-bit `int`, and the
fourth field is the form `YYYY-MM-DD` of a calendar date. -/
theorem accepted_iff (s : String) :
    (∃ e, ParseEDGARIndexEntry s = .ok e) ↔
      ∃ c0 c1 c2 c3 c4, strings.Split s '|' = [c0, c1, c2, c3, c4]
        ∧ isDecimal c0 = true
        ∧ -9223372036854775808 ≤ decimalValue c0 ∧ decimalValue c0 ≤ 9223372036854775807
        ∧ IsDateText c3 := by
  constructor
  · rintro ⟨e, h⟩
    unfold ParseEDGARIndexEntry at h
    split at h
    · rename_i c0 c1 c2 c3 c4 hsplit
      split at h
      · cases h
      · rename_i cik hcik
        split at h
        · cases h
        · rename_i t ht
          obtain ⟨hd, hr1, hr2⟩ := (Atoi_ok_iff c0).mp ⟨cik, hcik⟩
          exact ⟨c0, c1, c2, c3, c4, hsplit, hd, hr1, hr2, (Parse_ok_iff c3).mp ⟨t, ht⟩⟩
    · cases h
  · rintro ⟨c0, c1, c2, c3, c4, hsplit, hd, hr1, hr2, hdate⟩
    obtain ⟨t, ht⟩ := (Parse_ok_iff c3).mpr hdate
    refine ⟨⟨decimalValue c0, c1, c2, t, c4⟩, ?_⟩
    unfold ParseEDGARIndexEntry
    rw [hsplit]
    simp only [Atoi_decimal c0 hd ⟨hr1, hr2⟩, ht]

/-- C27 at a line of 5 fields with a valid date and the owner id `x`, which is no
decimal integer: the line is rejected. -/
theorem accepted_iff_witness :
    strings.Split "x|A|4|2018-10-15|p" '|' = ["x", "A", "4", "2018-10-15", "p"]
      ∧ isDecimal "x" = false
      ∧ (∃ t, time.Parse "2018-10-15" = .ok t)
      ∧ ParseEDGARIndexEntry "x|A|4|2018-10-15|p" = .error (.numError "x")
      ∧ ¬ ∃ e, ParseEDGARIndexEntry "x|A|4|2018-10-15|p" = .ok e :=
  ⟨by decide, by decide, ⟨utc2018 10 15, by decide⟩, by decide, fun h => by
    obtain ⟨c0, c1, c2, c3, c4, hs, hd, _⟩ := (accepted_iff "x|A|4|2018-10-15|p").mp h
    have h0 : c0 = "x" := by
      have : strings.Split "x|A|4|2018-10-15|p" '|' = ["x", "A", "4", "2018-10-15", "p"] := by
        decide
      rw [this] at hs
      simp only [List.cons.injEq] at hs
      exact hs.1.symm
    subst h0
    exact absurd hd (by decide)⟩

/-! ### A record line that does not fit in the buffer of the scanner -/

theorem Join_length_ge (c n t d p : String) :
    n.data.length ≤ (strings.Join [c, n, t, d, p] '|').data.length := by
  simp only [strings.Join, List.map_cons, List.map_nil, joinChars, List.length_append,
    List.length_cons]
  omega

theorem longRecord_too_long : MaxScanTokenSize ≤ (bytes longRecord).length := by
  have h := bytes_length_ge longRecord
  have h1 : longLine.data.length = MaxScanTokenSize := by simp [longLine]
  have h2 : longLine.data.length ≤ longRecord.data.length :=
    Join_length_ge "1000045" longLine "4" "2018-10-15"
      "edgar/data/1000045/0001357521-18-000008.txt"
  omega

theorem longRecord_well_formed :
    ParseEDGARIndexEntry longRecord =
      .ok ⟨1000045, longLine, "4", utc2018 10 15,
        "edgar/data/1000045/0001357521-18-000008.txt"⟩ := by
  have hfmt : (time.Date ((2018 : Nat) : Int) 10 15 (by decide) (by decide)).Format
      = "2018-10-15" := by decide
  have h := ParseEDGARIndexEntry_joined "1000045" longLine "4"
    "edgar/data/1000045/0001357521-18-000008.txt" 2018 10 15 (by decide) (by decide)
    (by decide) (by decide) (by decide)
    (by
      intro hmem
      have := List.eq_of_mem_replicate hmem
      exact absurd this (by decide))
    (by decide) (by decide)
  rw [hfmt] at h
  rw [longRecord, h]
  rfl

/-- C15, as stated, fails: on the 12 leading lines of the sample followed by one
well-formed record line of more than `bufio.MaxScanTokenSize` bytes, `ParseEDGARIndex`
with a callback that never fails returns `bufio.ErrTooLong`, not nil, and never
invokes `f`. -/
theorem long_record_line_is_an_error :
    (sampleEDGARIndex.take 12).length = 12
      ∧ (ParseEDGARIndexEntry longRecord).toBool = true
      ∧ ParseEDGARIndex (NewScanner ⟨sampleEDGARIndex.take 12 ++ [longRecord], none, 0⟩)
          (logged noop) ((), []) = (((), []), some .tooLong) := by
  refine ⟨by decide, by rw [longRecord_well_formed]; rfl, ?_⟩
  have hsc := NewScanner_append (sampleEDGARIndex.take 12) [longRecord] none 0 (by decide)
  rw [NewScanner_long longRecord _ none 0 longRecord_too_long] at hsc
  rw [hsc]
  have hlines : (skipLoop 12 0
      ⟨(sampleEDGARIndex.take 12).map dropCR ++ [], some .tooLong, 0,
        some (dropCR (String.mk (takeBytes MaxScanTokenSize longRecord.data)))⟩).lines = [] := by
    rw [skipLoop_lines 12 0 _ (by decide) (by decide)]
    decide
  simp only [ParseEDGARIndex, skipLoop_err, hlines, parseEntries]

end Sec
